import Mathlib

/-!
# Collecting distributed cell data on the I/O rank

A shallow embedding of `ebos/collecttoiorank.hh` (class `Ewoms::CollectDataToIORank`
with its two data handles `DistributeIndexMapping` and `PackUnPack`).

Conventions of the embedding

* `std::vector<T>` is `List T`.  Reading `v[i]` with `i` outside the vector is undefined
  behaviour in C++; the embedding stops with `Fault.outOfRange` there.
* `assert(c)` is modelled as compiled in (a build without `NDEBUG`): a failing assertion
  stops the run with `Fault.assertion`.
* `OPM_THROW(std::logic_error, ..)` stops with `Fault.logicError`.
* `double` values are only copied by this file, never computed with; a value is represented
  by an integer (think of its bit pattern), `0` standing for `0.0`.
* Local cell indices and canonical positions (the entries of `IndexMapType`) are natural
  numbers: they are produced from `size_t` loop counters and element indices.  The width of
  `int` / `unsigned int` is not modelled; no arithmetic other than `i * stride + offset` is
  performed on them.  Physical (Cartesian) cell ids are integers, `-1` being the filler value.
* `std::map` is an association list; `Opm::data::Solution` is kept in ascending key order,
  which is the order a range-for visits it in.

The last section of the definitions embeds the loop control of `Dumux::IMPES::update`
(`dumux/fractionalflow/impes/impes.hh`).
-/

namespace Ewoms

/-- The ways a call can end without returning. -/
inductive Fault where
  /-- `OPM_THROW(std::logic_error, ...)` -/
  | logicError
  /-- a failing `assert(...)` of `collecttoiorank.hh` -/
  | assertion
  /-- reading from a message buffer that holds no further item of the requested type -/
  | bufferRead
  /-- element access outside a `std::vector` (undefined behaviour) -/
  | outOfRange
  /-- `Solution::data(key)` for a key that is not stored (`std::map::at` throws) -/
  | keyNotFound
  /-- `std::vector::resize` with a negative count converted to `size_t` -/
  | lengthError
  /-- a buffer arriving on a link that was never registered -/
  | transport
  deriving DecidableEq, Repr

/-- A `double`, only ever copied. -/
abbrev Scalar := Int

/-- `typedef std::vector<int> IndexMapType;` -/
abbrev IndexMapType := List Nat

/-- `typedef std::vector< IndexMapType > IndexMapStorageType;` -/
abbrev IndexMapStorageType := List IndexMapType

/-! ## The message buffer

`Dune::SimpleMessageBuffer` belongs to an external library.  It is a FIFO: `write` appends
an item, `read` takes the oldest unread item. -/

/-- One item written to a message buffer, tagged with the C++ type it was written as. -/
inductive Item where
  | int (v : Int)
  | uint (n : Nat)
  | dbl (x : Scalar)
  deriving DecidableEq, Repr

/-- The unread content of a `MessageBufferType`, oldest item first. -/
abbrev MessageBufferType := List Item

/-- `buffer.write( value )` -/
def MessageBufferType.write (buffer : MessageBufferType) (value : Item) : MessageBufferType :=
  buffer ++ [value]

/-- `buffer.read( value )` for an `int` -/
def MessageBufferType.readInt : MessageBufferType → Except Fault (Int × MessageBufferType)
  | Item.int v :: rest => .ok (v, rest)
  | _ => .error .bufferRead

/-- `buffer.read( value )` for an `unsigned int` -/
def MessageBufferType.readUInt : MessageBufferType → Except Fault (Nat × MessageBufferType)
  | Item.uint n :: rest => .ok (n, rest)
  | _ => .error .bufferRead

/-- `buffer.read( value )` for a `double` -/
def MessageBufferType.readDbl : MessageBufferType → Except Fault (Scalar × MessageBufferType)
  | Item.dbl x :: rest => .ok (x, rest)
  | _ => .error .bufferRead

/-! ## `std::map< const int, const int > globalPosition_` -/

/-- The lookup from physical cell id to canonical position. -/
abbrev PositionMap := List (Int × Nat)

/-- `globalPosition_.find( id )`: the stored position, if any. -/
def PositionMap.find (m : PositionMap) (id : Int) : Option Nat :=
  List.lookup id m

/-- `globalPosition_.insert( std::make_pair( id, index ) )`: a key already present keeps
its value. -/
def PositionMap.insert (m : PositionMap) (id : Int) (index : Nat) : PositionMap :=
  match PositionMap.find m id with
  | some _ => m
  | none => m ++ [(id, index)]

/-- `globalPosition_[ id ]`: the stored position; a missing key is first inserted with the
value-initialised position `0`. -/
def PositionMap.index (m : PositionMap) (id : Int) : Nat × PositionMap :=
  match PositionMap.find m id with
  | some pos => (pos, m)
  | none => (0, m ++ [(id, 0)])

/-! ## `DistributeIndexMapping` -/

/-- The members of `DistributeIndexMapping`. -/
structure DistributeIndexMapping where
  distributedGlobalIndex_ : List Int
  localIndexMap_ : IndexMapType
  indexMaps_ : IndexMapStorageType
  globalPosition_ : PositionMap
  deriving DecidableEq, Repr

/-- The first loop of the constructor, started at `index`:
`globalPosition_.insert( std::make_pair( globalIndex[ index ], index ) )`. -/
def insertPositions : List Int → Nat → PositionMap → PositionMap
  | [], _, m => m
  | id :: rest, index, m => insertPositions rest (index + 1) (PositionMap.insert m id index)

/-- The second loop of the constructor, over the entries of `localIndexMap_`:
`indexMap[ i ] = globalPosition_[ distributedGlobalIndex_[ localIndexMap_[ i ] ] ]`. -/
def translateLocal (distributedGlobalIndex : List Int) :
    List Nat → PositionMap → Except Fault (IndexMapType × PositionMap)
  | [], m => .ok ([], m)
  | li :: rest, m =>
    match distributedGlobalIndex[li]? with
    | none => .error .outOfRange
    | some id =>
      match translateLocal distributedGlobalIndex rest (PositionMap.index m id).2 with
      | .error e => .error e
      | .ok (indexMap, m') => .ok ((PositionMap.index m id).1 :: indexMap, m')

/-- The constructor `DistributeIndexMapping( globalIndex, distributedGlobalIndex,
localIndexMap, indexMaps )`. -/
def DistributeIndexMapping.construct (globalIndex distributedGlobalIndex : List Int)
    (localIndexMap : IndexMapType) (indexMaps : IndexMapStorageType) :
    Except Fault DistributeIndexMapping :=
  let globalPosition := insertPositions globalIndex 0 []
  if indexMaps.isEmpty then
    .ok { distributedGlobalIndex_ := distributedGlobalIndex, localIndexMap_ := localIndexMap,
          indexMaps_ := indexMaps, globalPosition_ := globalPosition }
  else
    match translateLocal distributedGlobalIndex localIndexMap globalPosition with
    | .error e => .error e
    | .ok (indexMap, globalPosition') =>
      .ok { distributedGlobalIndex_ := distributedGlobalIndex, localIndexMap_ := localIndexMap,
            indexMaps_ := indexMaps.set (indexMaps.length - 1) indexMap,
            globalPosition_ := globalPosition' }

/-- The loop of `DistributeIndexMapping::pack`:
`buffer.write( distributedGlobalIndex_[ localIndexMap_[ index ] ] )`. -/
def writeIds (distributedGlobalIndex : List Int) :
    List Nat → MessageBufferType → Except Fault MessageBufferType
  | [], buffer => .ok buffer
  | li :: rest, buffer =>
    match distributedGlobalIndex[li]? with
    | none => .error .outOfRange
    | some globalIdx =>
      writeIds distributedGlobalIndex rest (MessageBufferType.write buffer (Item.int globalIdx))

/-- `DistributeIndexMapping::pack( link, buffer )` -/
def DistributeIndexMapping.pack (self : DistributeIndexMapping) (link : Int)
    (buffer : MessageBufferType) : Except Fault MessageBufferType :=
  if link ≠ 0 then .error .logicError
  else
    writeIds self.distributedGlobalIndex_ self.localIndexMap_
      (MessageBufferType.write buffer (Item.int self.localIndexMap_.length))

/-- The loop of `DistributeIndexMapping::unpack`, with `numCells` rounds left:
read `globalId`, `assert( globalPosition_.find( globalId ) != globalPosition_.end() )`,
store `globalPosition_[ globalId ]`. -/
def readIds (globalPosition : PositionMap) :
    Nat → MessageBufferType → Except Fault (IndexMapType × MessageBufferType)
  | 0, buffer => .ok ([], buffer)
  | numCells + 1, buffer =>
    match MessageBufferType.readInt buffer with
    | .error e => .error e
    | .ok (globalId, buffer') =>
      match PositionMap.find globalPosition globalId with
      | none => .error .assertion
      | some pos =>
        match readIds globalPosition numCells buffer' with
        | .error e => .error e
        | .ok (indexMap, buffer'') => .ok (pos :: indexMap, buffer'')

/-- `DistributeIndexMapping::unpack( link, buffer )`; the buffer is dropped afterwards. -/
def DistributeIndexMapping.unpack (self : DistributeIndexMapping) (link : Int)
    (buffer : MessageBufferType) : Except Fault DistributeIndexMapping :=
  if link < 0 ∨ self.indexMaps_.length ≤ link.toNat then .error .outOfRange
  else if self.globalPosition_.isEmpty then .error .assertion
  else
    match MessageBufferType.readInt buffer with
    | .error e => .error e
    | .ok (numCells, buffer') =>
      if numCells < 0 then .error .lengthError
      else
        match readIds self.globalPosition_ numCells.toNat buffer' with
        | .error e => .error e
        | .ok (indexMap, _) =>
          .ok { self with indexMaps_ := self.indexMaps_.set link.toNat indexMap }

/-! ## `Opm::data::Solution`

`Opm::data::Solution` is a `std::map< std::string, Opm::data::CellData >` of an external
library.  Only the members used by `collecttoiorank.hh` are modelled. -/

/-- `Opm::data::CellData`: unit dimension, the values and the output target. -/
structure CellData where
  dim : Nat
  data : List Scalar
  target : Nat
  deriving DecidableEq, Repr

/-- The entries of a `Solution` in iteration order (ascending keys). -/
abbrev Solution := List (String × CellData)

/-- `sol.insert( key, dim, data, target )`: the entry is placed at its position in key order;
a key already present keeps its entry.  The flag is `ret.second`. -/
def Solution.insert : Solution → String → CellData → Solution × Bool
  | [], key, cd => ([(key, cd)], true)
  | (k, v) :: rest, key, cd =>
    if key < k then ((key, cd) :: (k, v) :: rest, true)
    else if key = k then ((k, v) :: rest, false)
    else ((k, v) :: (Solution.insert rest key cd).1, (Solution.insert rest key cd).2)

/-- `sol.data( key )`: the values stored for `key`. -/
def Solution.data (sol : Solution) (key : String) : Except Fault (List Scalar) :=
  match List.lookup key sol with
  | none => .error .keyNotFound
  | some cd => .ok cd.data

/-- Writing through the reference returned by `sol.data( key )`. -/
def Solution.setData : Solution → String → List Scalar → Solution
  | [], _, _ => []
  | (k, v) :: rest, key, d =>
    if key = k then (k, { v with data := d }) :: rest
    else (k, v) :: Solution.setData rest key d

/-! ## `PackUnPack` -/

/-- The members of `PackUnPack`. -/
structure PackUnPack where
  localCellData_ : Solution
  globalCellData_ : Solution
  localIndexMap_ : IndexMapType
  indexMaps_ : IndexMapStorageType
  deriving DecidableEq, Repr

/-- The loop of `PackUnPack::write` over the entries of `localIndexMap`:
`index = localIndexMap[ i ] * stride + offset; assert( index < vector.size() );
buffer.write( vector[ index ] )`. -/
def writeValues (vector : List Scalar) (offset stride : Nat) :
    List Nat → MessageBufferType → Except Fault MessageBufferType
  | [], buffer => .ok buffer
  | li :: rest, buffer =>
    match vector[li * stride + offset]? with
    | none => .error .assertion
    | some x =>
      writeValues vector offset stride rest (MessageBufferType.write buffer (Item.dbl x))

/-- `PackUnPack::write( buffer, localIndexMap, vector, offset, stride )` -/
def PackUnPack.write (buffer : MessageBufferType) (localIndexMap : IndexMapType)
    (vector : List Scalar) (offset stride : Nat) : Except Fault MessageBufferType :=
  if stride * localIndexMap.length ≤ vector.length then
    writeValues vector offset stride localIndexMap
      (MessageBufferType.write buffer (Item.uint localIndexMap.length))
  else .error .assertion

/-- The loop of `PackUnPack::read` over the entries of `indexMap`:
`index = indexMap[ i ] * stride + offset; assert( index < vector.size() );
buffer.read( vector[ index ] )`. -/
def readValues (offset stride : Nat) :
    List Nat → MessageBufferType → List Scalar → Except Fault (List Scalar × MessageBufferType)
  | [], buffer, vector => .ok (vector, buffer)
  | pos :: rest, buffer, vector =>
    if pos * stride + offset < vector.length then
      match MessageBufferType.readDbl buffer with
      | .error e => .error e
      | .ok (x, buffer') =>
        readValues offset stride rest buffer' (vector.set (pos * stride + offset) x)
    else .error .assertion

/-- `PackUnPack::read( buffer, indexMap, vector, offset, stride )` -/
def PackUnPack.read (buffer : MessageBufferType) (indexMap : IndexMapType)
    (vector : List Scalar) (offset stride : Nat) :
    Except Fault (List Scalar × MessageBufferType) :=
  match MessageBufferType.readUInt buffer with
  | .error e => .error e
  | .ok (size, buffer') =>
    if size = indexMap.length then readValues offset stride indexMap buffer' vector
    else .error .assertion

/-- The loop of `PackUnPack::pack` over the entries of `localCellData_`. -/
def packFields (localIndexMap : IndexMapType) :
    Solution → MessageBufferType → Except Fault MessageBufferType
  | [], buffer => .ok buffer
  | pair :: rest, buffer =>
    match PackUnPack.write buffer localIndexMap pair.2.data 0 1 with
    | .error e => .error e
    | .ok buffer' => packFields localIndexMap rest buffer'

/-- `PackUnPack::pack( link, buffer )` -/
def PackUnPack.pack (self : PackUnPack) (link : Int) (buffer : MessageBufferType) :
    Except Fault MessageBufferType :=
  if link ≠ 0 then .error .logicError
  else packFields self.localIndexMap_ self.localCellData_ buffer

/-- The loop of `PackUnPack::doUnpack` over the entries of `localCellData_`:
`auto& data = globalCellData_.data( key ); read( buffer, indexMap, data )`. -/
def unpackFields (indexMap : IndexMapType) :
    Solution → Solution → MessageBufferType → Except Fault (Solution × MessageBufferType)
  | [], globalCellData, buffer => .ok (globalCellData, buffer)
  | pair :: rest, globalCellData, buffer =>
    match Solution.data globalCellData pair.1 with
    | .error e => .error e
    | .ok data =>
      match PackUnPack.read buffer indexMap data 0 1 with
      | .error e => .error e
      | .ok (data', buffer') =>
        unpackFields indexMap rest (Solution.setData globalCellData pair.1 data') buffer'

/-- `PackUnPack::doUnpack( indexMap, buffer )` -/
def PackUnPack.doUnpack (self : PackUnPack) (indexMap : IndexMapType)
    (buffer : MessageBufferType) : Except Fault (PackUnPack × MessageBufferType) :=
  match unpackFields indexMap self.localCellData_ self.globalCellData_ buffer with
  | .error e => .error e
  | .ok (globalCellData, buffer') =>
    .ok ({ self with globalCellData_ := globalCellData }, buffer')

/-- `PackUnPack::unpack( link, buffer )`; the buffer is dropped afterwards. -/
def PackUnPack.unpack (self : PackUnPack) (link : Int) (buffer : MessageBufferType) :
    Except Fault PackUnPack :=
  if link < 0 then .error .outOfRange
  else
    match self.indexMaps_[link.toNat]? with
    | none => .error .outOfRange
    | some indexMap =>
      match PackUnPack.doUnpack self indexMap buffer with
      | .error e => .error e
      | .ok (self', _) => .ok self'

/-- The first loop of the `PackUnPack` constructor on the I/O rank:
`ret = globalCellData_.insert( key, dim, std::vector<double>( globalSize ), target );
assert( ret.second )`. -/
def insertFields (globalSize : Nat) : Solution → Solution → Except Fault Solution
  | [], globalCellData => .ok globalCellData
  | pair :: rest, globalCellData =>
    if (Solution.insert globalCellData pair.1
          { dim := pair.2.dim, data := List.replicate globalSize 0,
            target := pair.2.target }).2 then
      insertFields globalSize rest
        (Solution.insert globalCellData pair.1
          { dim := pair.2.dim, data := List.replicate globalSize 0,
            target := pair.2.target }).1
    else .error .assertion

/-- The constructor `PackUnPack( localCellData, globalCellData, localIndexMap, indexMaps,
globalSize, isIORank )`. -/
def PackUnPack.construct (localCellData globalCellData : Solution)
    (localIndexMap : IndexMapType) (indexMaps : IndexMapStorageType) (globalSize : Nat)
    (isIORank : Bool) : Except Fault PackUnPack :=
  if isIORank then
    match insertFields globalSize localCellData globalCellData with
    | .error e => .error e
    | .ok globalCellData' =>
      let self : PackUnPack :=
        { localCellData_ := localCellData, globalCellData_ := globalCellData',
          localIndexMap_ := localIndexMap, indexMaps_ := indexMaps }
      match PackUnPack.pack self 0 [] with
      | .error e => .error e
      | .ok buffer =>
        match indexMaps.getLast? with
        | none => .error .outOfRange
        | some indexMap =>
          match PackUnPack.doUnpack self indexMap buffer with
          | .error e => .error e
          | .ok (self', _) => .ok self'
  else
    .ok { localCellData_ := localCellData, globalCellData_ := globalCellData,
          localIndexMap_ := localIndexMap, indexMaps_ := indexMaps }

/-! ## The point-to-point communicator

`Dune::Point2PointCommunicator` belongs to an external library; its behaviour is taken
from section 4.3 of the specification. -/

/-- Modelled from the spec: the state of the transport (`Dune::Point2PointCommunicator`,
not part of the sources): rank and size of the communicator and the links registered with
`insertRequest( send, recv )`; link `i` is the `i`-th rank of the respective list. -/
structure P2PCommunicatorType where
  rank : Nat
  size : Nat
  sendLinks : List Nat
  recvLinks : List Nat
  deriving DecidableEq, Repr

/-- Modelled from the spec: the send half of `exchange(handler)` (external transport):
for every registered send link, starting with number `link`, invoke `handler.pack(link,
buffer)` on a fresh buffer and transmit the buffer to the rank of the link. -/
def sendAll (pack : Int → MessageBufferType → Except Fault MessageBufferType) :
    List Nat → Nat → Except Fault (List (Nat × MessageBufferType))
  | [], _ => .ok []
  | dest :: rest, link =>
    match pack link [] with
    | .error e => .error e
    | .ok buffer =>
      match sendAll pack rest (link + 1) with
      | .error e => .error e
      | .ok sent => .ok ((dest, buffer) :: sent)

/-- Modelled from the spec: the receive half of `exchange(handler)` (external transport):
for every buffer received, in the order of arrival, invoke `handler.unpack(link, buffer)`.
An arrival is a pair of the link number and the buffer. -/
def receiveAll {H : Type} (unpack : H → Int → MessageBufferType → Except Fault H)
    (numLinks : Nat) : List (Nat × MessageBufferType) → H → Except Fault H
  | [], handle => .ok handle
  | arrival :: rest, handle =>
    if numLinks ≤ arrival.1 then .error .transport
    else
      match unpack handle arrival.1 arrival.2 with
      | .error e => .error e
      | .ok handle' => receiveAll unpack numLinks rest handle'

/-- Modelled from the spec: `exchange(handler)` of the external transport.  The result is
the handler after all unpacks together with the buffers sent, each with its destination
rank. -/
def P2PCommunicatorType.exchange {H : Type} (comm : P2PCommunicatorType)
    (pack : H → Int → MessageBufferType → Except Fault MessageBufferType)
    (unpack : H → Int → MessageBufferType → Except Fault H)
    (handle : H) (arrivals : List (Nat × MessageBufferType)) :
    Except Fault (H × List (Nat × MessageBufferType)) :=
  match sendAll (pack handle) comm.sendLinks 0 with
  | .error e => .error e
  | .ok sent =>
    match receiveAll unpack comm.recvLinks.length arrivals handle with
    | .error e => .error e
    | .ok handle' => .ok (handle', sent)

/-! ## `CollectDataToIORank` -/

/-- `enum { ioRank = 0 };` -/
def ioRank : Nat := 0

/-- The members of `CollectDataToIORank`, with the compile-time constant
`needsReordering` (the grid type differs from the type of the equil grid). -/
structure CollectDataToIORank where
  needsReordering : Bool
  toIORankComm_ : P2PCommunicatorType
  globalCartesianIndex_ : List Int
  localIndexMap_ : IndexMapType
  indexMaps_ : IndexMapStorageType
  globalCellData_ : Solution
  deriving DecidableEq, Repr

/-- `isIORank()` -/
def CollectDataToIORank.isIORank (self : CollectDataToIORank) : Bool :=
  self.toIORankComm_.rank == ioRank

/-- `isParallel()` -/
def CollectDataToIORank.isParallel (self : CollectDataToIORank) : Bool :=
  decide (1 < self.toIORankComm_.size)

/-- `numCells()` -/
def CollectDataToIORank.numCells (self : CollectDataToIORank) : Nat :=
  self.globalCartesianIndex_.length

/-- `collect( localCellData )`.  `arrivals` are the buffers the transport delivers during
the exchange, in their order of arrival; the second component of the result are the buffers
this process sent. -/
def CollectDataToIORank.collect (self : CollectDataToIORank) (localCellData : Solution)
    (arrivals : List (Nat × MessageBufferType)) :
    Except Fault (CollectDataToIORank × List (Nat × MessageBufferType)) :=
  if !self.needsReordering && !self.isParallel then
    .ok ({ self with globalCellData_ := [] }, [])
  else
    match PackUnPack.construct localCellData [] self.localIndexMap_ self.indexMaps_
        self.numCells self.isIORank with
    | .error e => .error e
    | .ok packUnpack =>
      if !self.isParallel then
        .ok ({ self with globalCellData_ := packUnpack.globalCellData_ }, [])
      else
        match self.toIORankComm_.exchange PackUnPack.pack PackUnPack.unpack packUnpack
            arrivals with
        | .error e => .error e
        | .ok (packUnpack', sent) =>
          .ok ({ self with globalCellData_ := packUnpack'.globalCellData_ }, sent)

/-- `localIdxToGlobalIdx( localIdx )` -/
def CollectDataToIORank.localIdxToGlobalIdx (self : CollectDataToIORank) (localIdx : Nat) :
    Except Fault Nat :=
  if !self.isParallel then .ok localIdx
  else
    match self.indexMaps_.getLast? with
    | none => .error .outOfRange
    | some indexMap =>
      if indexMap.isEmpty then .error .logicError
      else if indexMap.length < localIdx then .error .logicError
      else
        match indexMap[localIdx]? with
        | none => .error .outOfRange
        | some pos => .ok pos

/-! ## The constructor of `CollectDataToIORank`

The grid manager is an external collaborator; the constructor only uses the items below. -/

/-- What the constructor of `CollectDataToIORank` reads from its `gridManager`. -/
structure GridManager where
  /-- `gridManager.grid().comm().rank()` -/
  commRank : Nat
  /-- `gridManager.grid().comm().size()` -/
  commSize : Nat
  /-- `gridManager.equilGrid().leafGridView().size( 0 )` -/
  equilSize : Nat
  /-- `equilElemMapper.index( *elemIt )` for the leaf elements of the equil grid, in the
  order the iterator visits them -/
  equilElements : List Nat
  /-- `gridManager.equilCartesianIndexMapper().cartesianIndex( elemIdx )` -/
  equilCartesianIndex : Nat → Int
  /-- `gridManager.grid().size( 0 )` -/
  gridSize : Nat
  /-- `elemMapper.index( element )` for the elements of the local grid view, in the order
  the iterator visits them -/
  gridElements : List Nat
  /-- `gridManager.cartesianIndex( elemIdx )` -/
  cartesianIndex : Nat → Int

/-- The loops `vector[ elemIdx ] = cartesianIndex( elemIdx )` of the constructor. -/
def storeCartesianIndex (cartesianIndex : Nat → Int) : List Nat → List Int → Except Fault (List Int)
  | [], vector => .ok vector
  | elemIdx :: rest, vector =>
    if elemIdx < vector.length then
      storeCartesianIndex cartesianIndex rest (vector.set elemIdx (cartesianIndex elemIdx))
    else .error .outOfRange

/-- The constructor `CollectDataToIORank( gridManager )`.  `arrivals` are the buffers the
transport delivers during the exchange of `distIndexMapping`; the second component of the
result are the buffers this process sent. -/
def CollectDataToIORank.construct (needsReordering : Bool) (gridManager : GridManager)
    (arrivals : List (Nat × MessageBufferType)) :
    Except Fault (CollectDataToIORank × List (Nat × MessageBufferType)) :=
  let comm : P2PCommunicatorType :=
    { rank := gridManager.commRank, size := gridManager.commSize,
      sendLinks := [], recvLinks := [] }
  if !needsReordering && !decide (1 < comm.size) then
    .ok ({ needsReordering := needsReordering, toIORankComm_ := comm,
           globalCartesianIndex_ := [], localIndexMap_ := [], indexMaps_ := [],
           globalCellData_ := [] }, [])
  else
    match storeCartesianIndex gridManager.equilCartesianIndex gridManager.equilElements
        (List.replicate gridManager.equilSize (-1)) with
    | .error e => .error e
    | .ok globalCartesianIndex =>
      let recv : List Nat :=
        if comm.rank == ioRank then (List.range gridManager.commSize).filter (fun i => i != ioRank)
        else []
      let send : List Nat := if comm.rank == ioRank then [] else [ioRank]
      match storeCartesianIndex gridManager.cartesianIndex gridManager.gridElements
          (List.replicate gridManager.gridSize (-1)) with
      | .error e => .error e
      | .ok distributedCartesianIndex =>
        let localIndexMap : IndexMapType := gridManager.gridElements
        let comm' : P2PCommunicatorType := { comm with sendLinks := send, recvLinks := recv }
        let indexMaps : IndexMapStorageType := List.replicate gridManager.commSize []
        match DistributeIndexMapping.construct globalCartesianIndex distributedCartesianIndex
            localIndexMap indexMaps with
        | .error e => .error e
        | .ok distIndexMapping =>
          match comm'.exchange DistributeIndexMapping.pack DistributeIndexMapping.unpack
              distIndexMapping arrivals with
          | .error e => .error e
          | .ok (distIndexMapping', sent) =>
            .ok ({ needsReordering := needsReordering, toIORankComm_ := comm',
                   globalCartesianIndex_ := globalCartesianIndex,
                   localIndexMap_ := localIndexMap,
                   indexMaps_ := distIndexMapping'.indexMaps_,
                   globalCellData_ := [] }, sent)

/-! ## Descriptions used in the statements

Pure descriptions of what the loops above compute, the settings the theorems are stated
in, and the concrete configurations they are evaluated at. -/

/-- The values of `vector` at the local indices of `localIndexMap`, in that order. -/
def gatherValues (localIndexMap : IndexMapType) (vector : List Scalar) : List Scalar :=
  localIndexMap.map (fun li => vector.getD li 0)

/-- Storing `values` one after the other at the positions listed in `indexMap`. -/
def scatter : List Nat → List Scalar → List Scalar → List Scalar
  | pos :: rest, x :: xs, vector => scatter rest xs (vector.set pos x)
  | _, _, vector => vector

/-- The buffer content `PackUnPack::pack` produces for the fields of `localCellData`:
for each field the count followed by the gathered values. -/
def wireFormat (lim : IndexMapType) : Solution → MessageBufferType
  | [] => []
  | pair :: rest =>
    Item.uint lim.length :: (gatherValues lim pair.2.data).map Item.dbl ++ wireFormat lim rest

/-- The values stored for `key`, the empty vector when the key is missing. -/
def Solution.dataD (sol : Solution) (key : String) : List Scalar :=
  match List.lookup key sol with
  | some cd => cd.data
  | none => []

/-- A packed buffer given key by key: for each key the count `n` and the values `vals key`. -/
def chunks (n : Nat) (vals : String → List Scalar) : List String → MessageBufferType
  | [] => []
  | key :: rest => Item.uint n :: (vals key).map Item.dbl ++ chunks n vals rest

/-- What `doUnpack` does to the global data, entry by entry: the data of the keys of
`keys` is overwritten at the positions of `table`. -/
def scatterField (table : IndexMapType) (vals : String → List Scalar) (keys : List String)
    (k : String) (cd : CellData) : CellData :=
  if k ∈ keys then { cd with data := scatter table (vals k) cd.data } else cd

/-- The global data holding, for each field of `ld`, the vector `D key` with the dimension
and target of the field. -/
def globalOf (ld : Solution) (D : String → List Scalar) : Solution :=
  ld.map (fun p => (p.1, { dim := p.2.dim, data := D p.1, target := p.2.target }))

/-- Applying the scatters of several contributions, first to last. -/
def scatterAll (cs : List (IndexMapType × List Scalar)) (vector : List Scalar) : List Scalar :=
  cs.foldl (fun v c => scatter c.1 c.2 v) vector

/-- The values a process with handle `sender` packs for the field `key`. -/
def PackUnPack.packedValues (sender : PackUnPack) (key : String) : List Scalar :=
  gatherValues sender.localIndexMap_ (Solution.dataD sender.localCellData_ key)

/-- The arrival `(link, buffer)` fits the receiving side: the buffer is what `sender` packs,
`sender` packs the field keys of `ld`, the link has a table in `indexMaps`, the declared
length is the length of that table, and the entries of the table are below `N`. -/
def FitsLink (ld : Solution) (indexMaps : IndexMapStorageType) (N : Nat)
    (sender : PackUnPack) (arrival : Nat × MessageBufferType) : Prop :=
  PackUnPack.pack sender 0 [] = .ok arrival.2 ∧
  sender.localCellData_.map Prod.fst = ld.map Prod.fst ∧
  arrival.1 < indexMaps.length ∧
  sender.localIndexMap_.length = (indexMaps.getD arrival.1 []).length ∧
  ∀ pos ∈ indexMaps.getD arrival.1 [], pos < N

/-- The contributions of the arrivals to the field `key`: for each arrival the table of its
link and the values its sender packed. -/
def arrivalContribs (indexMaps : IndexMapStorageType) (senders : Nat → PackUnPack)
    (key : String) (arrivals : List (Nat × MessageBufferType)) :
    List (IndexMapType × List Scalar) :=
  arrivals.map (fun a => (indexMaps.getD a.1 [], (senders a.1).packedValues key))

/-- The contributions to the field `key` in the order `collect` applies them on the
coordinator: its own fold-in first, then the arrivals. -/
def collectContribs (s : CollectDataToIORank) (ld : Solution) (ownT : IndexMapType)
    (senders : Nat → PackUnPack) (key : String) (arrivals : List (Nat × MessageBufferType)) :
    List (IndexMapType × List Scalar) :=
  (ownT, gatherValues s.localIndexMap_ (Solution.dataD ld key)) ::
    arrivalContribs s.indexMaps_ senders key arrivals

/-- The setting of a collect on the coordinator of a multi-process run: the process is the
I/O rank of a communicator with more than one process and sends nothing; its local data is
a well-formed `Solution` that its pack accepts; its own table is the last one and has one
entry below `numCells()` per packed cell; every arrival comes over a registered link and
fits the table of its link. -/
structure CoordinatorRun (s : CollectDataToIORank) (ld : Solution) (ownT : IndexMapType)
    (senders : Nat → PackUnPack) (arrivals : List (Nat × MessageBufferType)) : Prop where
  ioRank : s.isIORank = true
  parallel : s.isParallel = true
  noSend : s.toIORankComm_.sendLinks = []
  sortedKeys : (ld.map Prod.fst).Pairwise (· < ·)
  ownPack : ∀ pair ∈ ld, s.localIndexMap_.length ≤ pair.2.data.length ∧
    ∀ li ∈ s.localIndexMap_, li < pair.2.data.length
  ownTable : s.indexMaps_.getLast? = some ownT
  ownLength : s.localIndexMap_.length = ownT.length
  ownBelow : ∀ pos ∈ ownT, pos < s.numCells
  fits : ∀ a ∈ arrivals, a.1 < s.toIORankComm_.recvLinks.length ∧
    FitsLink ld s.indexMaps_ s.numCells (senders a.1) a

/-- The processes taking part in a collect as the coordinator sees them, its own fold-in
first: for each the index table used for it, its local index list and its local data. -/
def collectProcesses (s : CollectDataToIORank) (ld : Solution) (ownT : IndexMapType)
    (senders : Nat → PackUnPack) (arrivals : List (Nat × MessageBufferType)) :
    List (IndexMapType × IndexMapType × Solution) :=
  (ownT, s.localIndexMap_, ld) ::
    arrivals.map (fun a =>
      (s.indexMaps_.getD a.1 [], (senders a.1).localIndexMap_, (senders a.1).localCellData_))

/-- In the global data `g`, for every field key of `keys`, every process and every `i`, the
value at the `i`-th entry of the table of the process is the `i`-th value the process
packed: `g[k][table[i]] = localData[k][localIndexMap[i]]`. -/
def PlacesPackedValues (keys : List String) (g : Solution)
    (procs : List (IndexMapType × IndexMapType × Solution)) : Prop :=
  ∀ p ∈ procs, ∀ k ∈ keys, ∀ (i li pos : Nat), p.2.1[i]? = some li → p.1[i]? = some pos →
    ∃ x, (Solution.dataD p.2.2 k)[li]? = some x ∧ (Solution.dataD g k)[pos]? = some x

/-- The contribution of a process to the field `key`: its table and the values it packs. -/
def contribOf (key : String) (p : IndexMapType × IndexMapType × Solution) :
    IndexMapType × List Scalar :=
  (p.1, gatherValues p.2.1 (Solution.dataD p.2.2 key))

/-- A process fits a global field of `N` entries: one table entry below `N` per packed cell,
and every packed local index is inside each of its fields. -/
def ProcFits (N : Nat) (keys : List String) (p : IndexMapType × IndexMapType × Solution) :
    Prop :=
  p.2.1.length = p.1.length ∧ (∀ pos ∈ p.1, pos < N) ∧
    ∀ k ∈ keys, ∀ li ∈ p.2.1, li < (Solution.dataD p.2.2 k).length

/-- A one-field local buffer `"P"` with the given values. -/
def pressureField (values : List Scalar) : Solution :=
  [("P", { dim := 0, data := values, target := 0 })]

/-- The coordinator of the three-process example after setup: canonical array
`[0,1,2,3,4,5]`, tables `[0,1]` and `[2,3]` for its two links and `[4,5]` for itself. -/
def exampleCoordinator : CollectDataToIORank :=
  { needsReordering := true,
    toIORankComm_ := { rank := 0, size := 3, sendLinks := [], recvLinks := [1, 2] },
    globalCartesianIndex_ := [0, 1, 2, 3, 4, 5],
    localIndexMap_ := [0, 1],
    indexMaps_ := [[0, 1], [2, 3], [4, 5]],
    globalCellData_ := [] }

/-- The handles of the two workers of the example, by link. -/
def exampleSenders (link : Nat) : PackUnPack :=
  { localCellData_ := pressureField (if link = 0 then [100, 101] else [102, 103]),
    globalCellData_ := [], localIndexMap_ := [0, 1], indexMaps_ := [[], [], []] }

/-- The buffers of the two workers of the example, the one of link 1 arriving first. -/
def exampleArrivals : List (Nat × MessageBufferType) :=
  [(1, [Item.uint 2, Item.dbl 102, Item.dbl 103]), (0, [Item.uint 2, Item.dbl 100, Item.dbl 101])]

/-- A coordinator with one link whose table `[0, 0]` names position 0 twice; its own table
is empty. -/
def repeatCoordinator : CollectDataToIORank :=
  { needsReordering := true,
    toIORankComm_ := { rank := 0, size := 2, sendLinks := [], recvLinks := [1] },
    globalCartesianIndex_ := [0],
    localIndexMap_ := [],
    indexMaps_ := [[0, 0], []],
    globalCellData_ := [] }

/-- The worker behind the link of `repeatCoordinator`: two cells with values 1 and 2. -/
def repeatSenders (_link : Nat) : PackUnPack :=
  { localCellData_ := pressureField [1, 2], globalCellData_ := [], localIndexMap_ := [0, 1],
    indexMaps_ := [[], []] }

/-- The grid manager of a process of the three-process example: the equil grid has the six
cells `0 .. 5` with Cartesian index equal to the element index; the process owns two cells
with Cartesian indices `first` and `first + 1`. -/
def exampleGrid (rank : Nat) (first : Int) : GridManager :=
  { commRank := rank, commSize := 3, equilSize := 6, equilElements := [0, 1, 2, 3, 4, 5],
    equilCartesianIndex := fun elemIdx => elemIdx, gridSize := 2, gridElements := [0, 1],
    cartesianIndex := fun elemIdx => first + elemIdx }

/-- A buffer as `write` frames it, field by field: each field is the declared count
followed by its values. -/
def framedBuffer : List (Nat × List Scalar) → MessageBufferType
  | [] => []
  | f :: rest => Item.uint f.1 :: (f.2.map Item.dbl ++ framedBuffer rest)

/-- A local buffer with the two fields `"A"` and `"B"`. -/
def twoFields (a b : List Scalar) : Solution :=
  [("A", { dim := 0, data := a, target := 0 }), ("B", { dim := 0, data := b, target := 0 })]

/-- A local buffer with the single field `key`. -/
def oneField (key : String) (a : List Scalar) : Solution :=
  [(key, { dim := 0, data := a, target := 0 })]

/-- The coordinator of a two-process run with two cells: the worker's cell is at canonical
position 1, its own at position 0. -/
def pairCoordinator : CollectDataToIORank :=
  { needsReordering := true,
    toIORankComm_ := { rank := 0, size := 2, sendLinks := [], recvLinks := [1] },
    globalCartesianIndex_ := [0, 1],
    localIndexMap_ := [0],
    indexMaps_ := [[1], [0]],
    globalCellData_ := [] }

/-- The two `Solution`s of a handle are `std::map`s: no key occurs twice. -/
def PackUnPack.WellFormed (h : PackUnPack) : Prop :=
  (h.localCellData_.map Prod.fst).Nodup ∧ (h.globalCellData_.map Prod.fst).Nodup

/-- The tables of two arrivals are disjoint. -/
def DisjointLinks (maps : IndexMapStorageType) (a b : Nat × MessageBufferType) : Prop :=
  List.Disjoint (maps.getD a.1 []) (maps.getD b.1 [])

/-- The handle of the coordinator of the three-process example after its own fold-in. -/
def exampleHandle : PackUnPack :=
  { localCellData_ := pressureField [104, 105],
    globalCellData_ := pressureField [0, 0, 0, 0, 104, 105],
    localIndexMap_ := [0, 1], indexMaps_ := [[0, 1], [2, 3], [4, 5]] }

/-- The coordinator of a three-process run over the canonical cells `0, 1` in which both
workers reported cell `0`: the tables of its two links are both `[0]`, its own is `[1]`. -/
def overlapCoordinator : CollectDataToIORank :=
  { needsReordering := true,
    toIORankComm_ := { rank := 0, size := 3, sendLinks := [], recvLinks := [1, 2] },
    globalCartesianIndex_ := [0, 1],
    localIndexMap_ := [0],
    indexMaps_ := [[0], [0], [1]],
    globalCellData_ := [] }

/-- The physical cell ids a process contributes: `distributedGlobalIndex[ localIndexMap[i] ]`
for each `i` (the filler `-1` stands for an index outside the vector). -/
def physicalIds (distributedGlobalIndex : List Int) (localIndexMap : IndexMapType) : List Int :=
  localIndexMap.map (fun li => distributedGlobalIndex.getD li (-1))

/-- The canonical position of a physical cell id: its first index in the canonical array. -/
def canonicalPosition (globalIndex : List Int) (id : Int) : Nat :=
  globalIndex.indexOf id

/-- The table `unpack` (or the constructor) builds from the cells a process contributes. -/
def tableOf (g : List Int) (w : DistributeIndexMapping) : IndexMapType :=
  (physicalIds w.distributedGlobalIndex_ w.localIndexMap_).map (canonicalPosition g)

/-- Storing, for each arrival in turn, the table of its link. -/
def storeTables (g : List Int) (workers : Nat → DistributeIndexMapping)
    (arrivals : List (Nat × MessageBufferType)) (maps : IndexMapStorageType) :
    IndexMapStorageType :=
  arrivals.foldl (fun ms a => ms.set a.1 (tableOf g (workers a.1))) maps

/-- The physical cell ids contributed by all processes: those of the coordinator, then those
of the workers behind the links `0 .. numLinks - 1`. -/
def contributedIds (d0 : List Int) (lim0 : IndexMapType)
    (workers : Nat → DistributeIndexMapping) (numLinks : Nat) : List Int :=
  physicalIds d0 lim0 ++
    ((List.range numLinks).map (fun l =>
      physicalIds (workers l).distributedGlobalIndex_ (workers l).localIndexMap_)).flatten

/-- The index-mapping handles of the two workers of the three-process example, by link. -/
def exampleWorkers (link : Nat) : DistributeIndexMapping :=
  { distributedGlobalIndex_ := if link = 0 then [0, 1] else [2, 3], localIndexMap_ := [0, 1],
    indexMaps_ := [[], [], []], globalPosition_ := [] }

/-- The local field buffer of a process whose local cells have the physical ids `d`: the
fields of `template` (keys, dimensions, targets), each holding for every local cell the
value `field key id` of the underlying field at the cell's physical id. -/
def localDataOf (template : Solution) (field : String → Int → Scalar) (d : List Int) :
    Solution :=
  globalOf template (fun k => d.map (field k))

/-- The physical cell ids contributed in a collect, process by process: those of the
coordinator first, then those of the sender of each arrival. -/
def assignedIds (s : CollectDataToIORank) (d0 : List Int) (senders : Nat → PackUnPack)
    (ds : Nat → List Int) (arrivals : List (Nat × MessageBufferType)) : List (List Int) :=
  physicalIds d0 s.localIndexMap_ ::
    arrivals.map (fun a => physicalIds (ds a.1) (senders a.1).localIndexMap_)

/-- A collect over an assignment of the cells of the canonical array `g` to processes, all
holding the same underlying field values `field`.  The coordinator (I/O rank, sending
nothing) has local cells with physical ids `d0`; the sender behind link `l` has local cells
with physical ids `ds l`.  Every process holds the fields of `template` with the values of
`field` at its cells; the tables are the ones setup builds (the canonical positions of the
contributed cells); every arrival is what its sender packs; and the contributed cells
together are the cells of `g`, each exactly once.  A process that is alone receives
nothing. -/
structure PartitionedRun (template : Solution) (field : String → Int → Scalar) (g : List Int)
    (s : CollectDataToIORank) (d0 : List Int) (senders : Nat → PackUnPack)
    (ds : Nat → List Int) (arrivals : List (Nat × MessageBufferType)) : Prop where
  ioRank : s.isIORank = true
  noSend : s.toIORankComm_.sendLinks = []
  alone : s.isParallel = false → arrivals = []
  sortedKeys : (template.map Prod.fst).Pairwise (· < ·)
  canonical : s.globalCartesianIndex_ = g
  distinct : g.Nodup
  ownInRange : ∀ li ∈ s.localIndexMap_, li < d0.length
  ownTable : s.indexMaps_.getLast? =
    some ((physicalIds d0 s.localIndexMap_).map (canonicalPosition g))
  links : ∀ a ∈ arrivals, a.1 < s.toIORankComm_.recvLinks.length ∧
    a.1 < s.indexMaps_.length ∧
    s.indexMaps_.getD a.1 [] =
      (physicalIds (ds a.1) (senders a.1).localIndexMap_).map (canonicalPosition g) ∧
    (senders a.1).localCellData_ = localDataOf template field (ds a.1) ∧
    PackUnPack.pack (senders a.1) 0 [] = .ok a.2
  assignment : (assignedIds s d0 senders ds arrivals).flatten.Perm g

/-- The underlying pressure field of the examples: the cell with physical id `id` has the
value `100 + id`. -/
def examplePressure (_key : String) (id : Int) : Scalar := 100 + id

/-- The physical ids of the local cells of the two workers of the example, by link. -/
def exampleCells (link : Nat) : List Int := if link = 0 then [0, 1] else [2, 3]

/-- A single process holding all six cells of the example, numbered locally in another
order than the canonical one, built with `needsReordering`. -/
def singleProcess : CollectDataToIORank :=
  { needsReordering := true,
    toIORankComm_ := { rank := 0, size := 1, sendLinks := [], recvLinks := [] },
    globalCartesianIndex_ := [0, 1, 2, 3, 4, 5],
    localIndexMap_ := [0, 1, 2, 3, 4, 5],
    indexMaps_ := [[3, 4, 5, 0, 1, 2]],
    globalCellData_ := [] }

/-- The grid manager of a process of a two-cell run with `size` processes that owns the
cells with the Cartesian indices `cells`; the equil grid has the cells `0` and `1`. -/
def pairGrid (rank size : Nat) (cells : List Int) : GridManager :=
  { commRank := rank, commSize := size, equilSize := 2, equilElements := [0, 1],
    equilCartesianIndex := fun elemIdx => elemIdx, gridSize := cells.length,
    gridElements := List.range cells.length,
    cartesianIndex := fun elemIdx => cells.getD elemIdx (-1) }

/-- A process of a two-process run whose own index table, the last entry of `indexMaps_`,
is `[4, 5]`. -/
def tableProcess : CollectDataToIORank :=
  { needsReordering := false,
    toIORankComm_ := { rank := 1, size := 2, sendLinks := [0], recvLinks := [] },
    globalCartesianIndex_ := [0, 1, 2, 3, 4, 5],
    localIndexMap_ := [0, 1],
    indexMaps_ := [[], [4, 5]],
    globalCellData_ := [] }

/-- A single process holding the two cells of the canonical array in canonical order,
built with `needsReordering`. -/
def identityProcess : CollectDataToIORank :=
  { needsReordering := true,
    toIORankComm_ := { rank := 0, size := 1, sendLinks := [], recvLinks := [] },
    globalCartesianIndex_ := [0, 1],
    localIndexMap_ := [0, 1],
    indexMaps_ := [[0, 1]],
    globalCellData_ := [] }

/-- Every field of the buffer has `N` entries. -/
def AllFieldsSized (N : Nat) (g : Solution) : Prop :=
  ∀ p ∈ g, p.2.data.length = N

/-- The position a handle stores for a physical cell id: the first index of the id in the
canonical array; `0`, the value `operator[]` inserts, for an id that does not occur in it. -/
def translatedPosition (globalIndex : List Int) (id : Int) : Nat :=
  if id ∈ globalIndex then canonicalPosition globalIndex id else 0

/-- The lookup `m` is one a `DistributeIndexMapping` over the canonical array `g` can hold:
every id of `g` is mapped to its first index in `g`, and any other key is mapped to `0`. -/
def LookupOf (g : List Int) (m : PositionMap) : Prop :=
  (∀ id ∈ g, PositionMap.find m id = some (canonicalPosition g id)) ∧
    ∀ id pos, id ∉ g → PositionMap.find m id = some pos → pos = 0

/-- The items `PackUnPack::write` appends for one field: the count of local cells, then the
value of each local cell of `localIndexMap`, in that order. -/
def fieldItems (localIndexMap : IndexMapType) (data : List Scalar) : MessageBufferType :=
  Item.uint localIndexMap.length :: localIndexMap.map (fun li => Item.dbl (data.getD li 0))

/-- A process of a two-process run whose own index table, the last entry of `indexMaps_`,
is empty. -/
def emptyTableProcess : CollectDataToIORank :=
  { needsReordering := false,
    toIORankComm_ := { rank := 1, size := 2, sendLinks := [0], recvLinks := [] },
    globalCartesianIndex_ := [0, 1, 2, 3, 4, 5],
    localIndexMap_ := [],
    indexMaps_ := [[], []],
    globalCellData_ := [] }

/-- Every entry of every table of `maps` is a position below `N`. -/
def TablesBelow (N : Nat) (maps : IndexMapStorageType) : Prop :=
  ∀ t ∈ maps, ∀ pos ∈ t, pos < N

/-- A call that writes to a message buffer, followed up to the point where it returns or
stops: the buffer as the call leaves it, and the fault that stopped it, if any. -/
abbrev BufferTrace := MessageBufferType × Option Fault

/-- What the caller of a traced call sees: the buffer when the call returned, the fault
when it stopped. -/
def BufferTrace.result : BufferTrace → Except Fault MessageBufferType
  | (buffer, none) => .ok buffer
  | (_, some e) => .error e

/-- The loop of `DistributeIndexMapping::pack` as in `writeIds`, keeping the buffer when
the loop stops. -/
def writeIdsTrace (distributedGlobalIndex : List Int) :
    List Nat → MessageBufferType → BufferTrace
  | [], buffer => (buffer, none)
  | li :: rest, buffer =>
    match distributedGlobalIndex[li]? with
    | none => (buffer, some .outOfRange)
    | some globalIdx =>
      writeIdsTrace distributedGlobalIndex rest
        (MessageBufferType.write buffer (Item.int globalIdx))

/-- `DistributeIndexMapping::pack( link, buffer )`, keeping the buffer when the call
stops. -/
def DistributeIndexMapping.packTrace (self : DistributeIndexMapping) (link : Int)
    (buffer : MessageBufferType) : BufferTrace :=
  if link ≠ 0 then (buffer, some .logicError)
  else
    writeIdsTrace self.distributedGlobalIndex_ self.localIndexMap_
      (MessageBufferType.write buffer (Item.int self.localIndexMap_.length))

/-- The loop of `PackUnPack::write` as in `writeValues`, keeping the buffer when the loop
stops. -/
def writeValuesTrace (vector : List Scalar) (offset stride : Nat) :
    List Nat → MessageBufferType → BufferTrace
  | [], buffer => (buffer, none)
  | li :: rest, buffer =>
    match vector[li * stride + offset]? with
    | none => (buffer, some .assertion)
    | some x =>
      writeValuesTrace vector offset stride rest (MessageBufferType.write buffer (Item.dbl x))

/-- `PackUnPack::write( buffer, localIndexMap, vector, offset, stride )`, keeping the buffer
when the call stops: the count is written before the first assertion is checked. -/
def PackUnPack.writeTrace (buffer : MessageBufferType) (localIndexMap : IndexMapType)
    (vector : List Scalar) (offset stride : Nat) : BufferTrace :=
  if stride * localIndexMap.length ≤ vector.length then
    writeValuesTrace vector offset stride localIndexMap
      (MessageBufferType.write buffer (Item.uint localIndexMap.length))
  else (MessageBufferType.write buffer (Item.uint localIndexMap.length), some .assertion)

/-- The loop of `PackUnPack::pack` as in `packFields`, keeping the buffer when the loop
stops. -/
def packFieldsTrace (localIndexMap : IndexMapType) :
    Solution → MessageBufferType → BufferTrace
  | [], buffer => (buffer, none)
  | pair :: rest, buffer =>
    match PackUnPack.writeTrace buffer localIndexMap pair.2.data 0 1 with
    | (buffer', some e) => (buffer', some e)
    | (buffer', none) => packFieldsTrace localIndexMap rest buffer'

/-- `PackUnPack::pack( link, buffer )`, keeping the buffer when the call stops. -/
def PackUnPack.packTrace (self : PackUnPack) (link : Int) (buffer : MessageBufferType) :
    BufferTrace :=
  if link ≠ 0 then (buffer, some .logicError)
  else packFieldsTrace self.localIndexMap_ self.localCellData_ buffer

/-- Every entry of every table of `maps` is a position stored for some cell id. -/
def TablesOf (g : List Int) (maps : IndexMapStorageType) : Prop :=
  ∀ t ∈ maps, ∀ pos ∈ t, ∃ id, pos = translatedPosition g id

/-! ## The nonlinear loop of `IMPES::update`

A shallow embedding of the loop control of `Dumux::IMPES::update`
(`dumux/fractionalflow/impes/impes.hh`).  The pressure and transport models called inside
the loop are external; they do not touch `iterFlag`, `nIter` or the counters `iter` and
`iterTot`.  The two floating-point tests of the loop are taken as given outcomes per pass.
The counters are `int`s: incrementing a counter that holds `INT_MAX` is a signed overflow
(undefined behaviour), at which the embedding stops. -/

/-- The largest value of an `int` (32 bits). -/
def INT_MAX : Int := 2147483647

/-- The members of `IMPES` that steer the nonlinear loop: `const int iterFlag` and
`const int nIter`.  Being `int`s, their values are at most `INT_MAX`. -/
structure IMPES where
  iterFlag : Int
  nIter : Int
  deriving DecidableEq, Repr

/-- The outcomes of the two floating-point tests of `IMPES::update` in the pass with
counter value `iter`: `defect iter` is
`dt * updateDiff.two_norm() / saturation.two_norm() <= maxDefect`, and `overshoot iter` is
`saturation.infinity_norm() > (1+maxDefect)`. -/
structure ConvergenceTests where
  defect : Int → Bool
  overshoot : Int → Bool

/-- How a call of `IMPES::update` is seen to end. -/
inductive UpdateResult where
  /-- `return value;` after `iterTot` passes through the nonlinear loop -/
  | returned (value : Int) (iterTot : Int)
  /-- `iter++` with `iter == INT_MAX` after `iterTot` passes: signed overflow -/
  | overflow (iterTot : Int)
  /-- the loop is still running after the passes that were followed -/
  | running
  deriving DecidableEq, Repr

/-- The value of `converg` at the end of the pass with counter value `iter` (it is `false`
when the pass begins): the break criteria of the loop followed by the overshoot test. -/
def IMPES.converg (self : IMPES) (tests : ConvergenceTests) (iter : Int) : Bool :=
  let converg : Bool :=
    if self.iterFlag = 2 ∧ tests.defect iter = true then true
    else if self.iterFlag = 1 ∧ self.nIter < iter then true
    else if self.iterFlag = 0 then true
    else false
  if self.iterFlag = 2 ∧ tests.overshoot iter = true then false else converg

/-- The loop `while (!converg)` of `IMPES::update`, entered with the counters `iter` and
`iterTot` both holding `iter`, and followed for at most `fuel` passes.  A pass begins with
`iter++; iterTot++;` and ends with `return 1` when it is not converged and `iter > nIter`,
with the end of the loop (`return 0`) when it is converged, and with another pass
otherwise. -/
def IMPES.loop (self : IMPES) (tests : ConvergenceTests) : Nat → Int → UpdateResult
  | 0, _ => .running
  | fuel + 1, iter =>
    if INT_MAX ≤ iter then .overflow iter
    else if self.converg tests (iter + 1) = false ∧ self.nIter < iter + 1 then
      .returned 1 (iter + 1)
    else if self.converg tests (iter + 1) = true then .returned 0 (iter + 1)
    else IMPES.loop self tests fuel (iter + 1)

/-- `IMPES::update( t, dt, updateVec, cFLFactor )`: how the call ends, its return value and
the number of passes through the nonlinear loop, which starts with `iter = 0` and
`iterTot = 0`. -/
def IMPES.update (self : IMPES) (tests : ConvergenceTests) (fuel : Nat) : UpdateResult :=
  IMPES.loop self tests fuel 0

/-- Convergence tests that never report convergence and never an overshoot. -/
def neverConverged : ConvergenceTests :=
  { defect := fun _ => false, overshoot := fun _ => false }

/-! ## Lemmas and theorems -/

theorem writeValues_eq_ok (vector : List Scalar) (lim : List Nat) :
    ∀ (buffer b' : MessageBufferType),
      writeValues vector 0 1 lim buffer = .ok b' ↔
        (∀ li ∈ lim, li < vector.length) ∧
          b' = buffer ++ (gatherValues lim vector).map Item.dbl := by
  induction lim with
  | nil =>
    intro buffer b'
    simp [writeValues, gatherValues, eq_comm]
  | cons li rest ih =>
    intro buffer b'
    simp only [writeValues, Nat.mul_one, Nat.add_zero]
    by_cases h : li < vector.length
    · have hget : vector[li]? = some vector[li] := List.getElem?_eq_getElem h
      rw [hget]
      simp only [ih, MessageBufferType.write]
      simp [gatherValues, h, List.getD_eq_getElem?_getD, hget]
    · have hget : vector[li]? = none := List.getElem?_eq_none (Nat.le_of_not_lt h)
      rw [hget]
      simp [h]

theorem write_eq_ok (buffer b' : MessageBufferType) (lim : List Nat) (vector : List Scalar) :
    PackUnPack.write buffer lim vector 0 1 = .ok b' ↔
      (lim.length ≤ vector.length ∧ ∀ li ∈ lim, li < vector.length) ∧
        b' = buffer ++ Item.uint lim.length :: (gatherValues lim vector).map Item.dbl := by
  unfold PackUnPack.write
  by_cases h : lim.length ≤ vector.length
  · simp [h, writeValues_eq_ok, MessageBufferType.write]
  · simp [h]

theorem length_scatter : ∀ (table : List Nat) (values vector : List Scalar),
    (scatter table values vector).length = vector.length
  | [], _, _ => by simp [scatter]
  | _ :: _, [], _ => by simp [scatter]
  | pos :: rest, x :: xs, vector => by
    simp [scatter, length_scatter rest xs]

theorem getElem?_scatter_of_not_mem : ∀ (table : List Nat) (values vector : List Scalar)
    (c : Nat), c ∉ table → (scatter table values vector)[c]? = vector[c]?
  | [], _, _, _, _ => by simp [scatter]
  | _ :: _, [], _, _, _ => by simp [scatter]
  | pos :: rest, x :: xs, vector, c, h => by
    simp only [List.mem_cons, not_or] at h
    simp only [scatter]
    rw [getElem?_scatter_of_not_mem rest xs _ c h.2]
    exact List.getElem?_set_ne (Ne.symm h.1)

theorem getElem?_scatter_of_nodup : ∀ (table : List Nat) (values vector : List Scalar)
    (i : Nat), table.Nodup → values.length = table.length →
    (∀ pos ∈ table, pos < vector.length) → ∀ (hi : i < table.length),
    (scatter table values vector)[table[i]]? = values[i]?
  | [], _, _, _, _, _, _, hi => by simp at hi
  | _ :: _, [], _, _, _, hl, _, _ => by simp at hl
  | pos :: rest, x :: xs, vector, i, hnd, hl, hlt, hi => by
    simp only [List.nodup_cons] at hnd
    simp only [scatter]
    cases i with
    | zero =>
      simp only [List.getElem_cons_zero, List.getElem?_cons_zero]
      rw [getElem?_scatter_of_not_mem rest xs _ pos hnd.1]
      exact List.getElem?_set_self (hlt pos (by simp))
    | succ j =>
      simp only [List.getElem_cons_succ, List.getElem?_cons_succ]
      have hj : j < rest.length := by simpa using hi
      exact getElem?_scatter_of_nodup rest xs _ j hnd.2 (by simpa using hl)
        (fun p hp => by simpa using hlt p (by simp [hp])) hj

theorem readValues_eq_ok : ∀ (table : List Nat) (values : List Scalar)
    (rest : MessageBufferType) (vector : List Scalar),
    values.length = table.length → (∀ pos ∈ table, pos < vector.length) →
    readValues 0 1 table (values.map Item.dbl ++ rest) vector =
      .ok (scatter table values vector, rest)
  | [], [], _, _, _, _ => by simp [readValues, scatter]
  | [], _ :: _, _, _, hl, _ => by simp at hl
  | _ :: _, [], _, _, hl, _ => by simp at hl
  | pos :: table, x :: xs, rest, vector, hl, hlt => by
    have hpos : pos < vector.length := hlt pos (by simp)
    simp only [readValues, Nat.mul_one, Nat.add_zero, hpos, if_true, List.map_cons,
      List.cons_append, MessageBufferType.readDbl, scatter]
    exact readValues_eq_ok table xs rest _ (by simpa using hl)
      (fun p hp => by simpa using hlt p (by simp [hp]))

theorem read_eq_ok (table : List Nat) (values : List Scalar) (rest : MessageBufferType)
    (vector : List Scalar) (hl : values.length = table.length)
    (hlt : ∀ pos ∈ table, pos < vector.length) :
    PackUnPack.read (Item.uint table.length :: (values.map Item.dbl ++ rest)) table vector 0 1 =
      .ok (scatter table values vector, rest) := by
  simp [PackUnPack.read, MessageBufferType.readUInt, readValues_eq_ok table values rest vector hl hlt]

theorem packFields_eq_ok (lim : IndexMapType) : ∀ (ld : Solution) (buffer b' : MessageBufferType),
    packFields lim ld buffer = .ok b' ↔
      (∀ pair ∈ ld, lim.length ≤ pair.2.data.length ∧ ∀ li ∈ lim, li < pair.2.data.length) ∧
        b' = buffer ++ wireFormat lim ld := by
  intro ld
  induction ld with
  | nil => intro buffer b'; simp [packFields, wireFormat, eq_comm]
  | cons pair rest ih =>
    intro buffer b'
    simp only [packFields]
    cases hw : PackUnPack.write buffer lim pair.2.data 0 1 with
    | error e =>
      have hne : ¬ (lim.length ≤ pair.2.data.length ∧ ∀ li ∈ lim, li < pair.2.data.length) := by
        intro hc
        have := (write_eq_ok buffer _ lim pair.2.data).2 ⟨hc, rfl⟩
        rw [hw] at this
        cases this
      constructor
      · intro h; cases h
      · rintro ⟨hc, _⟩
        exact absurd (hc pair (by simp)) hne
    | ok b1 =>
      obtain ⟨hc, hb1⟩ := (write_eq_ok buffer b1 lim pair.2.data).1 hw
      simp only [ih, List.mem_cons, forall_eq_or_imp, hb1, wireFormat, List.append_assoc,
        List.cons_append]
      constructor
      · rintro ⟨h1, h2⟩
        exact ⟨⟨hc, h1⟩, h2⟩
      · rintro ⟨⟨_, h1⟩, h2⟩
        exact ⟨h1, h2⟩

theorem chunks_congr (n : Nat) (vals vals' : String → List Scalar) :
    ∀ (keys : List String), (∀ k ∈ keys, vals k = vals' k) →
      chunks n vals keys = chunks n vals' keys
  | [], _ => rfl
  | key :: rest, h => by
    simp only [chunks]
    rw [h key (by simp), chunks_congr n vals vals' rest (fun k hk => h k (by simp [hk]))]

theorem lookup_eq_none_of_not_mem {β : Type} (k : String) :
    ∀ (l : List (String × β)), k ∉ l.map Prod.fst → List.lookup k l = none
  | [], _ => rfl
  | (k', v) :: rest, h => by
    simp only [List.map_cons, List.mem_cons, not_or] at h
    have hne : (k == k') = false := by simpa using h.1
    simp only [List.lookup_cons, hne]
    exact lookup_eq_none_of_not_mem k rest h.2

theorem lookup_cons_self {β : Type} (k : String) (v : β) (l : List (String × β)) :
    List.lookup k ((k, v) :: l) = some v := by
  simp [List.lookup_cons]

theorem lookup_cons_ne {β : Type} (k k' : String) (v : β) (l : List (String × β))
    (h : k ≠ k') : List.lookup k ((k', v) :: l) = List.lookup k l := by
  have hne : (k == k') = false := by simpa using h
  simp [List.lookup_cons, hne]

theorem wireFormat_eq_chunks (lim : IndexMapType) : ∀ (ld : Solution),
    (ld.map Prod.fst).Nodup →
      wireFormat lim ld =
        chunks lim.length (fun k => gatherValues lim (Solution.dataD ld k)) (ld.map Prod.fst)
  | [], _ => rfl
  | (k, cd) :: rest, hnd => by
    simp only [List.map_cons, List.nodup_cons] at hnd
    simp only [wireFormat, List.map_cons, chunks]
    have h1 : Solution.dataD ((k, cd) :: rest) k = cd.data := by
      simp [Solution.dataD, lookup_cons_self]
    rw [h1, wireFormat_eq_chunks lim rest hnd.2]
    rw [chunks_congr lim.length (fun k => gatherValues lim (Solution.dataD rest k))
      (fun k' => gatherValues lim (Solution.dataD ((k, cd) :: rest) k')) (rest.map Prod.fst)]
    intro k' hk'
    have hne : k' ≠ k := fun h => hnd.1 (h ▸ hk')
    simp [Solution.dataD, lookup_cons_ne k' k cd rest hne]

theorem lookup_setData (k key : String) (d : List Scalar) : ∀ (g : Solution),
    List.lookup k (Solution.setData g key d) =
      if k = key then (List.lookup k g).map (fun cd => { cd with data := d })
      else List.lookup k g
  | [] => by simp [Solution.setData]
  | (k', v) :: rest => by
    simp only [Solution.setData]
    by_cases hkey : key = k'
    · subst hkey
      by_cases hk : k = key
      · subst hk
        simp [lookup_cons_self]
      · simp [hk, lookup_cons_ne k key _ _ hk]
    · simp only [hkey, if_false]
      by_cases hk : k = k'
      · subst hk
        have : ¬ k = key := fun h => hkey h.symm
        simp [lookup_cons_self, this]
      · rw [lookup_cons_ne k k' _ _ hk, lookup_cons_ne k k' _ _ hk]
        exact lookup_setData k key d rest

theorem map_fst_setData (key : String) (d : List Scalar) : ∀ (g : Solution),
    (Solution.setData g key d).map Prod.fst = g.map Prod.fst
  | [] => rfl
  | (k', v) :: rest => by
    simp only [Solution.setData]
    by_cases hkey : key = k'
    · simp [hkey]
    · simp [hkey, map_fst_setData key d rest]

theorem unpackFields_spec (table : IndexMapType) (vals : String → List Scalar) :
    ∀ (ld g : Solution) (rest : MessageBufferType),
      (ld.map Prod.fst).Nodup →
      (∀ p ∈ ld, (vals p.1).length = table.length) →
      (∀ p ∈ ld, ∃ cd, List.lookup p.1 g = some cd ∧ ∀ pos ∈ table, pos < cd.data.length) →
      ∃ g', unpackFields table ld g (chunks table.length vals (ld.map Prod.fst) ++ rest) =
          .ok (g', rest) ∧
        g'.map Prod.fst = g.map Prod.fst ∧
        ∀ k, List.lookup k g' =
          (List.lookup k g).map (scatterField table vals (ld.map Prod.fst) k) := by
  intro ld
  induction ld with
  | nil =>
    intro g rest _ _ _
    refine ⟨g, by simp [unpackFields, chunks], rfl, ?_⟩
    intro k
    cases List.lookup k g <;> simp [scatterField]
  | cons p ld ih =>
    intro g rest hnd hlen hg
    simp only [List.map_cons, List.nodup_cons] at hnd
    obtain ⟨cd, hcd, hpos⟩ := hg p (by simp)
    have hread := read_eq_ok table (vals p.1)
      (chunks table.length vals (ld.map Prod.fst) ++ rest) cd.data (hlen p (by simp)) hpos
    have hg1 : ∀ q ∈ ld, ∃ cd', List.lookup q.1
        (Solution.setData g p.1 (scatter table (vals p.1) cd.data)) = some cd' ∧
        ∀ pos ∈ table, pos < cd'.data.length := by
      intro q hq
      have hne : q.1 ≠ p.1 := fun h => hnd.1 (h ▸ List.mem_map_of_mem Prod.fst hq)
      rw [lookup_setData]
      simpa [hne] using hg q (by simp [hq])
    obtain ⟨g', hrun, hkeys, hlook⟩ := ih
      (Solution.setData g p.1 (scatter table (vals p.1) cd.data)) rest hnd.2
      (fun q hq => hlen q (by simp [hq])) hg1
    refine ⟨g', ?_, ?_, ?_⟩
    · simp only [unpackFields, Solution.data, hcd, List.map_cons, chunks, List.cons_append,
        List.append_assoc]
      rw [hread]
      exact hrun
    · rw [hkeys, map_fst_setData]
    · intro k
      rw [hlook k, lookup_setData]
      by_cases hk : k = p.1
      · subst hk
        simp [hcd, scatterField, hnd.1]
      · simp only [hk, if_false]
        cases List.lookup k g with
        | none => rfl
        | some c =>
          simp only [scatterField, Option.map_some', List.map_cons, List.mem_cons, hk, false_or]

theorem insert_of_lt (key : String) (cd : CellData) : ∀ (g : Solution),
    (∀ q ∈ g, q.1 < key) → Solution.insert g key cd = (g ++ [(key, cd)], true)
  | [], _ => rfl
  | (k, v) :: rest, h => by
    have hk : k < key := h (k, v) (by simp)
    have h1 : ¬ key < k := lt_asymm hk
    have h2 : ¬ key = k := fun e => (lt_irrefl k) (e ▸ hk)
    simp only [Solution.insert, h1, h2, if_false]
    rw [insert_of_lt key cd rest (fun q hq => h q (by simp [hq]))]
    rfl

theorem insertFields_of_sorted (N : Nat) : ∀ (ld g : Solution),
    (ld.map Prod.fst).Pairwise (· < ·) → (∀ q ∈ g, ∀ p ∈ ld, q.1 < p.1) →
    insertFields N ld g = .ok (g ++ globalOf ld (fun _ => List.replicate N 0))
  | [], g, _, _ => by simp [insertFields, globalOf]
  | p :: rest, g, hs, hg => by
    simp only [List.map_cons, List.pairwise_cons] at hs
    have hins := insert_of_lt p.1 (CellData.mk p.2.dim (List.replicate N 0) p.2.target) g
      (fun q hq => hg q hq p (by simp))
    simp only [insertFields, hins, if_true]
    rw [insertFields_of_sorted N rest _ hs.2]
    · simp [globalOf]
    · intro q hq r hr
      rcases List.mem_append.1 hq with hq | hq
      · exact hg q hq r (by simp [hr])
      · simp only [List.mem_singleton] at hq
        subst hq
        exact hs.1 r.1 (List.mem_map_of_mem Prod.fst hr)

theorem nodup_of_sorted_keys (ld : Solution) (hs : (ld.map Prod.fst).Pairwise (· < ·)) :
    (ld.map Prod.fst).Nodup :=
  hs.imp (fun h => ne_of_lt h)

theorem map_fst_globalOf (ld : Solution) (D : String → List Scalar) :
    (globalOf ld D).map Prod.fst = ld.map Prod.fst := by
  simp [globalOf, List.map_map, Function.comp_def]

theorem lookup_globalOf (D : String → List Scalar) (k : String) : ∀ (ld : Solution),
    List.lookup k (globalOf ld D) =
      (List.lookup k ld).map (fun cd => { dim := cd.dim, data := D k, target := cd.target })
  | [] => rfl
  | (k', v) :: rest => by
    by_cases hk : k = k'
    · subst hk
      simp [globalOf, lookup_cons_self]
    · have := lookup_globalOf D k rest
      simp only [globalOf, List.map_cons] at this ⊢
      rw [lookup_cons_ne k k' _ _ hk, lookup_cons_ne k k' _ _ hk, this]

theorem mem_keys_of_lookup {β : Type} (k : String) (v : β) : ∀ (l : List (String × β)),
    List.lookup k l = some v → k ∈ l.map Prod.fst
  | [], h => by simp at h
  | (k', v') :: rest, h => by
    by_cases hk : k = k'
    · simp [hk]
    · rw [lookup_cons_ne k k' _ _ hk] at h
      simp [mem_keys_of_lookup k v rest h]

theorem lookup_of_mem_keys {β : Type} (k : String) : ∀ (l : List (String × β)),
    k ∈ l.map Prod.fst → ∃ v, List.lookup k l = some v
  | [], h => by simp at h
  | (k', v') :: rest, h => by
    by_cases hk : k = k'
    · subst hk
      exact ⟨v', lookup_cons_self k v' rest⟩
    · rw [lookup_cons_ne k k' _ _ hk]
      simp only [List.map_cons, List.mem_cons, hk, false_or] at h
      exact lookup_of_mem_keys k rest h

theorem solution_ext : ∀ (g g' : Solution), g.map Prod.fst = g'.map Prod.fst →
    (g.map Prod.fst).Nodup → (∀ k, List.lookup k g = List.lookup k g') → g = g'
  | [], [], _, _, _ => rfl
  | [], _ :: _, h, _, _ => by simp at h
  | _ :: _, [], h, _, _ => by simp at h
  | (k, v) :: rest, (k', v') :: rest', hkeys, hnd, hl => by
    simp only [List.map_cons, List.cons.injEq] at hkeys
    simp only [List.map_cons, List.nodup_cons] at hnd
    obtain ⟨hk, hrest⟩ := hkeys
    subst hk
    have hv : v = v' := by
      have := hl k
      rw [lookup_cons_self, lookup_cons_self] at this
      exact Option.some.inj this
    subst hv
    have : rest = rest' := by
      apply solution_ext rest rest' hrest hnd.2
      intro j
      by_cases hj : j = k
      · subst hj
        rw [lookup_eq_none_of_not_mem j rest hnd.1,
          lookup_eq_none_of_not_mem j rest' (hrest ▸ hnd.1)]
      · have := hl j
        rwa [lookup_cons_ne j k _ _ hj, lookup_cons_ne j k _ _ hj] at this
    rw [this]

theorem unpackFields_globalOf (table : IndexMapType) (vals : String → List Scalar)
    (ld : Solution) (D : String → List Scalar) (rest : MessageBufferType)
    (hnd : (ld.map Prod.fst).Nodup)
    (hlen : ∀ k ∈ ld.map Prod.fst, (vals k).length = table.length)
    (hpos : ∀ k ∈ ld.map Prod.fst, ∀ pos ∈ table, pos < (D k).length) :
    unpackFields table ld (globalOf ld D) (chunks table.length vals (ld.map Prod.fst) ++ rest) =
      .ok (globalOf ld (fun k => scatter table (vals k) (D k)), rest) := by
  obtain ⟨g', hrun, hkeys, hlook⟩ := unpackFields_spec table vals ld (globalOf ld D) rest hnd
    (fun p hp => hlen p.1 (List.mem_map_of_mem Prod.fst hp))
    (fun p hp => by
      obtain ⟨cd, hcd⟩ := lookup_of_mem_keys p.1 ld (List.mem_map_of_mem Prod.fst hp)
      refine ⟨_, by rw [lookup_globalOf, hcd]; rfl, ?_⟩
      exact hpos p.1 (List.mem_map_of_mem Prod.fst hp))
  rw [hrun]
  congr 2
  apply solution_ext
  · rw [hkeys, map_fst_globalOf, map_fst_globalOf]
  · rw [hkeys, map_fst_globalOf]; exact hnd
  · intro k
    rw [hlook k, lookup_globalOf, lookup_globalOf]
    cases hk : List.lookup k ld with
    | none => rfl
    | some cd =>
      have hmem := mem_keys_of_lookup k cd ld hk
      simp [scatterField, hmem]

theorem length_gatherValues (lim : IndexMapType) (vector : List Scalar) :
    (gatherValues lim vector).length = lim.length := by
  simp [gatherValues]

theorem doUnpack_globalOf (h : PackUnPack) (D : String → List Scalar) (table : IndexMapType)
    (sld : Solution) (slim : IndexMapType)
    (hg : h.globalCellData_ = globalOf h.localCellData_ D)
    (hnd : (h.localCellData_.map Prod.fst).Nodup)
    (hkeys : sld.map Prod.fst = h.localCellData_.map Prod.fst)
    (hlen : slim.length = table.length)
    (hpos : ∀ k ∈ h.localCellData_.map Prod.fst, ∀ pos ∈ table, pos < (D k).length) :
    PackUnPack.doUnpack h table (wireFormat slim sld) =
      .ok ({ h with
              globalCellData_ := globalOf h.localCellData_
                (fun k => scatter table (gatherValues slim (Solution.dataD sld k)) (D k)) },
           []) := by
  have hw : wireFormat slim sld = chunks table.length
      (fun k => gatherValues slim (Solution.dataD sld k)) (h.localCellData_.map Prod.fst) ++ [] := by
    rw [wireFormat_eq_chunks slim sld (hkeys ▸ hnd), hkeys, hlen, List.append_nil]
  have hrun := unpackFields_globalOf table (fun k => gatherValues slim (Solution.dataD sld k))
    h.localCellData_ D [] hnd (fun k _ => by rw [length_gatherValues, hlen]) hpos
  unfold PackUnPack.doUnpack
  rw [hg, hw, hrun]

theorem pack_eq_ok (sender : PackUnPack) (b : MessageBufferType) :
    PackUnPack.pack sender 0 [] = .ok b ↔
      (∀ pair ∈ sender.localCellData_, sender.localIndexMap_.length ≤ pair.2.data.length ∧
          ∀ li ∈ sender.localIndexMap_, li < pair.2.data.length) ∧
        b = wireFormat sender.localIndexMap_ sender.localCellData_ := by
  simp [PackUnPack.pack, packFields_eq_ok]

theorem unpack_globalOf (h : PackUnPack) (D : String → List Scalar) (N : Nat)
    (sender : PackUnPack) (arrival : Nat × MessageBufferType)
    (hg : h.globalCellData_ = globalOf h.localCellData_ D)
    (hnd : (h.localCellData_.map Prod.fst).Nodup)
    (hD : ∀ k ∈ h.localCellData_.map Prod.fst, (D k).length = N)
    (hfit : FitsLink h.localCellData_ h.indexMaps_ N sender arrival) :
    PackUnPack.unpack h arrival.1 arrival.2 =
      .ok { h with
              globalCellData_ := globalOf h.localCellData_
                (fun k => scatter (h.indexMaps_.getD arrival.1 []) (sender.packedValues k)
                  (D k)) } := by
  obtain ⟨hpack, hkeys, hlink, hlen, hpos⟩ := hfit
  obtain ⟨_, hb⟩ := (pack_eq_ok sender arrival.2).1 hpack
  have htab : h.indexMaps_[arrival.1]? = some (h.indexMaps_.getD arrival.1 []) := by
    rw [List.getD_eq_getElem?_getD, List.getElem?_eq_getElem hlink]
    rfl
  have hrun := doUnpack_globalOf h D (h.indexMaps_.getD arrival.1 []) sender.localCellData_
    sender.localIndexMap_ hg hnd hkeys hlen (fun k hk pos hp => by rw [hD k hk]; exact hpos pos hp)
  have hneg : ¬ ((arrival.1 : Int) < 0) := by omega
  simp only [PackUnPack.unpack, hneg, if_false, Int.toNat_ofNat, htab, hb, hrun]
  rfl

theorem receiveAll_globalOf (numLinks N : Nat) (senders : Nat → PackUnPack) :
    ∀ (arrivals : List (Nat × MessageBufferType)) (h : PackUnPack) (D : String → List Scalar),
      h.globalCellData_ = globalOf h.localCellData_ D →
      (h.localCellData_.map Prod.fst).Nodup →
      (∀ k ∈ h.localCellData_.map Prod.fst, (D k).length = N) →
      (∀ a ∈ arrivals, a.1 < numLinks ∧
        FitsLink h.localCellData_ h.indexMaps_ N (senders a.1) a) →
      receiveAll PackUnPack.unpack numLinks arrivals h =
        .ok { h with
                globalCellData_ := globalOf h.localCellData_
                  (fun k => scatterAll (arrivalContribs h.indexMaps_ senders k arrivals) (D k)) }
  | [], h, D, hg, _, _, _ => by
    simp only [receiveAll, arrivalContribs, List.map_nil, scatterAll, List.foldl_nil]
    rw [← hg]
  | a :: rest, h, D, hg, hnd, hD, hfit => by
    obtain ⟨hlt, hfa⟩ := hfit a (by simp)
    have hun := unpack_globalOf h D N (senders a.1) a hg hnd hD hfa
    have hnl : ¬ numLinks ≤ a.1 := by omega
    simp only [receiveAll, hnl, if_false, hun]
    have hrec := receiveAll_globalOf numLinks N senders rest
      { h with
          globalCellData_ := globalOf h.localCellData_
            (fun k => scatter (h.indexMaps_.getD a.1 []) ((senders a.1).packedValues k) (D k)) }
      (fun k => scatter (h.indexMaps_.getD a.1 []) ((senders a.1).packedValues k) (D k)) rfl hnd
      (fun k hk => by rw [length_scatter]; exact hD k hk)
      (fun b hb => hfit b (by simp [hb]))
    rw [hrec]
    simp [arrivalContribs, scatterAll]

theorem construct_ioRank (ld : Solution) (lim : IndexMapType) (maps : IndexMapStorageType)
    (N : Nat) (ownT : IndexMapType)
    (hs : (ld.map Prod.fst).Pairwise (· < ·))
    (hpack : ∀ pair ∈ ld, lim.length ≤ pair.2.data.length ∧ ∀ li ∈ lim, li < pair.2.data.length)
    (hlast : maps.getLast? = some ownT) (hlen : lim.length = ownT.length)
    (hpos : ∀ pos ∈ ownT, pos < N) :
    PackUnPack.construct ld [] lim maps N true =
      .ok { localCellData_ := ld,
            globalCellData_ := globalOf ld
              (fun k => scatter ownT (gatherValues lim (Solution.dataD ld k))
                (List.replicate N 0)),
            localIndexMap_ := lim, indexMaps_ := maps } := by
  have hins := insertFields_of_sorted N ld [] hs (by simp)
  have hpk : PackUnPack.pack
      { localCellData_ := ld, globalCellData_ := globalOf ld (fun _ => List.replicate N 0),
        localIndexMap_ := lim, indexMaps_ := maps } 0 [] = .ok (wireFormat lim ld) :=
    (pack_eq_ok _ _).2 ⟨hpack, rfl⟩
  have hun := doUnpack_globalOf
    { localCellData_ := ld, globalCellData_ := globalOf ld (fun _ => List.replicate N 0),
      localIndexMap_ := lim, indexMaps_ := maps } (fun _ => List.replicate N 0) ownT ld lim rfl
    (nodup_of_sorted_keys ld hs) rfl hlen (fun k _ pos hp => by simpa using hpos pos hp)
  simp only [PackUnPack.construct, if_true, hins, List.nil_append, hpk, hlast, hun]

theorem collect_coordinator (s : CollectDataToIORank) (ld : Solution) (ownT : IndexMapType)
    (senders : Nat → PackUnPack) (arrivals : List (Nat × MessageBufferType))
    (hrun : CoordinatorRun s ld ownT senders arrivals) :
    s.collect ld arrivals =
      .ok ({ s with
              globalCellData_ := globalOf ld
                (fun k => scatterAll (collectContribs s ld ownT senders k arrivals)
                  (List.replicate s.numCells 0)) }, []) := by
  have hc := construct_ioRank ld s.localIndexMap_ s.indexMaps_ s.numCells ownT hrun.sortedKeys
    hrun.ownPack hrun.ownTable hrun.ownLength hrun.ownBelow
  have hrec := receiveAll_globalOf s.toIORankComm_.recvLinks.length s.numCells senders arrivals
    { localCellData_ := ld,
      globalCellData_ := globalOf ld
        (fun k => scatter ownT (gatherValues s.localIndexMap_ (Solution.dataD ld k))
          (List.replicate s.numCells 0)),
      localIndexMap_ := s.localIndexMap_, indexMaps_ := s.indexMaps_ }
    (fun k => scatter ownT (gatherValues s.localIndexMap_ (Solution.dataD ld k))
      (List.replicate s.numCells 0)) rfl (nodup_of_sorted_keys ld hrun.sortedKeys)
    (fun k _ => by simp [length_scatter]) hrun.fits
  simp only [CollectDataToIORank.collect, hrun.parallel, hrun.ioRank, Bool.not_true,
    Bool.and_false, hc, P2PCommunicatorType.exchange, hrun.noSend, sendAll, hrec]
  simp [collectContribs, scatterAll]

theorem length_scatterAll : ∀ (cs : List (IndexMapType × List Scalar)) (vector : List Scalar),
    (scatterAll cs vector).length = vector.length
  | [], _ => rfl
  | c :: cs, vector => by
    simp only [scatterAll, List.foldl_cons]
    have := length_scatterAll cs (scatter c.1 c.2 vector)
    simp only [scatterAll] at this
    rw [this, length_scatter]

theorem getElem?_scatterAll_of_not_mem : ∀ (cs : List (IndexMapType × List Scalar))
    (vector : List Scalar) (c : Nat), c ∉ (cs.map Prod.fst).flatten →
    (scatterAll cs vector)[c]? = vector[c]?
  | [], _, _, _ => rfl
  | t :: cs, vector, c, h => by
    simp only [List.map_cons, List.flatten_cons, List.mem_append, not_or] at h
    simp only [scatterAll, List.foldl_cons]
    have := getElem?_scatterAll_of_not_mem cs (scatter t.1 t.2 vector) c h.2
    simp only [scatterAll] at this
    rw [this, getElem?_scatter_of_not_mem t.1 t.2 vector c h.1]

theorem getElem?_scatterAll_of_nodup : ∀ (cs : List (IndexMapType × List Scalar))
    (vector : List Scalar), (cs.map Prod.fst).flatten.Nodup →
    (∀ t ∈ cs, t.2.length = t.1.length ∧ ∀ pos ∈ t.1, pos < vector.length) →
    ∀ t ∈ cs, ∀ (i : Nat) (hi : i < t.1.length), (scatterAll cs vector)[t.1[i]]? = t.2[i]?
  | [], _, _, _, t, ht, _, _ => by simp at ht
  | t0 :: cs, vector, hnd, hwf, t, ht, i, hi => by
    simp only [List.map_cons, List.flatten_cons] at hnd
    obtain ⟨hnd0, hndr, hdisj⟩ := List.nodup_append.1 hnd
    simp only [scatterAll, List.foldl_cons]
    have hwf' : ∀ u ∈ cs, u.2.length = u.1.length ∧
        ∀ pos ∈ u.1, pos < (scatter t0.1 t0.2 vector).length := by
      intro u hu
      rw [length_scatter]
      exact hwf u (by simp [hu])
    by_cases hin : t ∈ cs
    · have := getElem?_scatterAll_of_nodup cs (scatter t0.1 t0.2 vector) hndr hwf' t hin i hi
      simpa only [scatterAll] using this
    · have ht0 : t = t0 := by
        rcases List.mem_cons.1 ht with h | h
        · exact h
        · exact absurd h hin
      subst ht0
      have hnot : t.1[i] ∉ (cs.map Prod.fst).flatten :=
        fun hmem => hdisj (List.getElem_mem hi) hmem
      have := getElem?_scatterAll_of_not_mem cs (scatter t.1 t.2 vector) _ hnot
      simp only [scatterAll] at this
      rw [this]
      exact getElem?_scatter_of_nodup t.1 t.2 vector i hnd0 (hwf t (by simp)).1
        (hwf t (by simp)).2 hi

theorem dataD_globalOf (ld : Solution) (D : String → List Scalar) (k : String)
    (hk : k ∈ ld.map Prod.fst) : Solution.dataD (globalOf ld D) k = D k := by
  obtain ⟨cd, hcd⟩ := lookup_of_mem_keys k ld hk
  simp [Solution.dataD, lookup_globalOf, hcd]

theorem map_fst_collectContribs (s : CollectDataToIORank) (ld : Solution) (ownT : IndexMapType)
    (senders : Nat → PackUnPack) (k : String) (arrivals : List (Nat × MessageBufferType)) :
    (collectContribs s ld ownT senders k arrivals).map Prod.fst =
      (collectProcesses s ld ownT senders arrivals).map Prod.fst := by
  simp [collectContribs, collectProcesses, arrivalContribs, List.map_map, Function.comp_def]

theorem nodup_flatten_of_disjoint (tables : List (List Nat))
    (hdisj : tables.Pairwise List.Disjoint) (hnodup : ∀ t ∈ tables, t.Nodup) :
    tables.flatten.Nodup :=
  List.nodup_flatten.2 ⟨hnodup, hdisj⟩

theorem dataD_getElem?_of_mem (ld : Solution) (k : String) (hk : k ∈ ld.map Prod.fst)
    (n : Nat) (hall : ∀ pair ∈ ld, n < pair.2.data.length) :
    n < (Solution.dataD ld k).length := by
  induction ld with
  | nil => simp at hk
  | cons p rest ih =>
    obtain ⟨k', v⟩ := p
    by_cases h : k = k'
    · subst h
      simpa [Solution.dataD, lookup_cons_self] using hall (k, v) (by simp)
    · have hk' : k ∈ rest.map Prod.fst := by
        simpa [h] using hk
      have := ih hk' (fun q hq => hall q (by simp [hq]))
      simpa [Solution.dataD, lookup_cons_ne k k' v rest h] using this

theorem collectContribs_eq_map (s : CollectDataToIORank) (ld : Solution) (ownT : IndexMapType)
    (senders : Nat → PackUnPack) (k : String) (arrivals : List (Nat × MessageBufferType)) :
    collectContribs s ld ownT senders k arrivals =
      (collectProcesses s ld ownT senders arrivals).map (contribOf k) := by
  simp [collectContribs, collectProcesses, arrivalContribs, contribOf, List.map_map,
    Function.comp_def, PackUnPack.packedValues]

theorem procFits_of_run (s : CollectDataToIORank) (ld : Solution) (ownT : IndexMapType)
    (senders : Nat → PackUnPack) (arrivals : List (Nat × MessageBufferType))
    (hrun : CoordinatorRun s ld ownT senders arrivals) :
    ∀ p ∈ collectProcesses s ld ownT senders arrivals,
      ProcFits s.numCells (ld.map Prod.fst) p := by
  intro p hp
  simp only [collectProcesses, List.mem_cons, List.mem_map] at hp
  rcases hp with rfl | ⟨a, ha, rfl⟩
  · refine ⟨hrun.ownLength, hrun.ownBelow, ?_⟩
    intro k hk li hli
    exact dataD_getElem?_of_mem ld k hk li (fun pair hpair => (hrun.ownPack pair hpair).2 li hli)
  · obtain ⟨_, hpack, hkeys, _, hlen, hpos⟩ := hrun.fits a ha
    obtain ⟨hok, _⟩ := (pack_eq_ok (senders a.1) a.2).1 hpack
    refine ⟨hlen, hpos, ?_⟩
    intro k hk li hli
    exact dataD_getElem?_of_mem _ k (hkeys ▸ hk) li (fun pair hpair => (hok pair hpair).2 li hli)

theorem placesPackedValues_of_scatterAll (keys : List String) (N : Nat)
    (procs : List (IndexMapType × IndexMapType × Solution)) (g : Solution)
    (hg : ∀ k ∈ keys,
      Solution.dataD g k = scatterAll (procs.map (contribOf k)) (List.replicate N 0))
    (hfit : ∀ p ∈ procs, ProcFits N keys p)
    (hnd : (procs.map Prod.fst).flatten.Nodup) :
    PlacesPackedValues keys g procs := by
  intro p hp k hk i li pos hli hpos
  obtain ⟨hlen, hbelow, hin⟩ := hfit p hp
  have hi : i < p.1.length := (List.getElem?_eq_some_iff.1 hpos).1
  have hi' : i < p.2.1.length := (List.getElem?_eq_some_iff.1 hli).1
  have hposeq : p.1[i] = pos := (List.getElem?_eq_some_iff.1 hpos).2
  have hlieq : p.2.1[i] = li := (List.getElem?_eq_some_iff.1 hli).2
  have hlimem : li ∈ p.2.1 := hlieq ▸ List.getElem_mem hi'
  have hlt := hin k hk li hlimem
  refine ⟨(Solution.dataD p.2.2 k)[li], List.getElem?_eq_getElem hlt, ?_⟩
  have hnd' : ((procs.map (contribOf k)).map Prod.fst).flatten.Nodup := by
    simpa [List.map_map, Function.comp_def, contribOf] using hnd
  have hwf : ∀ t ∈ procs.map (contribOf k), t.2.length = t.1.length ∧
      ∀ q ∈ t.1, q < (List.replicate N (0 : Scalar)).length := by
    intro t ht
    obtain ⟨q, hq, rfl⟩ := List.mem_map.1 ht
    obtain ⟨h1, h2, _⟩ := hfit q hq
    exact ⟨by simp [contribOf, length_gatherValues, h1], by simpa [contribOf] using h2⟩
  have hmain := getElem?_scatterAll_of_nodup (procs.map (contribOf k)) (List.replicate N 0)
    hnd' hwf (contribOf k p) (List.mem_map_of_mem _ hp) i hi
  rw [hg k hk, ← hposeq]
  simp only [contribOf] at hmain
  rw [hmain]
  simp [gatherValues, hi', hlieq, List.getD_eq_getElem?_getD, List.getElem?_eq_getElem hlt]

theorem places_values_of_run (s : CollectDataToIORank) (ld : Solution)
    (ownT : IndexMapType) (senders : Nat → PackUnPack)
    (arrivals : List (Nat × MessageBufferType))
    (hrun : CoordinatorRun s ld ownT senders arrivals)
    (hdisj : ((collectProcesses s ld ownT senders arrivals).map Prod.fst).Pairwise
      List.Disjoint)
    (hnodup : ∀ t ∈ (collectProcesses s ld ownT senders arrivals).map Prod.fst, t.Nodup) :
    ∃ s', s.collect ld arrivals = .ok (s', []) ∧
      PlacesPackedValues (ld.map Prod.fst) s'.globalCellData_
        (collectProcesses s ld ownT senders arrivals) ∧
      (∀ k ∈ ld.map Prod.fst, Solution.dataD s'.globalCellData_ k =
        scatterAll ((collectProcesses s ld ownT senders arrivals).map (contribOf k))
          (List.replicate s.numCells 0)) ∧
      ((∀ c < s.numCells,
          c ∈ ((collectProcesses s ld ownT senders arrivals).map Prod.fst).flatten) →
        ∀ c < s.numCells,
          ((collectProcesses s ld ownT senders arrivals).map Prod.fst).flatten.count c = 1) := by
  have hnd := nodup_flatten_of_disjoint _ hdisj hnodup
  have hg : ∀ k ∈ ld.map Prod.fst,
      Solution.dataD (globalOf ld (fun k => scatterAll
        (collectContribs s ld ownT senders k arrivals) (List.replicate s.numCells 0))) k =
      scatterAll ((collectProcesses s ld ownT senders arrivals).map (contribOf k))
        (List.replicate s.numCells 0) := by
    intro k hk
    rw [dataD_globalOf ld _ k hk, collectContribs_eq_map]
  refine ⟨_, collect_coordinator s ld ownT senders arrivals hrun, ?_, hg, ?_⟩
  · exact placesPackedValues_of_scatterAll _ s.numCells _ _ hg
      (procFits_of_run s ld ownT senders arrivals hrun) hnd
  · intro hcover c hc
    exact List.count_eq_one_of_mem hnd (hcover c hc)

/-- C1 (amended): on the coordinator of a multi-process run, if every sender packs the
field keys of the coordinator, every declared length is the length of the sender's table,
the tables of all processes (the own one included) are pairwise disjoint, none of them
repeats an entry, and all entries are below `numCells()`, then `collect()` returns, and for
every key `k`, process `p` and `i`: `globalCellData[k][table_p[i]]` is the `i`-th value `p`
packed, `localData_p[k][localIndexMap_p[i]]`.  The writes into a field are, in order, the
entries of the tables; when these cover `0 .. numCells()-1`, every position occurs exactly
once among them. -/
theorem collect_places_packed_values (s : CollectDataToIORank) (ld : Solution)
    (ownT : IndexMapType) (senders : Nat → PackUnPack)
    (arrivals : List (Nat × MessageBufferType))
    (hrun : CoordinatorRun s ld ownT senders arrivals)
    (hdisj : ((collectProcesses s ld ownT senders arrivals).map Prod.fst).Pairwise
      List.Disjoint)
    (hnodup : ∀ t ∈ (collectProcesses s ld ownT senders arrivals).map Prod.fst, t.Nodup) :
    ∃ s', s.collect ld arrivals = .ok (s', []) ∧
      PlacesPackedValues (ld.map Prod.fst) s'.globalCellData_
        (collectProcesses s ld ownT senders arrivals) ∧
      (∀ k ∈ ld.map Prod.fst, Solution.dataD s'.globalCellData_ k =
        scatterAll ((collectProcesses s ld ownT senders arrivals).map (contribOf k))
          (List.replicate s.numCells 0)) ∧
      ((∀ c < s.numCells,
          c ∈ ((collectProcesses s ld ownT senders arrivals).map Prod.fst).flatten) →
        ∀ c < s.numCells,
          ((collectProcesses s ld ownT senders arrivals).map Prod.fst).flatten.count c = 1) :=
  places_values_of_run s ld ownT senders arrivals hrun hdisj hnodup

theorem exampleRun :
    CoordinatorRun exampleCoordinator (pressureField [104, 105]) [4, 5] exampleSenders
      exampleArrivals where
  ioRank := by decide
  parallel := by decide
  noSend := rfl
  sortedKeys := by simp [pressureField]
  ownPack := by decide
  ownTable := by decide
  ownLength := by decide
  ownBelow := by decide
  fits := by
    intro a ha
    simp only [exampleArrivals, List.mem_cons, List.mem_singleton, List.not_mem_nil,
      or_false] at ha
    rcases ha with rfl | rfl <;> exact ⟨by decide, rfl, by decide, by decide, by decide, by decide⟩

theorem collect_places_packed_values_witness :
    CoordinatorRun exampleCoordinator (pressureField [104, 105]) [4, 5] exampleSenders
        exampleArrivals ∧
      ∃ s', exampleCoordinator.collect (pressureField [104, 105]) exampleArrivals =
          .ok (s', []) ∧
        PlacesPackedValues ["P"] s'.globalCellData_
          (collectProcesses exampleCoordinator (pressureField [104, 105]) [4, 5] exampleSenders
            exampleArrivals) := by
  obtain ⟨s', h1, h2, _⟩ := collect_places_packed_values exampleCoordinator
    (pressureField [104, 105]) [4, 5] exampleSenders exampleArrivals exampleRun
    (by simp [collectProcesses, exampleCoordinator, exampleArrivals])
    (by simp [collectProcesses, exampleCoordinator, exampleArrivals])
  exact ⟨exampleRun, s', h1, h2⟩

theorem repeatRun :
    CoordinatorRun repeatCoordinator (pressureField []) [] repeatSenders
      [(0, [Item.uint 2, Item.dbl 1, Item.dbl 2])] where
  ioRank := by decide
  parallel := by decide
  noSend := rfl
  sortedKeys := by simp [pressureField]
  ownPack := by decide
  ownTable := by decide
  ownLength := by decide
  ownBelow := by decide
  fits := by
    intro a ha
    simp only [List.mem_singleton] at ha
    subst ha
    exact ⟨by decide, rfl, by decide, by decide, by decide, by decide⟩

/-- C1 as stated fails: the tables `[]` and `[0, 0]` are pairwise disjoint with entries
below `numCells() = 1`, keys and declared length fit, yet after `collect()` the value at
`table[0] = 0` is the second value the worker packed (2), not the first (1). -/
theorem collect_places_packed_values_counterexample :
    CoordinatorRun repeatCoordinator (pressureField []) [] repeatSenders
        [(0, [Item.uint 2, Item.dbl 1, Item.dbl 2])] ∧
      ((collectProcesses repeatCoordinator (pressureField []) [] repeatSenders
        [(0, [Item.uint 2, Item.dbl 1, Item.dbl 2])]).map Prod.fst).Pairwise List.Disjoint ∧
      ∃ s', repeatCoordinator.collect (pressureField [])
          [(0, [Item.uint 2, Item.dbl 1, Item.dbl 2])] = .ok (s', []) ∧
        ¬ PlacesPackedValues ["P"] s'.globalCellData_
          (collectProcesses repeatCoordinator (pressureField []) [] repeatSenders
            [(0, [Item.uint 2, Item.dbl 1, Item.dbl 2])]) := by
  refine ⟨repeatRun, by simp [collectProcesses, repeatCoordinator], _, rfl, ?_⟩
  intro h
  obtain ⟨x, hx1, hx2⟩ := h ([0, 0], [0, 1], pressureField [1, 2]) (by decide) "P" (by decide)
    0 0 0 rfl rfl
  have e1 : x = 1 := by
    have : (some (1 : Scalar)) = some x := hx1
    exact (Option.some.inj this).symm
  have e2 : x = 2 := by
    have : (some (2 : Scalar)) = some x := hx2
    exact (Option.some.inj this).symm
  rw [e1] at e2
  exact absurd e2 (by decide)

/-- C7: the example scenario.  Three processes, canonical array `[0,1,2,3,4,5]`; the two
workers own the physical cells `{0,1}` and `{2,3}`, the coordinator (rank 0 in the code)
owns `{4,5}`.  Running the constructors, the tables on the coordinator are `[0,1]`, `[2,3]`
for the two links and `[4,5]` for itself; with local `"P"` values `[100,101]`, `[102,103]`
and `[104,105]`, the global `"P"` buffer after `collect()` is `[100,..,105]`, for both
arrival orders. -/
theorem example_scenario (needsReordering : Bool) :
    ∃ w0 w1 b0 b1 s c0 c1 w0' w1' r,
      CollectDataToIORank.construct needsReordering (exampleGrid 1 0) [] =
        .ok (w0, [(0, b0)]) ∧
      CollectDataToIORank.construct needsReordering (exampleGrid 2 2) [] =
        .ok (w1, [(0, b1)]) ∧
      CollectDataToIORank.construct needsReordering (exampleGrid 0 4) [(1, b1), (0, b0)] =
        .ok (s, []) ∧
      s.globalCartesianIndex_ = [0, 1, 2, 3, 4, 5] ∧
      s.indexMaps_ = [[0, 1], [2, 3], [4, 5]] ∧
      w0.collect (pressureField [100, 101]) [] = .ok (w0', [(0, c0)]) ∧
      w1.collect (pressureField [102, 103]) [] = .ok (w1', [(0, c1)]) ∧
      s.collect (pressureField [104, 105]) [(0, c0), (1, c1)] = .ok (r, []) ∧
      s.collect (pressureField [104, 105]) [(1, c1), (0, c0)] = .ok (r, []) ∧
      r.globalCellData_ = pressureField [100, 101, 102, 103, 104, 105] := by
  cases needsReordering <;>
    exact ⟨_, _, _, _, _, _, _, _, _, _, rfl, rfl, rfl, rfl, rfl, rfl, rfl, rfl, rfl, rfl⟩

/-- C10, evaluation at the failing input: canonical array `[5]`, one local cell with
physical id `7`.  The constructor returns normally and stores position `0` for the unknown
id (which `operator[]` has inserted into the lookup); afterwards `unpack` accepts the
unknown id `7` from a worker as well and stores position `0` for it.  With a lookup that
was not touched this way, `unpack` stops at its assertion. -/
theorem construct_unknown_cell_id :
    DistributeIndexMapping.construct [5] [7] [0] [[], []] =
        .ok { distributedGlobalIndex_ := [7], localIndexMap_ := [0],
              indexMaps_ := [[], [0]], globalPosition_ := [(5, 0), (7, 0)] } ∧
      DistributeIndexMapping.unpack
          { distributedGlobalIndex_ := [7], localIndexMap_ := [0],
            indexMaps_ := [[], [0]], globalPosition_ := [(5, 0), (7, 0)] }
          0 [Item.int 1, Item.int 7] =
        .ok { distributedGlobalIndex_ := [7], localIndexMap_ := [0],
              indexMaps_ := [[0], [0]], globalPosition_ := [(5, 0), (7, 0)] } ∧
      DistributeIndexMapping.unpack
          { distributedGlobalIndex_ := [5], localIndexMap_ := [0],
            indexMaps_ := [[], [0]], globalPosition_ := [(5, 0)] }
          0 [Item.int 1, Item.int 7] = .error Fault.assertion :=
  ⟨rfl, rfl, rfl⟩

theorem readValues_rest : ∀ (table : List Nat) (values : List Scalar)
    (rest : MessageBufferType) (vector v' : List Scalar) (r : MessageBufferType),
    values.length = table.length →
    readValues 0 1 table (values.map Item.dbl ++ rest) vector = .ok (v', r) → r = rest
  | [], [], rest, vector, v', r, _, h => by
    simp only [readValues, List.map_nil, List.nil_append, Except.ok.injEq, Prod.mk.injEq] at h
    exact h.2.symm
  | [], _ :: _, _, _, _, _, hl, _ => by simp at hl
  | _ :: _, [], _, _, _, _, hl, _ => by simp at hl
  | pos :: table, x :: xs, rest, vector, v', r, hl, h => by
    simp only [readValues, List.map_cons, List.cons_append, MessageBufferType.readDbl] at h
    split at h
    · exact readValues_rest table xs rest _ v' r (by simpa using hl) h
    · cases h

theorem unpackFields_framed (table : IndexMapType) :
    ∀ (ld g : Solution) (fields : List (Nat × List Scalar)) (g' : Solution)
      (r : MessageBufferType),
      (∀ f ∈ fields, f.2.length = f.1) →
      unpackFields table ld g (framedBuffer fields) = .ok (g', r) →
      ld.length ≤ fields.length ∧ ∀ f ∈ fields.take ld.length, f.1 = table.length
  | [], _, _, _, _, _, _ => by simp
  | p :: ld, g, [], g', r, _, h => by
    simp only [unpackFields, framedBuffer, PackUnPack.read, MessageBufferType.readUInt] at h
    split at h <;> cases h
  | p :: ld, g, f :: fields, g', r, hf, h => by
    simp only [unpackFields, framedBuffer] at h
    split at h
    · cases h
    · rename_i data _
      simp only [PackUnPack.read, MessageBufferType.readUInt] at h
      by_cases hn : f.1 = table.length
      · simp only [hn, if_true] at h
        cases hrd : readValues 0 1 table (f.2.map Item.dbl ++ framedBuffer fields) data with
        | error e => rw [hrd] at h; cases h
        | ok res =>
          obtain ⟨data', b'⟩ := res
          rw [hrd] at h
          have hb := readValues_rest table f.2 _ data data' b'
            (by rw [hf f (by simp), hn]) hrd
          subst hb
          simp only at h
          obtain ⟨h1, h2⟩ := unpackFields_framed table ld _ fields g' r
            (fun f' hf' => hf f' (by simp [hf'])) h
          refine ⟨by simpa using h1, ?_⟩
          intro f' hf'
          simp only [List.length_cons, List.take_succ_cons, List.mem_cons] at hf'
          rcases hf' with rfl | hf'
          · exact hn
          · exact h2 f' hf'
      · simp only [hn, if_false] at h
        cases h

theorem unpack_framed_error (h : PackUnPack) (link : Nat) (table : IndexMapType)
    (fields : List (Nat × List Scalar))
    (htab : h.indexMaps_[link]? = some table)
    (hf : ∀ f ∈ fields, f.2.length = f.1)
    (hbad : ¬ (h.localCellData_.length ≤ fields.length ∧
      ∀ f ∈ fields.take h.localCellData_.length, f.1 = table.length)) :
    ∃ e, h.unpack link (framedBuffer fields) = .error e := by
  have hneg : ¬ ((link : Int) < 0) := by omega
  simp only [PackUnPack.unpack, hneg, if_false, Int.toNat_ofNat, htab, PackUnPack.doUnpack]
  cases hrun : unpackFields table h.localCellData_ h.globalCellData_ (framedBuffer fields) with
  | error e => exact ⟨e, rfl⟩
  | ok res =>
    exact absurd (unpackFields_framed table _ _ fields res.1 res.2 hf hrun) hbad

theorem unpack_preserves (h h' : PackUnPack) (link : Int) (buffer : MessageBufferType)
    (hun : h.unpack link buffer = .ok h') :
    h'.localCellData_ = h.localCellData_ ∧ h'.indexMaps_ = h.indexMaps_ ∧
      h'.localIndexMap_ = h.localIndexMap_ := by
  unfold PackUnPack.unpack at hun
  split at hun
  · cases hun
  · split at hun
    · cases hun
    · unfold PackUnPack.doUnpack at hun
      split at hun
      · cases hun
      · rename_i heq
        split at heq
        · cases heq
        · cases heq
          cases hun
          exact ⟨rfl, rfl, rfl⟩

theorem receiveAll_error_of_mem (ld : Solution) (maps : IndexMapStorageType) (numLinks : Nat)
    (a : Nat × MessageBufferType)
    (hbad : ∀ h : PackUnPack, h.localCellData_ = ld → h.indexMaps_ = maps →
      ∃ e, h.unpack a.1 a.2 = .error e) :
    ∀ (arrivals : List (Nat × MessageBufferType)) (h : PackUnPack), a ∈ arrivals →
      h.localCellData_ = ld → h.indexMaps_ = maps →
      ∃ e, receiveAll PackUnPack.unpack numLinks arrivals h = .error e
  | [], _, ha, _, _ => by simp at ha
  | b :: rest, h, ha, hld, hmaps => by
    simp only [receiveAll]
    split
    · exact ⟨_, rfl⟩
    · cases hun : h.unpack b.1 b.2 with
      | error e => exact ⟨e, rfl⟩
      | ok h' =>
        obtain ⟨h1, h2, _⟩ := unpack_preserves h h' _ _ hun
        rcases List.mem_cons.1 ha with rfl | hmem
        · obtain ⟨e, he⟩ := hbad h hld hmaps
          rw [he] at hun
          cases hun
        · exact receiveAll_error_of_mem ld maps numLinks a hbad rest h' hmem
            (h1.trans hld) (h2.trans hmaps)

theorem doUnpack_preserves (h h' : PackUnPack) (table : IndexMapType)
    (buffer r : MessageBufferType) (hun : h.doUnpack table buffer = .ok (h', r)) :
    h'.localCellData_ = h.localCellData_ ∧ h'.indexMaps_ = h.indexMaps_ ∧
      h'.localIndexMap_ = h.localIndexMap_ := by
  unfold PackUnPack.doUnpack at hun
  cases hrun : unpackFields table h.localCellData_ h.globalCellData_ buffer with
  | error e => rw [hrun] at hun; cases hun
  | ok res =>
    rw [hrun] at hun
    cases hun
    exact ⟨rfl, rfl, rfl⟩

theorem construct_fields (ld g : Solution) (lim : IndexMapType) (maps : IndexMapStorageType)
    (N : Nat) (io : Bool) (h : PackUnPack)
    (hc : PackUnPack.construct ld g lim maps N io = .ok h) :
    h.localCellData_ = ld ∧ h.indexMaps_ = maps ∧ h.localIndexMap_ = lim := by
  unfold PackUnPack.construct at hc
  cases io with
  | false =>
    simp only [Bool.false_eq_true, if_false, Except.ok.injEq] at hc
    subst hc
    exact ⟨rfl, rfl, rfl⟩
  | true =>
    simp only [if_true] at hc
    cases hins : insertFields N ld g with
    | error e => rw [hins] at hc; cases hc
    | ok g' =>
      rw [hins] at hc
      simp only at hc
      cases hp : PackUnPack.pack
          { localCellData_ := ld, globalCellData_ := g', localIndexMap_ := lim,
            indexMaps_ := maps } 0 [] with
      | error e => rw [hp] at hc; cases hc
      | ok buffer =>
        rw [hp] at hc
        simp only at hc
        cases hl : maps.getLast? with
        | none => rw [hl] at hc; cases hc
        | some indexMap =>
          rw [hl] at hc
          simp only at hc
          cases hd : PackUnPack.doUnpack
              { localCellData_ := ld, globalCellData_ := g', localIndexMap_ := lim,
                indexMaps_ := maps } indexMap buffer with
          | error e => rw [hd] at hc; cases hc
          | ok res =>
            obtain ⟨h'', r⟩ := res
            rw [hd] at hc
            cases hc
            exact doUnpack_preserves _ _ _ _ _ hd

theorem collect_error_of_bad_arrival (s : CollectDataToIORank) (ld : Solution)
    (arrivals : List (Nat × MessageBufferType)) (a : Nat × MessageBufferType)
    (hpar : s.isParallel = true) (ha : a ∈ arrivals)
    (hbad : ∀ h : PackUnPack, h.localCellData_ = ld → h.indexMaps_ = s.indexMaps_ →
      ∃ e, h.unpack a.1 a.2 = .error e) :
    ∃ e, s.collect ld arrivals = .error e := by
  simp only [CollectDataToIORank.collect, hpar, Bool.not_true, Bool.and_false]
  cases hc : PackUnPack.construct ld [] s.localIndexMap_ s.indexMaps_ s.numCells s.isIORank with
  | error e => exact ⟨e, rfl⟩
  | ok pu =>
    obtain ⟨h1, h2, _⟩ := construct_fields _ _ _ _ _ _ _ hc
    simp only [P2PCommunicatorType.exchange]
    cases sendAll (PackUnPack.pack pu) s.toIORankComm_.sendLinks 0 with
    | error e => exact ⟨e, rfl⟩
    | ok sent =>
      obtain ⟨e, he⟩ := receiveAll_error_of_mem ld s.indexMaps_
        s.toIORankComm_.recvLinks.length a hbad arrivals pu ha h1 h2
      exact ⟨e, by simp [he]⟩

/-- C8: length-mismatch rejection.  Take a received buffer framed field by field (a count
followed by that many values) in which, for some field `j` that the receiver reads
(`j` below the number of its field keys), the declared length differs from the length of
the sender's index table.  Then `unpack` of that buffer ends in an error for every state
of the global data, and a `collect()` of a multi-process run that receives the buffer ends
in an error: it does not return. -/
theorem unpack_length_mismatch (link : Nat) (table : IndexMapType)
    (fields : List (Nat × List Scalar)) (j : Nat) (declared : Nat × List Scalar)
    (hf : ∀ f ∈ fields, f.2.length = f.1)
    (hj : fields[j]? = some declared) (hne : declared.1 ≠ table.length) :
    (∀ h : PackUnPack, h.indexMaps_[link]? = some table → j < h.localCellData_.length →
      ∃ e, h.unpack link (framedBuffer fields) = .error e) ∧
    (∀ (s : CollectDataToIORank) (ld : Solution) (arrivals : List (Nat × MessageBufferType)),
      s.isParallel = true → s.indexMaps_[link]? = some table → j < ld.length →
      (link, framedBuffer fields) ∈ arrivals → ∃ e, s.collect ld arrivals = .error e) := by
  have key : ∀ h : PackUnPack, h.indexMaps_[link]? = some table → j < h.localCellData_.length →
      ∃ e, h.unpack link (framedBuffer fields) = .error e := by
    intro h htab hjl
    apply unpack_framed_error h link table fields htab hf
    rintro ⟨_, hall⟩
    have hjf : j < fields.length := (List.getElem?_eq_some_iff.1 hj).1
    have hmem : declared ∈ fields.take h.localCellData_.length := by
      have hget : (fields.take h.localCellData_.length)[j]? = some declared := by
        rw [List.getElem?_take_of_lt hjl]; exact hj
      exact List.getElem?_mem hget
    exact hne (hall declared hmem)
  refine ⟨key, ?_⟩
  intro s ld arrivals hpar htab hjl ha
  exact collect_error_of_bad_arrival s ld arrivals _ hpar ha
    (fun h hld hmaps => key h (by rw [hmaps]; exact htab) (by rw [hld]; exact hjl))

theorem unpack_length_mismatch_witness :
    (∀ f ∈ [((3 : Nat), ([102, 103, 0] : List Scalar))], f.2.length = f.1) ∧
      (3 : Nat) ≠ ([2, 3] : IndexMapType).length ∧
      ∃ e, exampleCoordinator.collect (pressureField [104, 105])
        [(0, [Item.uint 2, Item.dbl 100, Item.dbl 101]),
         (1, framedBuffer [(3, [102, 103, 0])])] = .error e :=
  ⟨by decide, by decide,
    (unpack_length_mismatch 1 [2, 3] [(3, [102, 103, 0])] 0 (3, [102, 103, 0]) (by decide) rfl
      (by decide)).2 exampleCoordinator (pressureField [104, 105]) _ rfl rfl (by decide)
      (by simp)⟩

theorem wireFormat_eq_framed (lim : IndexMapType) : ∀ (ld : Solution),
    wireFormat lim ld =
      framedBuffer (ld.map (fun p => (lim.length, gatherValues lim p.2.data)))
  | [] => rfl
  | p :: rest => by
    simp only [wireFormat, List.map_cons, framedBuffer, wireFormat_eq_framed lim rest,
      List.cons_append]

/-- C9 as stated fails.  The worker packs the fields `{A, B}`, the coordinator holds only
`{A}`: the key sets differ, yet `unpack` and `collect()` return normally; the values of
`"A"` are stored and the field `"B"` is left unread in the buffer.  The same happens when
the worker packs `{B}` and the coordinator holds `{A}`: the values of `"B"` are stored
under `"A"`. -/
theorem key_set_enforcement_counterexample :
    (twoFields [7] [8]).map Prod.fst ≠ (oneField "A" [5]).map Prod.fst ∧
      PackUnPack.pack
          { localCellData_ := twoFields [7] [8], globalCellData_ := [], localIndexMap_ := [0],
            indexMaps_ := [[], [0]] } 0 [] =
        .ok [Item.uint 1, Item.dbl 7, Item.uint 1, Item.dbl 8] ∧
      pairCoordinator.collect (oneField "A" [5])
          [(0, [Item.uint 1, Item.dbl 7, Item.uint 1, Item.dbl 8])] =
        .ok ({ pairCoordinator with globalCellData_ := oneField "A" [5, 7] }, []) ∧
      (oneField "B" [9]).map Prod.fst ≠ (oneField "A" [5]).map Prod.fst ∧
      PackUnPack.pack
          { localCellData_ := oneField "B" [9], globalCellData_ := [], localIndexMap_ := [0],
            indexMaps_ := [[], [0]] } 0 [] = .ok [Item.uint 1, Item.dbl 9] ∧
      pairCoordinator.collect (oneField "A" [5]) [(0, [Item.uint 1, Item.dbl 9])] =
        .ok ({ pairCoordinator with globalCellData_ := oneField "A" [5, 9] }, []) :=
  ⟨by decide, rfl, rfl, by decide, rfl, rfl⟩

/-- C9 (amended): key-set enforcement holds in one direction.  Whenever the buffer of a
sender was packed from fewer fields than the coordinator has field keys (the sender
supplies `{A}`, the coordinator `{A, B}`), `unpack` of that buffer ends in an error (the
buffer is exhausted or an assertion fails), and so does a `collect()` of a multi-process
run that receives it.  Keys are not transmitted, so nothing is promised for a buffer with
at least as many fields. -/
theorem unpack_fewer_fields (link : Nat) (table : IndexMapType) (sender : PackUnPack)
    (b : MessageBufferType) (numKeys : Nat)
    (hpack : sender.pack 0 [] = .ok b)
    (hfew : sender.localCellData_.length < numKeys) :
    (∀ h : PackUnPack, h.indexMaps_[link]? = some table → h.localCellData_.length = numKeys →
      ∃ e, h.unpack link b = .error e) ∧
    (∀ (s : CollectDataToIORank) (ld : Solution) (arrivals : List (Nat × MessageBufferType)),
      s.isParallel = true → s.indexMaps_[link]? = some table → ld.length = numKeys →
      (link, b) ∈ arrivals → ∃ e, s.collect ld arrivals = .error e) := by
  obtain ⟨_, hb⟩ := (pack_eq_ok sender b).1 hpack
  have key : ∀ h : PackUnPack, h.indexMaps_[link]? = some table →
      h.localCellData_.length = numKeys → ∃ e, h.unpack link b = .error e := by
    intro h htab hlen
    rw [hb, wireFormat_eq_framed]
    apply unpack_framed_error h link table _ htab
    · intro f hf
      obtain ⟨p, _, rfl⟩ := List.mem_map.1 hf
      simp [length_gatherValues]
    · rintro ⟨hle, _⟩
      simp only [List.length_map] at hle
      omega
  refine ⟨key, ?_⟩
  intro s ld arrivals hpar htab hlen ha
  exact collect_error_of_bad_arrival s ld arrivals _ hpar ha
    (fun h hld hmaps => key h (by rw [hmaps]; exact htab) (by rw [hld]; exact hlen))

theorem unpack_fewer_fields_witness :
    PackUnPack.pack
        { localCellData_ := oneField "A" [7], globalCellData_ := [], localIndexMap_ := [0],
          indexMaps_ := [[], [0]] } 0 [] = .ok [Item.uint 1, Item.dbl 7] ∧
      (oneField "A" [7]).length < 2 ∧
      ∃ e, pairCoordinator.collect (twoFields [5] [6]) [(0, [Item.uint 1, Item.dbl 7])] =
        .error e :=
  ⟨rfl, by decide,
    (unpack_fewer_fields 0 [1]
      { localCellData_ := oneField "A" [7], globalCellData_ := [], localIndexMap_ := [0],
        indexMaps_ := [[], [0]] } [Item.uint 1, Item.dbl 7] 2 rfl (by decide)).2
      pairCoordinator (twoFields [5] [6]) _ rfl rfl rfl (by simp)⟩

theorem readValues_inv : ∀ (table : List Nat) (buf : MessageBufferType)
    (vector v' : List Scalar) (rest : MessageBufferType),
    readValues 0 1 table buf vector = .ok (v', rest) →
    ∃ values : List Scalar, buf = values.map Item.dbl ++ rest ∧ values.length = table.length ∧
      (∀ pos ∈ table, pos < vector.length) ∧ v' = scatter table values vector
  | [], buf, vector, v', rest, h => by
    simp only [readValues, Except.ok.injEq, Prod.mk.injEq] at h
    exact ⟨[], by simp [h.2], rfl, by simp, by simp [scatter, h.1]⟩
  | pos :: table, buf, vector, v', rest, h => by
    simp only [readValues, Nat.mul_one, Nat.add_zero] at h
    split at h
    · rename_i hpos
      cases buf with
      | nil => simp [MessageBufferType.readDbl] at h
      | cons it buf' =>
        cases it with
        | int v => simp [MessageBufferType.readDbl] at h
        | uint n => simp [MessageBufferType.readDbl] at h
        | dbl x =>
          simp only [MessageBufferType.readDbl] at h
          obtain ⟨values, hb, hl, hlt, hv⟩ := readValues_inv table buf' _ v' rest h
          refine ⟨x :: values, by simp [hb], by simp [hl], ?_, by simp [scatter, hv]⟩
          intro p hp
          rcases List.mem_cons.1 hp with rfl | hp
          · exact hpos
          · simpa using hlt p hp
    · cases h

theorem read_inv (table : List Nat) (buf : MessageBufferType) (vector v' : List Scalar)
    (rest : MessageBufferType) (h : PackUnPack.read buf table vector 0 1 = .ok (v', rest)) :
    ∃ values : List Scalar,
      buf = Item.uint table.length :: (values.map Item.dbl ++ rest) ∧
      values.length = table.length ∧ (∀ pos ∈ table, pos < vector.length) ∧
      v' = scatter table values vector := by
  unfold PackUnPack.read at h
  cases buf with
  | nil => simp [MessageBufferType.readUInt] at h
  | cons it buf' =>
    cases it with
    | int v => simp [MessageBufferType.readUInt] at h
    | dbl x => simp [MessageBufferType.readUInt] at h
    | uint n =>
      simp only [MessageBufferType.readUInt] at h
      split at h
      · rename_i hn
        obtain ⟨values, hb, hl, hlt, hv⟩ := readValues_inv table buf' vector v' rest h
        exact ⟨values, by rw [hn, hb], hl, hlt, hv⟩
      · cases h

theorem unpackFields_inv (table : IndexMapType) :
    ∀ (ld g : Solution) (buf : MessageBufferType) (g' : Solution) (rest : MessageBufferType),
      (ld.map Prod.fst).Nodup →
      unpackFields table ld g buf = .ok (g', rest) →
      ∃ vals : String → List Scalar,
        buf = chunks table.length vals (ld.map Prod.fst) ++ rest ∧
        (∀ p ∈ ld, (vals p.1).length = table.length) ∧
        (∀ p ∈ ld, ∃ cd, List.lookup p.1 g = some cd ∧ ∀ pos ∈ table, pos < cd.data.length)
  | [], g, buf, g', rest, _, h => by
    simp only [unpackFields, Except.ok.injEq, Prod.mk.injEq] at h
    exact ⟨fun _ => [], by simp [chunks, h.2], by simp, by simp⟩
  | p :: ld, g, buf, g', rest, hnd, h => by
    simp only [List.map_cons, List.nodup_cons] at hnd
    simp only [unpackFields, Solution.data] at h
    cases hlk : List.lookup p.1 g with
    | none => rw [hlk] at h; cases h
    | some cd =>
      rw [hlk] at h
      simp only at h
      cases hrd : PackUnPack.read buf table cd.data 0 1 with
      | error e => rw [hrd] at h; cases h
      | ok res =>
        obtain ⟨data', buf1⟩ := res
        rw [hrd] at h
        simp only at h
        obtain ⟨values, hb, hl, hlt, hv⟩ := read_inv table buf cd.data data' buf1 hrd
        obtain ⟨vals', hb', hl', hg'⟩ := unpackFields_inv table ld _ buf1 g' rest hnd.2 h
        refine ⟨fun k => if k = p.1 then values else vals' k, ?_, ?_, ?_⟩
        · have hc : chunks table.length (fun k => if k = p.1 then values else vals' k)
              (ld.map Prod.fst) = chunks table.length vals' (ld.map Prod.fst) := by
            apply chunks_congr
            intro k hk
            have : k ≠ p.1 := fun e => hnd.1 (e ▸ hk)
            simp [this]
          simp only [List.map_cons, chunks, if_true, hc]
          rw [hb, hb']
          simp
        · intro q hq
          rcases List.mem_cons.1 hq with rfl | hq
          · simpa using hl
          · have : q.1 ≠ p.1 := fun e => hnd.1 (e ▸ List.mem_map_of_mem Prod.fst hq)
            simpa [this] using hl' q hq
        · intro q hq
          rcases List.mem_cons.1 hq with rfl | hq
          · exact ⟨cd, hlk, hlt⟩
          · have hne : q.1 ≠ p.1 := fun e => hnd.1 (e ▸ List.mem_map_of_mem Prod.fst hq)
            have := hg' q hq
            rw [lookup_setData] at this
            simpa [hne] using this

theorem scatter_set_comm : ∀ (table : List Nat) (values vector : List Scalar) (pos : Nat)
    (x : Scalar), pos ∉ table →
    scatter table values (vector.set pos x) = (scatter table values vector).set pos x
  | [], _, _, _, _, _ => by simp [scatter]
  | _ :: _, [], _, _, _, _ => by simp [scatter]
  | p :: table, y :: ys, vector, pos, x, h => by
    simp only [List.mem_cons, not_or] at h
    simp only [scatter]
    rw [List.set_comm x y vector h.1, scatter_set_comm table ys _ pos x h.2]

theorem scatter_comm : ∀ (ta tb : List Nat) (va vb vector : List Scalar),
    List.Disjoint ta tb →
    scatter tb vb (scatter ta va vector) = scatter ta va (scatter tb vb vector)
  | [], _, _, _, _, _ => by simp [scatter]
  | _ :: _, _, [], _, _, _ => by simp [scatter]
  | p :: ta, tb, x :: xs, vb, vector, h => by
    have hp : p ∉ tb := fun hm => h (by simp) hm
    have hd : List.Disjoint ta tb := fun a ha hb => h (by simp [ha]) hb
    simp only [scatter]
    rw [scatter_comm ta tb xs vb _ hd, scatter_set_comm tb vb vector p x hp]

theorem scatterField_comm (ta tb : IndexMapType) (va vb : String → List Scalar)
    (keys : List String) (k : String) (cd : CellData) (h : List.Disjoint ta tb) :
    scatterField tb vb keys k (scatterField ta va keys k cd) =
      scatterField ta va keys k (scatterField tb vb keys k cd) := by
  unfold scatterField
  by_cases hk : k ∈ keys
  · simp only [hk, if_true, scatter_comm ta tb _ _ _ h]
  · simp only [hk, if_false]

theorem length_scatterField (table : IndexMapType) (vals : String → List Scalar)
    (keys : List String) (k : String) (cd : CellData) :
    (scatterField table vals keys k cd).data.length = cd.data.length := by
  unfold scatterField
  split
  · simp [length_scatter]
  · rfl

theorem unpackFields_comm (ta tb : IndexMapType) (ld g g1 g2 : Solution)
    (ba bb ra rb : MessageBufferType)
    (hnd : (ld.map Prod.fst).Nodup) (hg : (g.map Prod.fst).Nodup)
    (hdisj : List.Disjoint ta tb)
    (h1 : unpackFields ta ld g ba = .ok (g1, ra))
    (h2 : unpackFields tb ld g1 bb = .ok (g2, rb)) :
    ∃ g1', unpackFields tb ld g bb = .ok (g1', rb) ∧
      unpackFields ta ld g1' ba = .ok (g2, ra) := by
  obtain ⟨va, hba, hla, hga⟩ := unpackFields_inv ta ld g ba g1 ra hnd h1
  obtain ⟨vb, hbb, hlb, hgb⟩ := unpackFields_inv tb ld g1 bb g2 rb hnd h2
  -- the first run, described entry by entry
  obtain ⟨g1s, hr1, hk1, hl1⟩ := unpackFields_spec ta va ld g ra hnd hla hga
  rw [← hba, h1] at hr1
  have e1 : g1s = g1 := by cases hr1; rfl
  subst e1
  obtain ⟨g2s, hr2, hk2, hl2⟩ := unpackFields_spec tb vb ld g1s rb hnd hlb hgb
  rw [← hbb, h2] at hr2
  have e2 : g2s = g2 := by cases hr2; rfl
  subst e2
  -- the swapped order
  have hgb' : ∀ p ∈ ld, ∃ cd, List.lookup p.1 g = some cd ∧
      ∀ pos ∈ tb, pos < cd.data.length := by
    intro p hp
    obtain ⟨cd, hcd, _⟩ := hga p hp
    obtain ⟨cd1, hcd1, hpos1⟩ := hgb p hp
    rw [hl1 p.1, hcd] at hcd1
    simp only [Option.map_some', Option.some.injEq] at hcd1
    refine ⟨cd, hcd, ?_⟩
    rw [← hcd1, length_scatterField] at hpos1
    exact hpos1
  obtain ⟨g1', hr1', hk1', hl1'⟩ := unpackFields_spec tb vb ld g rb hnd hlb hgb'
  have hga' : ∀ p ∈ ld, ∃ cd, List.lookup p.1 g1' = some cd ∧
      ∀ pos ∈ ta, pos < cd.data.length := by
    intro p hp
    obtain ⟨cd, hcd, hpos⟩ := hga p hp
    refine ⟨_, by rw [hl1' p.1, hcd]; rfl, ?_⟩
    rw [length_scatterField]
    exact hpos
  obtain ⟨g2', hr2', hk2', hl2'⟩ := unpackFields_spec ta va ld g1' ra hnd hla hga'
  refine ⟨g1', by rw [hbb]; exact hr1', ?_⟩
  have e : g2' = g2s := by
    apply solution_ext
    · rw [hk2', hk1', hk2, hk1]
    · rw [hk2', hk1']; exact hg
    · intro k
      rw [hl2' k, hl1' k, hl2 k, hl1 k]
      cases List.lookup k g with
      | none => rfl
      | some cd =>
        simp only [Option.map_some', Option.some.injEq]
        exact (scatterField_comm ta tb va vb _ k cd hdisj).symm
  rw [hba, hr2', e]

theorem unpackFields_keys (table : IndexMapType) :
    ∀ (ld g : Solution) (buf : MessageBufferType) (g' : Solution) (rest : MessageBufferType),
      unpackFields table ld g buf = .ok (g', rest) → g'.map Prod.fst = g.map Prod.fst
  | [], g, buf, g', rest, h => by
    simp only [unpackFields, Except.ok.injEq, Prod.mk.injEq] at h
    rw [h.1]
  | p :: ld, g, buf, g', rest, h => by
    simp only [unpackFields] at h
    cases hd : Solution.data g p.1 with
    | error e => rw [hd] at h; cases h
    | ok data =>
      rw [hd] at h
      simp only at h
      cases hrd : PackUnPack.read buf table data 0 1 with
      | error e => rw [hrd] at h; cases h
      | ok res =>
        rw [hrd] at h
        simp only at h
        rw [unpackFields_keys table ld _ _ g' rest h, map_fst_setData]

theorem unpack_eq_ok_iff (h h' : PackUnPack) (link : Nat) (buffer : MessageBufferType) :
    h.unpack link buffer = .ok h' ↔
      ∃ table g' rest, h.indexMaps_[link]? = some table ∧
        unpackFields table h.localCellData_ h.globalCellData_ buffer = .ok (g', rest) ∧
        h' = { h with globalCellData_ := g' } := by
  have hneg : ¬ ((link : Int) < 0) := by omega
  cases htab : h.indexMaps_[link]? with
  | none => simp [PackUnPack.unpack, hneg, htab]
  | some table =>
    cases hrun : unpackFields table h.localCellData_ h.globalCellData_ buffer with
    | error e =>
      simp only [PackUnPack.unpack, hneg, if_false, Int.toNat_ofNat, PackUnPack.doUnpack,
        htab, hrun]
      constructor
      · intro e'
        cases e'
      · rintro ⟨t, g', rest, ht, hr, _⟩
        cases ht
        rw [hrun] at hr
        cases hr
    | ok res =>
      obtain ⟨g', rest⟩ := res
      simp only [PackUnPack.unpack, hneg, if_false, Int.toNat_ofNat, PackUnPack.doUnpack,
        htab, hrun, Except.ok.injEq]
      constructor
      · intro e
        exact ⟨table, g', rest, rfl, hrun, e.symm⟩
      · rintro ⟨t, g'', rest', ht, hr, e⟩
        cases ht
        rw [hrun] at hr
        cases hr
        exact e.symm

theorem unpack_wellFormed (h h' : PackUnPack) (link : Nat) (buffer : MessageBufferType)
    (hun : h.unpack link buffer = .ok h') (hwf : h.WellFormed) : h'.WellFormed := by
  obtain ⟨table, g', rest, _, hrun, rfl⟩ := (unpack_eq_ok_iff h h' link buffer).1 hun
  exact ⟨hwf.1, by
    show (g'.map Prod.fst).Nodup
    rw [unpackFields_keys table _ _ _ g' rest hrun]
    exact hwf.2⟩

theorem unpack_comm (h h1 h2 : PackUnPack) (a b : Nat) (ba bb : MessageBufferType)
    (hwf : h.WellFormed)
    (hdisj : List.Disjoint (h.indexMaps_.getD a []) (h.indexMaps_.getD b []))
    (e1 : h.unpack a ba = .ok h1) (e2 : h1.unpack b bb = .ok h2) :
    ∃ h1', h.unpack b bb = .ok h1' ∧ h1'.unpack a ba = .ok h2 := by
  obtain ⟨ta, g1, ra, hta, hr1, rfl⟩ := (unpack_eq_ok_iff h h1 a ba).1 e1
  obtain ⟨tb, g2, rb, htb, hr2, rfl⟩ := (unpack_eq_ok_iff _ h2 b bb).1 e2
  simp only at htb hr2
  have hda : h.indexMaps_.getD a [] = ta := by
    rw [List.getD_eq_getElem?_getD, hta]; rfl
  have hdb : h.indexMaps_.getD b [] = tb := by
    rw [List.getD_eq_getElem?_getD, htb]; rfl
  rw [hda, hdb] at hdisj
  obtain ⟨g1', hs1, hs2⟩ := unpackFields_comm ta tb h.localCellData_ h.globalCellData_ g1 g2
    ba bb ra rb hwf.1 hwf.2 hdisj hr1 hr2
  refine ⟨{ h with globalCellData_ := g1' }, ?_, ?_⟩
  · exact (unpack_eq_ok_iff h _ b bb).2 ⟨tb, g1', rb, htb, hs1, rfl⟩
  · exact (unpack_eq_ok_iff _ _ a ba).2 ⟨ta, g2, ra, hta, hs2, rfl⟩

theorem receiveAll_cons_ok (numLinks : Nat) (x : Nat × MessageBufferType)
    (l : List (Nat × MessageBufferType)) (h r : PackUnPack) :
    receiveAll PackUnPack.unpack numLinks (x :: l) h = .ok r ↔
      x.1 < numLinks ∧ ∃ h1, h.unpack x.1 x.2 = .ok h1 ∧
        receiveAll PackUnPack.unpack numLinks l h1 = .ok r := by
  simp only [receiveAll]
  by_cases hx : numLinks ≤ x.1
  · simp [hx]
  · simp only [hx, if_false]
    cases hun : h.unpack x.1 x.2 with
    | error e => simp
    | ok h1 =>
      simp only [Except.ok.injEq, exists_eq_left']
      constructor
      · intro e; exact ⟨by omega, e⟩
      · rintro ⟨_, e⟩; exact e

theorem disjointLinks_symm (maps : IndexMapStorageType) :
    Symmetric (DisjointLinks maps) :=
  fun _ _ hab => List.Disjoint.symm hab

theorem receiveAll_perm (numLinks : Nat) (maps : IndexMapStorageType)
    {l1 l2 : List (Nat × MessageBufferType)} (hperm : l1.Perm l2) :
    ∀ (h r : PackUnPack), h.indexMaps_ = maps → h.WellFormed →
      l1.Pairwise (DisjointLinks maps) →
      receiveAll PackUnPack.unpack numLinks l1 h = .ok r →
      receiveAll PackUnPack.unpack numLinks l2 h = .ok r := by
  induction hperm with
  | nil => intro h r _ _ _ e; exact e
  | cons x _ ih =>
    intro h r hm hwf hp e
    obtain ⟨hx, h1, hun, hrest⟩ := (receiveAll_cons_ok numLinks x _ h r).1 e
    refine (receiveAll_cons_ok numLinks x _ h r).2 ⟨hx, h1, hun, ?_⟩
    exact ih h1 r ((unpack_preserves h h1 _ _ hun).2.1.trans hm)
      (unpack_wellFormed h h1 _ _ hun hwf) (List.pairwise_cons.1 hp).2 hrest
  | swap x y l =>
    intro h r hm hwf hp e
    obtain ⟨hy, h1, huny, e'⟩ := (receiveAll_cons_ok numLinks y _ h r).1 e
    obtain ⟨hx, h2, hunx, hrest⟩ := (receiveAll_cons_ok numLinks x _ h1 r).1 e'
    have hd : DisjointLinks maps y x := (List.pairwise_cons.1 hp).1 x (by simp)
    obtain ⟨h1', hunx', huny'⟩ := unpack_comm h h1 h2 y.1 x.1 y.2 x.2 hwf
      (by rw [hm]; exact hd) huny hunx
    exact (receiveAll_cons_ok numLinks x _ h r).2 ⟨hx, h1', hunx',
      (receiveAll_cons_ok numLinks y _ h1' r).2 ⟨hy, h2, huny', hrest⟩⟩
  | trans hp1 _ ih1 ih2 =>
    intro h r hm hwf hp e
    exact ih2 h r hm hwf ((hp1.pairwise_iff (fun hab => disjointLinks_symm maps hab)).1 hp)
      (ih1 h r hm hwf hp e)

theorem construct_wellFormed (ld : Solution) (lim : IndexMapType)
    (maps : IndexMapStorageType) (N : Nat) (io : Bool) (pu : PackUnPack)
    (hs : (ld.map Prod.fst).Pairwise (· < ·))
    (hc : PackUnPack.construct ld [] lim maps N io = .ok pu) : pu.WellFormed := by
  have hnd := nodup_of_sorted_keys ld hs
  unfold PackUnPack.construct at hc
  cases io with
  | false =>
    simp only [Bool.false_eq_true, if_false, Except.ok.injEq] at hc
    subst hc
    exact ⟨hnd, by simp⟩
  | true =>
    simp only [if_true, insertFields_of_sorted N ld [] hs (by simp), List.nil_append] at hc
    cases hp : PackUnPack.pack
        { localCellData_ := ld, globalCellData_ := globalOf ld (fun _ => List.replicate N 0),
          localIndexMap_ := lim, indexMaps_ := maps } 0 [] with
    | error e => rw [hp] at hc; cases hc
    | ok buffer =>
      rw [hp] at hc
      simp only at hc
      cases hl : maps.getLast? with
      | none => rw [hl] at hc; cases hc
      | some indexMap =>
        rw [hl] at hc
        simp only [PackUnPack.doUnpack] at hc
        cases hu : unpackFields indexMap ld (globalOf ld (fun _ => List.replicate N 0))
            buffer with
        | error e => rw [hu] at hc; cases hc
        | ok res =>
          rw [hu] at hc
          cases hc
          refine ⟨hnd, ?_⟩
          show (res.1.map Prod.fst).Nodup
          rw [unpackFields_keys indexMap ld _ buffer res.1 res.2 hu, map_fst_globalOf]
          exact hnd

theorem collect_perm (s : CollectDataToIORank) (ld : Solution)
    (l1 l2 : List (Nat × MessageBufferType))
    (r : CollectDataToIORank × List (Nat × MessageBufferType))
    (hs : (ld.map Prod.fst).Pairwise (· < ·)) (hperm : l1.Perm l2)
    (hp : l1.Pairwise (DisjointLinks s.indexMaps_))
    (h : s.collect ld l1 = .ok r) : s.collect ld l2 = .ok r := by
  unfold CollectDataToIORank.collect at h ⊢
  split
  · rename_i hc
    simpa only [hc, if_true] using h
  · rename_i hc
    simp only [hc, if_false] at h
    cases hcon : PackUnPack.construct ld [] s.localIndexMap_ s.indexMaps_ s.numCells
        s.isIORank with
    | error e => rw [hcon] at h; cases h
    | ok pu =>
      rw [hcon] at h
      simp only at h ⊢
      split
      · rename_i hpar
        simpa only [hpar, if_true] using h
      · rename_i hpar
        simp only [hpar, if_false, P2PCommunicatorType.exchange] at h ⊢
        cases hsend : sendAll (PackUnPack.pack pu) s.toIORankComm_.sendLinks 0 with
        | error e => rw [hsend] at h; cases h
        | ok sent =>
          rw [hsend] at h
          simp only at h ⊢
          cases hrec : receiveAll PackUnPack.unpack s.toIORankComm_.recvLinks.length l1 pu with
          | error e => rw [hrec] at h; cases h
          | ok pu' =>
            rw [hrec] at h
            have hmaps := (construct_fields _ _ _ _ _ _ _ hcon).2.1
            have hrec2 := receiveAll_perm s.toIORankComm_.recvLinks.length s.indexMaps_ hperm
              pu pu' hmaps (construct_wellFormed ld _ _ _ _ pu hs hcon) hp hrec
            rw [hrec2]
            exact h

/-- C6: order independence.  Let the handle hold well-formed `Solution`s.  For any two
receive links `a`, `b` whose index tables are disjoint and any two buffers: if unpacking
`a`'s buffer and then `b`'s returns, so does unpacking `b`'s and then `a`'s, with the same
handle (hence the same global buffer).  Consequently, for arrivals whose tables are
pairwise disjoint, the exchange returns for one arrival order exactly when it returns for
any other, and with the same handle; and so does `collect()`, with the same global
buffer. -/
theorem unpack_order_independent (h : PackUnPack) (hwf : h.WellFormed) :
    (∀ (a b : Nat) (ba bb : MessageBufferType) (h1 h2 : PackUnPack),
      List.Disjoint (h.indexMaps_.getD a []) (h.indexMaps_.getD b []) →
      h.unpack a ba = .ok h1 → h1.unpack b bb = .ok h2 →
      ∃ h1', h.unpack b bb = .ok h1' ∧ h1'.unpack a ba = .ok h2) ∧
    (∀ (numLinks : Nat) (l1 l2 : List (Nat × MessageBufferType)) (r : PackUnPack),
      l1.Perm l2 → l1.Pairwise (DisjointLinks h.indexMaps_) →
      (receiveAll PackUnPack.unpack numLinks l1 h = .ok r ↔
        receiveAll PackUnPack.unpack numLinks l2 h = .ok r)) ∧
    (∀ (s : CollectDataToIORank) (l1 l2 : List (Nat × MessageBufferType))
      (r : CollectDataToIORank × List (Nat × MessageBufferType)),
      s.indexMaps_ = h.indexMaps_ → (h.localCellData_.map Prod.fst).Pairwise (· < ·) →
      l1.Perm l2 → l1.Pairwise (DisjointLinks h.indexMaps_) →
      (s.collect h.localCellData_ l1 = .ok r ↔ s.collect h.localCellData_ l2 = .ok r)) := by
  refine ⟨fun a b ba bb h1 h2 hd e1 e2 => unpack_comm h h1 h2 a b ba bb hwf hd e1 e2, ?_, ?_⟩
  · intro numLinks l1 l2 r hperm hp
    constructor
    · exact receiveAll_perm numLinks h.indexMaps_ hperm h r rfl hwf hp
    · exact receiveAll_perm numLinks h.indexMaps_ hperm.symm h r rfl hwf
        ((hperm.pairwise_iff (fun hab => disjointLinks_symm h.indexMaps_ hab)).1 hp)
  · intro s l1 l2 r hmaps hs hperm hp
    rw [← hmaps] at hp
    constructor
    · exact collect_perm s _ l1 l2 r hs hperm hp
    · exact collect_perm s _ l2 l1 r hs hperm.symm
        ((hperm.pairwise_iff (fun hab => disjointLinks_symm s.indexMaps_ hab)).1 hp)

theorem unpack_order_independent_witness :
    exampleHandle.WellFormed ∧
      exampleArrivals.Pairwise (DisjointLinks exampleHandle.indexMaps_) ∧
      receiveAll PackUnPack.unpack 2 exampleArrivals exampleHandle =
        .ok { exampleHandle with
                globalCellData_ := pressureField [100, 101, 102, 103, 104, 105] } ∧
      receiveAll PackUnPack.unpack 2
          [(0, [Item.uint 2, Item.dbl 100, Item.dbl 101]),
           (1, [Item.uint 2, Item.dbl 102, Item.dbl 103])] exampleHandle =
        .ok { exampleHandle with
                globalCellData_ := pressureField [100, 101, 102, 103, 104, 105] } := by
  have hwf : exampleHandle.WellFormed := by
    constructor <;> simp [exampleHandle, pressureField]
  have hp : exampleArrivals.Pairwise (DisjointLinks exampleHandle.indexMaps_) := by
    simp [exampleArrivals, DisjointLinks, exampleHandle]
  exact ⟨hwf, hp, rfl,
    ((unpack_order_independent exampleHandle hwf).2.1 2 exampleArrivals _ _
      (List.Perm.swap _ _ _) hp).1 rfl⟩

theorem collect_ignores_global (s : CollectDataToIORank) (g : Solution) (ld : Solution)
    (arrivals : List (Nat × MessageBufferType)) :
    CollectDataToIORank.collect { s with globalCellData_ := g } ld arrivals =
      s.collect ld arrivals := rfl

theorem collect_result_shape (s : CollectDataToIORank) (ld : Solution)
    (arrivals : List (Nat × MessageBufferType)) (r : CollectDataToIORank)
    (sent : List (Nat × MessageBufferType)) (h : s.collect ld arrivals = .ok (r, sent)) :
    r = { s with globalCellData_ := r.globalCellData_ } := by
  unfold CollectDataToIORank.collect at h
  split at h
  · cases h; rfl
  · split at h
    · cases h
    · split at h
      · cases h; rfl
      · split at h
        · cases h
        · cases h; rfl

/-- C5 (amended): idempotence of `collect()`.  For every state of the engine, every local
field buffer and every sequence of arriving buffers for which `collect()` returns: a second
call with the same local buffers and the index tables it left unchanged, receiving the same
buffers in the same order, or in any other order when the tables of the links they arrive
on are pairwise disjoint, returns the very same state (hence the same global buffer: same
keys, lengths and values) and sends the same buffers. -/
theorem collect_idempotent (s : CollectDataToIORank) (ld : Solution)
    (arrivals arrivals' : List (Nat × MessageBufferType)) (r : CollectDataToIORank)
    (sent : List (Nat × MessageBufferType)) (h : s.collect ld arrivals = .ok (r, sent))
    (horder : arrivals' = arrivals ∨
      ((ld.map Prod.fst).Pairwise (· < ·) ∧ arrivals.Perm arrivals' ∧
        arrivals.Pairwise (DisjointLinks s.indexMaps_))) :
    r.collect ld arrivals' = .ok (r, sent) ∧
      r.indexMaps_ = s.indexMaps_ ∧ r.localIndexMap_ = s.localIndexMap_ := by
  have hr := collect_result_shape s ld arrivals r sent h
  refine ⟨?_, by rw [hr], by rw [hr]⟩
  rw [hr, collect_ignores_global]
  rw [← hr]
  rcases horder with rfl | ⟨hs, hperm, hp⟩
  · exact h
  · exact collect_perm s ld arrivals arrivals' (r, sent) hs hperm hp h

theorem collect_idempotent_witness :
    exampleArrivals.Perm
        [(0, [Item.uint 2, Item.dbl 100, Item.dbl 101]),
         (1, [Item.uint 2, Item.dbl 102, Item.dbl 103])] ∧
      exampleArrivals.Pairwise (DisjointLinks exampleCoordinator.indexMaps_) ∧
      exampleCoordinator.collect (pressureField [104, 105]) exampleArrivals =
        .ok ({ exampleCoordinator with
                globalCellData_ := pressureField [100, 101, 102, 103, 104, 105] }, []) ∧
      CollectDataToIORank.collect
          { exampleCoordinator with
              globalCellData_ := pressureField [100, 101, 102, 103, 104, 105] }
          (pressureField [104, 105]) exampleArrivals =
        .ok ({ exampleCoordinator with
                globalCellData_ := pressureField [100, 101, 102, 103, 104, 105] }, []) ∧
      CollectDataToIORank.collect
          { exampleCoordinator with
              globalCellData_ := pressureField [100, 101, 102, 103, 104, 105] }
          (pressureField [104, 105])
          [(0, [Item.uint 2, Item.dbl 100, Item.dbl 101]),
           (1, [Item.uint 2, Item.dbl 102, Item.dbl 103])] =
        .ok ({ exampleCoordinator with
                globalCellData_ := pressureField [100, 101, 102, 103, 104, 105] }, []) := by
  have hperm : exampleArrivals.Perm
      [(0, [Item.uint 2, Item.dbl 100, Item.dbl 101]),
       (1, [Item.uint 2, Item.dbl 102, Item.dbl 103])] := List.Perm.swap _ _ _
  have hp : exampleArrivals.Pairwise (DisjointLinks exampleCoordinator.indexMaps_) := by
    simp [exampleArrivals, DisjointLinks, exampleCoordinator]
  exact ⟨hperm, hp, rfl,
    (collect_idempotent exampleCoordinator (pressureField [104, 105]) exampleArrivals
      exampleArrivals _ [] rfl (Or.inl rfl)).1,
    (collect_idempotent exampleCoordinator (pressureField [104, 105]) exampleArrivals
      _ _ [] rfl (Or.inr ⟨by simp [pressureField], hperm, hp⟩)).1⟩

/-- C5 as stated fails.  The constructor builds the tables `[[0], [0], [1]]` when both
workers report cell `0`.  A first `collect()` in which the buffer of link 0 (value `7`)
arrives before the buffer of link 1 (value `9`) leaves the global field `[9, 5]`; a second
`collect()` with the same local buffers on every process and the same tables, in which the
same two buffers arrive in the other order, leaves `[7, 5]`. -/
theorem collect_idempotent_counterexample :
    CollectDataToIORank.construct true (pairGrid 0 3 [1])
        [(0, [Item.int 1, Item.int 0]), (1, [Item.int 1, Item.int 0])] =
        .ok (overlapCoordinator, []) ∧
      ∃ r1 r2,
        overlapCoordinator.collect (pressureField [5])
            [(0, [Item.uint 1, Item.dbl 7]), (1, [Item.uint 1, Item.dbl 9])] = .ok (r1, []) ∧
        r1.globalCellData_ = pressureField [9, 5] ∧
        r1.indexMaps_ = overlapCoordinator.indexMaps_ ∧
        r1.collect (pressureField [5])
            [(1, [Item.uint 1, Item.dbl 9]), (0, [Item.uint 1, Item.dbl 7])] = .ok (r2, []) ∧
        r2.globalCellData_ = pressureField [7, 5] ∧
        r2.globalCellData_ ≠ r1.globalCellData_ :=
  ⟨rfl, _, _, rfl, rfl, rfl, rfl, rfl, by decide⟩

theorem find_append (m : PositionMap) (x : Int) (v : Nat) (id : Int) :
    PositionMap.find (m ++ [(x, v)]) id =
      (PositionMap.find m id).or (if id = x then some v else none) := by
  unfold PositionMap.find
  rw [List.lookup_append]
  by_cases h : id = x
  · subst h
    simp [List.lookup_cons]
  · have hne : (id == x) = false := by simpa using h
    simp [List.lookup_cons, hne, h]

theorem find_insertPositions : ∀ (l : List Int) (start : Nat) (m : PositionMap) (id : Int),
    PositionMap.find (insertPositions l start m) id =
      (PositionMap.find m id).or (if id ∈ l then some (start + l.indexOf id) else none)
  | [], _, m, id => by simp [insertPositions]
  | x :: l, start, m, id => by
    simp only [insertPositions]
    rw [find_insertPositions l (start + 1) _ id]
    by_cases hid : id = x
    · subst hid
      cases hm : PositionMap.find m id with
      | some p => simp [PositionMap.insert, hm]
      | none => simp [PositionMap.insert, hm, find_append]
    · have hx : x ≠ id := fun e => hid e.symm
      have hidx : List.indexOf id (x :: l) = List.indexOf id l + 1 :=
        List.indexOf_cons_ne l hx
      have hfind : PositionMap.find (PositionMap.insert m x start) id =
          PositionMap.find m id := by
        cases hm : PositionMap.find m x with
        | some p => simp [PositionMap.insert, hm]
        | none =>
          simp only [PositionMap.insert, hm, find_append, hid, if_false]
          cases PositionMap.find m id <;> rfl
      rw [hfind, hidx]
      simp only [List.mem_cons, hid, false_or]
      by_cases hl : id ∈ l
      · simp only [hl, if_true]
        congr 2
        omega
      · simp only [hl, if_false]

theorem find_globalPosition (g : List Int) (id : Int) :
    PositionMap.find (insertPositions g 0 []) id =
      if id ∈ g then some (canonicalPosition g id) else none := by
  rw [find_insertPositions]
  simp [PositionMap.find, canonicalPosition]

theorem index_of_find (m : PositionMap) (id : Int) (pos : Nat)
    (h : PositionMap.find m id = some pos) : PositionMap.index m id = (pos, m) := by
  simp [PositionMap.index, h]

theorem translateLocal_of_mem (g d : List Int) :
    ∀ (lim : List Nat), (∀ li ∈ lim, li < d.length) → (∀ id ∈ physicalIds d lim, id ∈ g) →
      translateLocal d lim (insertPositions g 0 []) =
        .ok ((physicalIds d lim).map (canonicalPosition g), insertPositions g 0 [])
  | [], _, _ => rfl
  | li :: lim, hin, hmem => by
    have hli : li < d.length := hin li (by simp)
    have hget : d[li]? = some d[li] := List.getElem?_eq_getElem hli
    have hD : d.getD li (-1) = d[li] := by
      rw [List.getD_eq_getElem?_getD, hget]; rfl
    have hg : d[li] ∈ g := by
      apply hmem
      simp only [physicalIds, List.map_cons, List.mem_cons]
      left
      exact hD.symm
    have hfind := find_globalPosition g d[li]
    simp only [hg, if_true] at hfind
    have hrest := translateLocal_of_mem g d lim (fun l hl => hin l (by simp [hl]))
      (fun id hid => hmem id (by
        simp only [physicalIds, List.map_cons, List.mem_cons] at hid ⊢
        exact Or.inr hid))
    simp only [translateLocal, hget, index_of_find _ _ _ hfind, hrest, physicalIds,
      List.map_cons, hD]

theorem writeIds_eq_ok (d : List Int) : ∀ (lim : List Nat) (buffer b' : MessageBufferType),
    writeIds d lim buffer = .ok b' ↔
      (∀ li ∈ lim, li < d.length) ∧ b' = buffer ++ (physicalIds d lim).map Item.int
  | [], buffer, b' => by simp [writeIds, physicalIds, eq_comm]
  | li :: lim, buffer, b' => by
    simp only [writeIds]
    by_cases h : li < d.length
    · have hget : d[li]? = some d[li] := List.getElem?_eq_getElem h
      rw [hget]
      simp only [writeIds_eq_ok d lim, MessageBufferType.write]
      simp [physicalIds, h, List.getD_eq_getElem?_getD, hget]
    · have hget : d[li]? = none := List.getElem?_eq_none (Nat.le_of_not_lt h)
      rw [hget]
      simp [h]

theorem distPack_eq_ok (w : DistributeIndexMapping) (b : MessageBufferType) :
    w.pack 0 [] = .ok b ↔
      (∀ li ∈ w.localIndexMap_, li < w.distributedGlobalIndex_.length) ∧
        b = Item.int w.localIndexMap_.length ::
          (physicalIds w.distributedGlobalIndex_ w.localIndexMap_).map Item.int := by
  simp [DistributeIndexMapping.pack, writeIds_eq_ok, MessageBufferType.write]

theorem readIds_of_mem (g : List Int) : ∀ (ids : List Int) (rest : MessageBufferType),
    (∀ id ∈ ids, id ∈ g) →
    readIds (insertPositions g 0 []) ids.length (ids.map Item.int ++ rest) =
      .ok (ids.map (canonicalPosition g), rest)
  | [], rest, _ => rfl
  | id :: ids, rest, hmem => by
    have hfind := find_globalPosition g id
    simp only [hmem id (by simp), if_true] at hfind
    simp only [List.length_cons, readIds, List.map_cons, List.cons_append,
      MessageBufferType.readInt, hfind,
      readIds_of_mem g ids rest (fun x hx => hmem x (by simp [hx]))]

theorem length_physicalIds (d : List Int) (lim : List Nat) :
    (physicalIds d lim).length = lim.length := by
  simp [physicalIds]

theorem insertPositions_ne_nil : ∀ (l : List Int) (start : Nat) (m : PositionMap),
    m ≠ [] ∨ l ≠ [] → insertPositions l start m ≠ []
  | [], _, m, h => by
    rcases h with h | h
    · exact h
    · exact absurd rfl h
  | x :: l, start, m, _ => by
    simp only [insertPositions]
    apply insertPositions_ne_nil
    left
    unfold PositionMap.insert
    split
    · intro e
      subst e
      simp [PositionMap.find] at *
    · simp

theorem distUnpack_of_mem (g : List Int) (hne : g ≠ []) (h : DistributeIndexMapping)
    (hgp : h.globalPosition_ = insertPositions g 0 []) (link : Nat) (w : DistributeIndexMapping)
    (b : MessageBufferType) (hlink : link < h.indexMaps_.length)
    (hpack : w.pack 0 [] = .ok b)
    (hmem : ∀ id ∈ physicalIds w.distributedGlobalIndex_ w.localIndexMap_, id ∈ g) :
    h.unpack link b =
      .ok { h with
              indexMaps_ := h.indexMaps_.set link
                ((physicalIds w.distributedGlobalIndex_ w.localIndexMap_).map
                  (canonicalPosition g)) } := by
  obtain ⟨_, hb⟩ := (distPack_eq_ok w b).1 hpack
  have hneg : ¬ ((link : Int) < 0 ∨ h.indexMaps_.length ≤ link) := by
    omega
  have hemp : (insertPositions g 0 []).isEmpty = false := by
    cases hx : insertPositions g 0 [] with
    | nil => exact absurd hx (insertPositions_ne_nil g 0 [] (Or.inr hne))
    | cons _ _ => rfl
  have hread := readIds_of_mem g (physicalIds w.distributedGlobalIndex_ w.localIndexMap_) []
    hmem
  rw [length_physicalIds, List.append_nil] at hread
  have hnn : ¬ ((w.localIndexMap_.length : Int) < 0) := by omega
  simp only [DistributeIndexMapping.unpack, Int.toNat_ofNat, hneg, if_false, hgp, hemp, hb,
    MessageBufferType.readInt, hnn, hread, Bool.false_eq_true]

theorem distConstruct_of_mem (g d : List Int) (lim : List Nat) (maps : IndexMapStorageType)
    (hmaps : maps ≠ []) (hin : ∀ li ∈ lim, li < d.length)
    (hmem : ∀ id ∈ physicalIds d lim, id ∈ g) :
    DistributeIndexMapping.construct g d lim maps =
      .ok { distributedGlobalIndex_ := d, localIndexMap_ := lim,
            indexMaps_ := maps.set (maps.length - 1)
              ((physicalIds d lim).map (canonicalPosition g)),
            globalPosition_ := insertPositions g 0 [] } := by
  have hemp : maps.isEmpty = false := by
    cases maps with
    | nil => exact absurd rfl hmaps
    | cons _ _ => rfl
  simp only [DistributeIndexMapping.construct, hemp, Bool.false_eq_true, if_false,
    translateLocal_of_mem g d lim hin hmem]

theorem length_storeTables (g : List Int) (workers : Nat → DistributeIndexMapping) :
    ∀ (arrivals : List (Nat × MessageBufferType)) (maps : IndexMapStorageType),
      (storeTables g workers arrivals maps).length = maps.length
  | [], _ => rfl
  | a :: rest, maps => by
    simp only [storeTables, List.foldl_cons]
    have := length_storeTables g workers rest (maps.set a.1 (tableOf g (workers a.1)))
    simp only [storeTables] at this
    rw [this, List.length_set]

theorem receiveAll_dist (g : List Int) (hne : g ≠ []) (numLinks : Nat)
    (workers : Nat → DistributeIndexMapping) :
    ∀ (arrivals : List (Nat × MessageBufferType)) (h : DistributeIndexMapping),
      h.globalPosition_ = insertPositions g 0 [] →
      (∀ a ∈ arrivals, a.1 < numLinks ∧ a.1 < h.indexMaps_.length ∧
        (workers a.1).pack 0 [] = .ok a.2 ∧
        ∀ id ∈ physicalIds (workers a.1).distributedGlobalIndex_ (workers a.1).localIndexMap_,
          id ∈ g) →
      receiveAll DistributeIndexMapping.unpack numLinks arrivals h =
        .ok { h with indexMaps_ := storeTables g workers arrivals h.indexMaps_ }
  | [], h, _, _ => rfl
  | a :: rest, h, hgp, hall => by
    obtain ⟨hlt, hlen, hpack, hmem⟩ := hall a (by simp)
    have hun := distUnpack_of_mem g hne h hgp a.1 (workers a.1) a.2 hlen hpack hmem
    have hnl : ¬ numLinks ≤ a.1 := by omega
    simp only [receiveAll, hnl, if_false, hun]
    have hrec := receiveAll_dist g hne numLinks workers rest
      { h with
          indexMaps_ := h.indexMaps_.set a.1
            ((physicalIds (workers a.1).distributedGlobalIndex_
              (workers a.1).localIndexMap_).map (canonicalPosition g)) }
      hgp
      (fun b hb => by
        obtain ⟨h1, h2, h3, h4⟩ := hall b (by simp [hb])
        exact ⟨h1, by simpa using h2, h3, h4⟩)
    rw [hrec]
    simp [storeTables, tableOf]

theorem getElem?_storeTables (g : List Int) (workers : Nat → DistributeIndexMapping) :
    ∀ (arrivals : List (Nat × MessageBufferType)) (maps : IndexMapStorageType) (i : Nat),
      (storeTables g workers arrivals maps)[i]? =
        if i ∈ arrivals.map Prod.fst ∧ i < maps.length then some (tableOf g (workers i))
        else maps[i]?
  | [], maps, i => by simp [storeTables]
  | a :: rest, maps, i => by
    simp only [storeTables, List.foldl_cons]
    have := getElem?_storeTables g workers rest (maps.set a.1 (tableOf g (workers a.1))) i
    simp only [storeTables] at this
    rw [this, List.length_set, List.getElem?_set]
    by_cases hi : i < maps.length
    · by_cases hr : i ∈ rest.map Prod.fst
      · simp [hr, hi]
      · by_cases ha : a.1 = i
        · subst ha
          simp [hr, hi]
        · have ha' : ¬ i = a.1 := fun e => ha e.symm
          simp [hr, hi, ha, ha']
    · have hnone : maps[i]? = none := List.getElem?_eq_none (Nat.le_of_not_lt hi)
      by_cases ha : a.1 = i
      · subst ha
        simp [hi, hnone]
      · simp [hi, ha]

theorem map_canonicalPosition_self (g : List Int) (hg : g.Nodup) :
    g.map (canonicalPosition g) = List.range g.length := by
  apply List.ext_getElem
  · simp
  · intro i h1 h2
    simp only [List.getElem_map, List.getElem_range, canonicalPosition]
    exact List.indexOf_getElem hg i (by simpa using h1)

theorem storeTables_eq (g : List Int) (workers : Nat → DistributeIndexMapping)
    (arrivals : List (Nat × MessageBufferType)) (maps : IndexMapStorageType)
    (ownT : IndexMapType) (hmaps : maps.length = arrivals.length + 1)
    (hlinks : (arrivals.map Prod.fst).Perm (List.range arrivals.length)) :
    storeTables g workers arrivals (maps.set (maps.length - 1) ownT) =
      (List.range arrivals.length).map (fun l => tableOf g (workers l)) ++ [ownT] := by
  apply List.ext_getElem?
  intro i
  rw [getElem?_storeTables, List.length_set]
  have hmem : i ∈ arrivals.map Prod.fst ↔ i < arrivals.length := by
    rw [hlinks.mem_iff, List.mem_range]
  by_cases hi : i < arrivals.length
  · have h1 : i < maps.length := by omega
    simp only [hmem, hi, h1, and_self, if_true]
    rw [List.getElem?_append_left (by simpa using hi)]
    simp [hi]
  · simp only [hmem, hi, false_and, if_false]
    rw [List.getElem?_append_right (by simpa using hi), List.getElem?_set]
    simp only [List.length_map, List.length_range, hmaps, Nat.add_sub_cancel]
    by_cases he : i = arrivals.length
    · subst he
      simp
    · have h2 : ¬ arrivals.length = i := fun e => he e.symm
      have h3 : maps[i]? = none := List.getElem?_eq_none (by omega)
      have h4 : i - arrivals.length ≠ 0 := by omega
      simp only [h2, if_false, h3]
      cases hk : i - arrivals.length with
      | zero => exact absurd hk h4
      | succ k => rfl

/-- C3 (amended): bijectivity of the index tables.  Let the canonical array have `N >= 1`
pairwise distinct entries, let `indexMaps_` have one slot per process, let one buffer arrive
per receive link, each packed by `DistributeIndexMapping::pack` of its worker, and let the
physical cell ids contributed by all processes together contain every canonical entry
exactly once.  Then the constructor and the unpacks return, whatever the arrival order, and
the tables they built, taken together, contain every position of `0 .. N-1` exactly once. -/
theorem index_tables_partition (g d0 : List Int) (lim0 : IndexMapType)
    (maps0 : IndexMapStorageType) (workers : Nat → DistributeIndexMapping)
    (arrivals : List (Nat × MessageBufferType))
    (hg : g.Nodup) (hne : g ≠ [])
    (hmaps : maps0.length = arrivals.length + 1)
    (hlinks : (arrivals.map Prod.fst).Perm (List.range arrivals.length))
    (hown : ∀ li ∈ lim0, li < d0.length)
    (hpack : ∀ a ∈ arrivals, (workers a.1).pack 0 [] = .ok a.2)
    (hcover : (contributedIds d0 lim0 workers arrivals.length).Perm g) :
    ∃ h h', DistributeIndexMapping.construct g d0 lim0 maps0 = .ok h ∧
      receiveAll DistributeIndexMapping.unpack arrivals.length arrivals h = .ok h' ∧
      h'.indexMaps_.flatten.Perm (List.range g.length) := by
  have hsub : ∀ id ∈ contributedIds d0 lim0 workers arrivals.length, id ∈ g :=
    fun id hid => hcover.subset hid
  have hown_mem : ∀ id ∈ physicalIds d0 lim0, id ∈ g :=
    fun id hid => hsub id (by simp [contributedIds, hid])
  have hw_mem : ∀ l, l < arrivals.length →
      ∀ id ∈ physicalIds (workers l).distributedGlobalIndex_ (workers l).localIndexMap_,
        id ∈ g := by
    intro l hl id hid
    apply hsub
    simp only [contributedIds, List.mem_append, List.mem_flatten, List.mem_map, List.mem_range]
    exact Or.inr ⟨_, ⟨l, hl, rfl⟩, hid⟩
  have hlink_lt : ∀ a ∈ arrivals, a.1 < arrivals.length := by
    intro a ha
    have : a.1 ∈ arrivals.map Prod.fst := List.mem_map_of_mem Prod.fst ha
    simpa using hlinks.mem_iff.1 this
  have hmaps_ne : maps0 ≠ [] := by
    intro e
    rw [e] at hmaps
    simp at hmaps
  have hc := distConstruct_of_mem g d0 lim0 maps0 hmaps_ne hown hown_mem
  have hr := receiveAll_dist g hne arrivals.length workers arrivals
    { distributedGlobalIndex_ := d0, localIndexMap_ := lim0,
      indexMaps_ := maps0.set (maps0.length - 1)
        ((physicalIds d0 lim0).map (canonicalPosition g)),
      globalPosition_ := insertPositions g 0 [] } rfl
    (fun a ha => ⟨hlink_lt a ha, by
      have := hlink_lt a ha
      simp only [List.length_set]
      omega, hpack a ha, hw_mem a.1 (hlink_lt a ha)⟩)
  refine ⟨_, _, hc, hr, ?_⟩
  simp only
  rw [storeTables_eq g workers arrivals maps0 _ hmaps hlinks]
  have hflat : ((List.range arrivals.length).map (fun l => tableOf g (workers l)) ++
      [(physicalIds d0 lim0).map (canonicalPosition g)]).flatten =
      (((List.range arrivals.length).map (fun l =>
        physicalIds (workers l).distributedGlobalIndex_ (workers l).localIndexMap_)).flatten ++
        physicalIds d0 lim0).map (canonicalPosition g) := by
    simp [tableOf, List.map_flatten, List.map_map, Function.comp_def]
  rw [hflat, ← map_canonicalPosition_self g hg]
  apply List.Perm.map
  exact List.perm_append_comm.trans hcover

theorem index_tables_partition_witness :
    ([0, 1, 2, 3, 4, 5] : List Int).Nodup ∧
      (contributedIds [4, 5] [0, 1] exampleWorkers 2).Perm [0, 1, 2, 3, 4, 5] ∧
      ∃ h h', DistributeIndexMapping.construct [0, 1, 2, 3, 4, 5] [4, 5] [0, 1] [[], [], []] =
          .ok h ∧
        receiveAll DistributeIndexMapping.unpack 2
          [(1, [Item.int 2, Item.int 2, Item.int 3]), (0, [Item.int 2, Item.int 0, Item.int 1])]
          h = .ok h' ∧
        h'.indexMaps_.flatten.Perm (List.range 6) :=
  ⟨by decide, by decide,
    index_tables_partition [0, 1, 2, 3, 4, 5] [4, 5] [0, 1] [[], [], []] exampleWorkers
      [(1, [Item.int 2, Item.int 2, Item.int 3]), (0, [Item.int 2, Item.int 0, Item.int 1])]
      (by decide) (by decide) rfl (by decide) (by decide)
      (by
        intro a ha
        simp only [List.mem_cons, List.mem_singleton, List.not_mem_nil, or_false] at ha
        rcases ha with rfl | rfl <;> rfl)
      (by decide)⟩

/-- C3 as stated fails for an empty canonical array (`N = 0`) in a run with a worker: all
hypotheses hold (no cells anywhere), the worker packs the count `0`, and `unpack` stops at
`assert( ! globalPosition_.empty() )`; no table is built for the link. -/
theorem index_tables_partition_counterexample :
    ([] : List Int).Nodup ∧
      (contributedIds [] []
        (fun _ => { distributedGlobalIndex_ := [], localIndexMap_ := [],
                    indexMaps_ := [[], []], globalPosition_ := [] }) 1).Perm [] ∧
      DistributeIndexMapping.pack
          { distributedGlobalIndex_ := [], localIndexMap_ := [], indexMaps_ := [[], []],
            globalPosition_ := [] } 0 [] = .ok [Item.int 0] ∧
      ∃ h, DistributeIndexMapping.construct [] [] [] [[], []] = .ok h ∧
        receiveAll DistributeIndexMapping.unpack 1 [(0, [Item.int 0])] h =
          .error Fault.assertion :=
  ⟨by decide, by decide, rfl, _, rfl, rfl⟩

theorem globalOf_congr (ld : Solution) (D D' : String → List Scalar)
    (h : ∀ k ∈ ld.map Prod.fst, D k = D' k) : globalOf ld D = globalOf ld D' := by
  unfold globalOf
  apply List.map_congr_left
  intro p hp
  rw [h p.1 (List.mem_map_of_mem Prod.fst hp)]

theorem globalOf_globalOf (ld : Solution) (D D' : String → List Scalar) :
    globalOf (globalOf ld D) D' = globalOf ld D' := by
  simp [globalOf, List.map_map, Function.comp_def]

theorem gatherValues_map (d : List Int) (f : Int → Scalar) (lim : List Nat)
    (hin : ∀ li ∈ lim, li < d.length) :
    gatherValues lim (d.map f) = (physicalIds d lim).map f := by
  unfold gatherValues physicalIds
  rw [List.map_map]
  apply List.map_congr_left
  intro li hli
  have h := hin li hli
  simp [List.getD_eq_getElem?_getD, List.getElem?_eq_getElem h]

theorem canonicalPosition_lt (g : List Int) (id : Int) (h : id ∈ g) :
    canonicalPosition g id < g.length :=
  List.indexOf_lt_length.2 h

theorem scatterAll_partition (g : List Int) (hg : g.Nodup) (f : Int → Scalar)
    (procs : List (List Int)) (hcover : procs.flatten.Perm g) :
    scatterAll (procs.map (fun ids => (ids.map (canonicalPosition g), ids.map f)))
      (List.replicate g.length 0) = g.map f := by
  have hmem : ∀ ids ∈ procs, ∀ id ∈ ids, id ∈ g := fun ids hids id hid =>
    hcover.subset (List.mem_flatten.2 ⟨ids, hids, hid⟩)
  have hnd : ((procs.map (fun ids => (ids.map (canonicalPosition g), ids.map f))).map
      Prod.fst).flatten.Nodup := by
    have e : ((procs.map (fun ids => (ids.map (canonicalPosition g), ids.map f))).map
        Prod.fst).flatten = procs.flatten.map (canonicalPosition g) := by
      simp [List.map_flatten, List.map_map, Function.comp_def]
    rw [e]
    have hp : (procs.flatten.map (canonicalPosition g)).Perm (List.range g.length) := by
      rw [← map_canonicalPosition_self g hg]
      exact hcover.map _
    exact hp.nodup_iff.2 (List.nodup_range _)
  have hwf : ∀ t ∈ procs.map (fun ids => (ids.map (canonicalPosition g), ids.map f)),
      t.2.length = t.1.length ∧ ∀ pos ∈ t.1, pos < (List.replicate g.length (0 : Scalar)).length := by
    intro t ht
    obtain ⟨ids, hids, rfl⟩ := List.mem_map.1 ht
    refine ⟨by simp, ?_⟩
    intro pos hpos
    obtain ⟨id, hid, rfl⟩ := List.mem_map.1 hpos
    simpa using canonicalPosition_lt g id (hmem ids hids id hid)
  apply List.ext_getElem?
  intro c
  by_cases hc : c < g.length
  · have hgc : g[c] ∈ procs.flatten := hcover.mem_iff.2 (List.getElem_mem hc)
    obtain ⟨ids, hids, hin⟩ := List.mem_flatten.1 hgc
    obtain ⟨i, hi, hieq⟩ := List.getElem_of_mem hin
    have hmain := getElem?_scatterAll_of_nodup _ (List.replicate g.length 0) hnd hwf
      (ids.map (canonicalPosition g), ids.map f) (List.mem_map_of_mem _ hids) i
      (by simpa using hi)
    have hi2 : i < (ids.map (canonicalPosition g)).length := by simpa using hi
    have hpos : (ids.map (canonicalPosition g))[i] = c := by
      simp only [List.getElem_map, hieq, canonicalPosition]
      exact List.indexOf_getElem hg c hc
    simp only at hmain
    rw [hpos] at hmain
    rw [hmain]
    simp [hi, hieq, hc]
  · have h1 : (scatterAll (procs.map (fun ids => (ids.map (canonicalPosition g), ids.map f)))
        (List.replicate g.length 0))[c]? = none := by
      apply List.getElem?_eq_none
      rw [length_scatterAll]
      simpa using Nat.le_of_not_lt hc
    rw [h1]
    exact (List.getElem?_eq_none (by simpa using Nat.le_of_not_lt hc)).symm

theorem length_le_of_nodup_lt (n : Nat) (l : List Nat) (hnd : l.Nodup)
    (hlt : ∀ x ∈ l, x < n) : l.length ≤ n := by
  have hsub : l ⊆ List.range n := fun x hx => List.mem_range.2 (hlt x hx)
  simpa using (List.subperm_of_subset hnd hsub).length_le

theorem mem_localDataOf (template : Solution) (field : String → Int → Scalar) (d : List Int)
    (pair : String × CellData) (h : pair ∈ localDataOf template field d) :
    pair.1 ∈ template.map Prod.fst ∧ pair.2.data = d.map (field pair.1) := by
  simp only [localDataOf, globalOf, List.mem_map] at h
  obtain ⟨p, hp, rfl⟩ := h
  exact ⟨List.mem_map.2 ⟨p, hp, rfl⟩, rfl⟩

theorem exists_mem_localDataOf (template : Solution) (field : String → Int → Scalar)
    (d : List Int) (k : String) (hk : k ∈ template.map Prod.fst) :
    ∃ pair ∈ localDataOf template field d, pair.2.data = d.map (field k) := by
  obtain ⟨p, hp, rfl⟩ := List.mem_map.1 hk
  exact ⟨(p.1, { dim := p.2.dim, data := d.map (field p.1), target := p.2.target }),
    List.mem_map.2 ⟨p, hp, rfl⟩, rfl⟩

theorem dataD_localDataOf (template : Solution) (field : String → Int → Scalar) (d : List Int)
    (k : String) (hk : k ∈ template.map Prod.fst) :
    Solution.dataD (localDataOf template field d) k = d.map (field k) :=
  dataD_globalOf template _ k hk

theorem partitionedRun_ownPack (template : Solution) (field : String → Int → Scalar)
    (g : List Int) (s : CollectDataToIORank) (d0 : List Int) (senders : Nat → PackUnPack)
    (ds : Nat → List Int) (arrivals : List (Nat × MessageBufferType))
    (h : PartitionedRun template field g s d0 senders ds arrivals) :
    ∀ pair ∈ localDataOf template field d0,
      s.localIndexMap_.length ≤ pair.2.data.length ∧
        ∀ li ∈ s.localIndexMap_, li < pair.2.data.length := by
  intro pair hpair
  obtain ⟨_, hdata⟩ := mem_localDataOf template field d0 pair hpair
  have hnd : (physicalIds d0 s.localIndexMap_).Nodup := by
    have hall : (assignedIds s d0 senders ds arrivals).flatten.Nodup :=
      h.assignment.nodup_iff.2 h.distinct
    simp only [assignedIds, List.flatten_cons] at hall
    exact (List.nodup_append.1 hall).1
  have hlim : s.localIndexMap_.Nodup := List.Nodup.of_map _ hnd
  rw [hdata, List.length_map]
  exact ⟨length_le_of_nodup_lt _ _ hlim h.ownInRange, h.ownInRange⟩

theorem partitionedRun_mem (template : Solution) (field : String → Int → Scalar)
    (g : List Int) (s : CollectDataToIORank) (d0 : List Int) (senders : Nat → PackUnPack)
    (ds : Nat → List Int) (arrivals : List (Nat × MessageBufferType))
    (h : PartitionedRun template field g s d0 senders ds arrivals) :
    ∀ ids ∈ assignedIds s d0 senders ds arrivals, ∀ x ∈ ids, x ∈ g :=
  fun ids hids _ hid => h.assignment.subset (List.mem_flatten.2 ⟨ids, hids, hid⟩)

theorem partitionedRun_coordinatorRun (template : Solution) (field : String → Int → Scalar)
    (g : List Int) (s : CollectDataToIORank) (d0 : List Int) (senders : Nat → PackUnPack)
    (ds : Nat → List Int) (arrivals : List (Nat × MessageBufferType))
    (h : PartitionedRun template field g s d0 senders ds arrivals)
    (hpar : s.isParallel = true) :
    CoordinatorRun s (localDataOf template field d0)
      ((physicalIds d0 s.localIndexMap_).map (canonicalPosition g)) senders arrivals where
  ioRank := h.ioRank
  parallel := hpar
  noSend := h.noSend
  sortedKeys := by
    rw [localDataOf, map_fst_globalOf]; exact h.sortedKeys
  ownPack := partitionedRun_ownPack template field g s d0 senders ds arrivals h
  ownTable := h.ownTable
  ownLength := by simp [length_physicalIds]
  ownBelow := by
    intro pos hpos
    obtain ⟨id, hid, rfl⟩ := List.mem_map.1 hpos
    have := partitionedRun_mem template field g s d0 senders ds arrivals h _
      (by simp [assignedIds]) id hid
    simpa [CollectDataToIORank.numCells, h.canonical] using canonicalPosition_lt g id this
  fits := by
    intro a ha
    obtain ⟨h1, h2, h3, h4, h5⟩ := h.links a ha
    refine ⟨h1, h5, ?_, h2, ?_, ?_⟩
    · rw [h4, localDataOf, map_fst_globalOf, localDataOf, map_fst_globalOf]
    · rw [h3]; simp [length_physicalIds]
    · rw [h3]
      intro pos hpos
      obtain ⟨id, hid, rfl⟩ := List.mem_map.1 hpos
      have hmem := partitionedRun_mem template field g s d0 senders ds arrivals h
        (physicalIds (ds a.1) (senders a.1).localIndexMap_)
        (by
          simp only [assignedIds, List.mem_cons, List.mem_map]
          exact Or.inr ⟨a, ha, rfl⟩) id hid
      simpa [CollectDataToIORank.numCells, h.canonical] using canonicalPosition_lt g id hmem

theorem collect_single (s : CollectDataToIORank) (ld : Solution) (ownT : IndexMapType)
    (arrivals : List (Nat × MessageBufferType))
    (hio : s.isIORank = true) (hpar : s.isParallel = false) (hre : s.needsReordering = true)
    (hs : (ld.map Prod.fst).Pairwise (· < ·))
    (hpack : ∀ pair ∈ ld, s.localIndexMap_.length ≤ pair.2.data.length ∧
      ∀ li ∈ s.localIndexMap_, li < pair.2.data.length)
    (hlast : s.indexMaps_.getLast? = some ownT) (hlen : s.localIndexMap_.length = ownT.length)
    (hpos : ∀ pos ∈ ownT, pos < s.numCells) :
    s.collect ld arrivals =
      .ok ({ s with
              globalCellData_ := globalOf ld
                (fun k => scatter ownT (gatherValues s.localIndexMap_ (Solution.dataD ld k))
                  (List.replicate s.numCells 0)) }, []) := by
  have hc := construct_ioRank ld s.localIndexMap_ s.indexMaps_ s.numCells ownT hs hpack hlast
    hlen hpos
  simp only [CollectDataToIORank.collect, hpar, hre, hio, hc, Bool.not_true, Bool.not_false,
    Bool.false_and, Bool.false_eq_true, if_false, if_true]

theorem contribs_of_partitionedRun (template : Solution) (field : String → Int → Scalar)
    (g : List Int) (s : CollectDataToIORank) (d0 : List Int) (senders : Nat → PackUnPack)
    (ds : Nat → List Int) (arrivals : List (Nat × MessageBufferType))
    (h : PartitionedRun template field g s d0 senders ds arrivals)
    (k : String) (hk : k ∈ template.map Prod.fst) :
    collectContribs s (localDataOf template field d0)
        ((physicalIds d0 s.localIndexMap_).map (canonicalPosition g)) senders k arrivals =
      (assignedIds s d0 senders ds arrivals).map
        (fun ids => (ids.map (canonicalPosition g), ids.map (field k))) := by
  simp only [collectContribs, assignedIds, List.map_cons, arrivalContribs, List.map_map]
  congr 1
  · rw [dataD_localDataOf template field d0 k hk, gatherValues_map d0 (field k) _ h.ownInRange]
  · apply List.map_congr_left
    intro a ha
    obtain ⟨_, _, h3, h4, h5⟩ := h.links a ha
    obtain ⟨hok, _⟩ := (pack_eq_ok (senders a.1) a.2).1 h5
    obtain ⟨pair, hpair, hdata⟩ := exists_mem_localDataOf template field (ds a.1) k hk
    have hin : ∀ li ∈ (senders a.1).localIndexMap_, li < (ds a.1).length := by
      intro li hli
      have := (hok pair (h4 ▸ hpair)).2 li hli
      simpa [hdata] using this
    simp only [Function.comp_def, h3, PackUnPack.packedValues, h4,
      dataD_localDataOf template field (ds a.1) k hk,
      gatherValues_map (ds a.1) (field k) _ hin]

theorem collect_partitioned (template : Solution) (field : String → Int → Scalar)
    (g : List Int) (s : CollectDataToIORank) (d0 : List Int) (senders : Nat → PackUnPack)
    (ds : Nat → List Int) (arrivals : List (Nat × MessageBufferType))
    (h : PartitionedRun template field g s d0 senders ds arrivals)
    (hbuilt : s.isParallel = true ∨ s.needsReordering = true) :
    s.collect (localDataOf template field d0) arrivals =
      .ok ({ s with globalCellData_ := globalOf template (fun k => g.map (field k)) }, []) := by
  have hN : s.numCells = g.length := by
    simp [CollectDataToIORank.numCells, h.canonical]
  have hvals : ∀ k ∈ template.map Prod.fst,
      scatterAll (collectContribs s (localDataOf template field d0)
        ((physicalIds d0 s.localIndexMap_).map (canonicalPosition g)) senders k arrivals)
        (List.replicate s.numCells 0) = g.map (field k) := by
    intro k hk
    rw [contribs_of_partitionedRun template field g s d0 senders ds arrivals h k hk, hN]
    exact scatterAll_partition g h.distinct (field k) _ h.assignment
  by_cases hpar : s.isParallel = true
  · have hglob : globalOf (localDataOf template field d0)
        (fun k => scatterAll (collectContribs s (localDataOf template field d0)
          ((physicalIds d0 s.localIndexMap_).map (canonicalPosition g)) senders k arrivals)
          (List.replicate s.numCells 0)) = globalOf template (fun k => g.map (field k)) :=
      (globalOf_globalOf template _ _).trans (globalOf_congr template _ _ hvals)
    rw [collect_coordinator s _ _ senders arrivals
      (partitionedRun_coordinatorRun template field g s d0 senders ds arrivals h hpar), hglob]
  · have hpar' : s.isParallel = false := by simpa using hpar
    have hre : s.needsReordering = true := by
      rcases hbuilt with hb | hb
      · exact absurd hb hpar
      · exact hb
    have harr : arrivals = [] := h.alone hpar'
    subst harr
    have hown := partitionedRun_ownPack template field g s d0 senders ds [] h
    have hrun := collect_single s (localDataOf template field d0)
      ((physicalIds d0 s.localIndexMap_).map (canonicalPosition g)) [] h.ioRank hpar' hre
      (by rw [localDataOf, map_fst_globalOf]; exact h.sortedKeys) hown h.ownTable
      (by simp [length_physicalIds])
      (by
        intro pos hpos
        obtain ⟨id, hid, rfl⟩ := List.mem_map.1 hpos
        have := partitionedRun_mem template field g s d0 senders ds [] h _
          (by simp [assignedIds]) id hid
        rw [hN]
        exact canonicalPosition_lt g id this)
    have hglob : globalOf (localDataOf template field d0)
        (fun k => scatter ((physicalIds d0 s.localIndexMap_).map (canonicalPosition g))
          (gatherValues s.localIndexMap_ (Solution.dataD (localDataOf template field d0) k))
          (List.replicate s.numCells 0)) = globalOf template (fun k => g.map (field k)) :=
      (globalOf_globalOf template _ _).trans (globalOf_congr template _ _ (fun k hk => by
        have := hvals k hk
        simpa [collectContribs, arrivalContribs, scatterAll] using this))
    rw [hrun, hglob]

/-- C2 (amended): partition invariance.  Take an assignment of the cells of the canonical
array to `P >= 1` processes and a single-process run over the same cells, both with the
same underlying per-cell field values, and let both runs build index tables (a run does so
when it is parallel or `needsReordering` holds; a single-process run without
`needsReordering` builds none and leaves the global buffer empty).  Then both `collect()`
calls return and the coordinator's global buffer of the `P`-process run is identical to
the one of the single-process run: for every field the values of the underlying field in
canonical order. -/
theorem partition_invariance (template : Solution) (field : String → Int → Scalar)
    (g : List Int) (s : CollectDataToIORank) (d0 : List Int) (senders : Nat → PackUnPack)
    (ds : Nat → List Int) (arrivals : List (Nat × MessageBufferType))
    (s1 : CollectDataToIORank) (d1 : List Int)
    (hP : PartitionedRun template field g s d0 senders ds arrivals)
    (hbuilt : s.isParallel = true ∨ s.needsReordering = true)
    (h1 : PartitionedRun template field g s1 d1 senders ds [])
    (_hsingle : s1.isParallel = false) (hre : s1.needsReordering = true) :
    ∃ r r1, s.collect (localDataOf template field d0) arrivals = .ok (r, []) ∧
      s1.collect (localDataOf template field d1) [] = .ok (r1, []) ∧
      r.globalCellData_ = r1.globalCellData_ ∧
      r.globalCellData_ = globalOf template (fun k => g.map (field k)) :=
  ⟨_, _, collect_partitioned template field g s d0 senders ds arrivals hP hbuilt,
    collect_partitioned template field g s1 d1 senders ds [] h1 (Or.inr hre), rfl, rfl⟩

theorem examplePartitionedRun :
    PartitionedRun (pressureField []) examplePressure [0, 1, 2, 3, 4, 5] exampleCoordinator
      [4, 5] exampleSenders exampleCells exampleArrivals where
  ioRank := by decide
  noSend := rfl
  alone := by decide
  sortedKeys := by simp [pressureField]
  canonical := rfl
  distinct := by decide
  ownInRange := by decide
  ownTable := by decide
  links := by
    intro a ha
    simp only [exampleArrivals, List.mem_cons, List.mem_singleton, List.not_mem_nil,
      or_false] at ha
    rcases ha with rfl | rfl <;> exact ⟨by decide, by decide, by decide, by decide, rfl⟩
  assignment := by decide

theorem singlePartitionedRun :
    PartitionedRun (pressureField []) examplePressure [0, 1, 2, 3, 4, 5] singleProcess
      [3, 4, 5, 0, 1, 2] exampleSenders exampleCells [] where
  ioRank := by decide
  noSend := rfl
  alone := fun _ => rfl
  sortedKeys := by simp [pressureField]
  canonical := rfl
  distinct := by decide
  ownInRange := by decide
  ownTable := by decide
  links := by simp
  assignment := by decide

theorem partition_invariance_witness :
    PartitionedRun (pressureField []) examplePressure [0, 1, 2, 3, 4, 5] exampleCoordinator
        [4, 5] exampleSenders exampleCells exampleArrivals ∧
      PartitionedRun (pressureField []) examplePressure [0, 1, 2, 3, 4, 5] singleProcess
        [3, 4, 5, 0, 1, 2] exampleSenders exampleCells [] ∧
      singleProcess.isParallel = false ∧ singleProcess.needsReordering = true ∧
      ∃ r r1, exampleCoordinator.collect (pressureField [104, 105]) exampleArrivals =
          .ok (r, []) ∧
        singleProcess.collect (pressureField [103, 104, 105, 100, 101, 102]) [] =
          .ok (r1, []) ∧
        r.globalCellData_ = r1.globalCellData_ ∧
        r.globalCellData_ = pressureField [100, 101, 102, 103, 104, 105] :=
  ⟨examplePartitionedRun, singlePartitionedRun, rfl, rfl,
    partition_invariance (pressureField []) examplePressure [0, 1, 2, 3, 4, 5]
      exampleCoordinator [4, 5] exampleSenders exampleCells exampleArrivals singleProcess
      [3, 4, 5, 0, 1, 2] examplePartitionedRun (Or.inl rfl) singlePartitionedRun rfl rfl⟩

/-- C2 as stated fails in a build without `needsReordering`.  Two cells with the values 5
and 7: in the two-process run (constructors and `collect()` of both processes) the global
buffer on the coordinator is `"P" -> [5, 7]`; in the single-process run over the same cells
the constructor builds no index tables and `collect()` leaves the global buffer empty. -/
theorem partition_invariance_counterexample :
    ∃ w b s w' c r s1 r1,
      CollectDataToIORank.construct false (pairGrid 1 2 [1]) [] = .ok (w, [(0, b)]) ∧
      CollectDataToIORank.construct false (pairGrid 0 2 [0]) [(0, b)] = .ok (s, []) ∧
      w.collect (pressureField [7]) [] = .ok (w', [(0, c)]) ∧
      s.collect (pressureField [5]) [(0, c)] = .ok (r, []) ∧
      CollectDataToIORank.construct false (pairGrid 0 1 [0, 1]) [] = .ok (s1, []) ∧
      s1.collect (pressureField [5, 7]) [] = .ok (r1, []) ∧
      r.globalCellData_ = pressureField [5, 7] ∧ r1.globalCellData_ = [] ∧
      r.globalCellData_ ≠ r1.globalCellData_ :=
  ⟨_, _, _, _, _, _, _, _, rfl, rfl, rfl, rfl, rfl, rfl, rfl, rfl, by decide⟩

theorem localIdxToGlobalIdx_of_lt (w : CollectDataToIORank) (table : IndexMapType) (j : Nat)
    (hpar : w.isParallel = true) (hlast : w.indexMaps_.getLast? = some table)
    (hj : j < table.length) : w.localIdxToGlobalIdx j = .ok table[j] := by
  have hne : table.isEmpty = false := by
    cases table with
    | nil => simp at hj
    | cons _ _ => rfl
  have hnlt : ¬ table.length < j := by omega
  simp [CollectDataToIORank.localIdxToGlobalIdx, hpar, hlast, hne, hnlt,
    List.getElem?_eq_getElem hj]

theorem localIdxToGlobalIdx_of_gt (w : CollectDataToIORank) (table : IndexMapType)
    (localIdx : Nat) (hpar : w.isParallel = true) (hlast : w.indexMaps_.getLast? = some table)
    (hgt : table.length < localIdx) :
    w.localIdxToGlobalIdx localIdx = .error Fault.logicError := by
  simp only [CollectDataToIORank.localIdxToGlobalIdx, hpar, hlast, Bool.not_true,
    Bool.false_eq_true, if_false, hgt, if_true]
  split <;> rfl

theorem localIdxToGlobalIdx_of_eq (w : CollectDataToIORank) (table : IndexMapType)
    (hpar : w.isParallel = true) (hlast : w.indexMaps_.getLast? = some table)
    (hne : table ≠ []) :
    w.localIdxToGlobalIdx table.length = .error Fault.outOfRange := by
  have hemp : table.isEmpty = false := by
    cases table with
    | nil => exact absurd rfl hne
    | cons _ _ => rfl
  simp [CollectDataToIORank.localIdxToGlobalIdx, hpar, hlast, hemp]

/-- C11, evaluation at the failing input: own table `[4, 5]`, `localIdx = 2` (the table
length).  The test `localIdx > indexMap.size()` lets the index pass, no `std::logic_error`
is thrown, and `indexMap[ 2 ]` reads past the end of the vector (undefined behaviour,
`Fault.outOfRange` in the embedding).  One index further, `localIdx = 3`, the error is
thrown.  In general the error is thrown for every `localIdx` above the table length, and
the read past the end happens at `localIdx` equal to the length of a non-empty table. -/
theorem localIdxToGlobalIdx_at_length :
    tableProcess.localIdxToGlobalIdx 2 = .error Fault.outOfRange ∧
      tableProcess.localIdxToGlobalIdx 3 = .error Fault.logicError ∧
      (∀ (w : CollectDataToIORank) (table : IndexMapType) (localIdx : Nat),
        w.isParallel = true → w.indexMaps_.getLast? = some table → table.length < localIdx →
        w.localIdxToGlobalIdx localIdx = .error Fault.logicError) ∧
      (∀ (w : CollectDataToIORank) (table : IndexMapType),
        w.isParallel = true → w.indexMaps_.getLast? = some table → table ≠ [] →
        w.localIdxToGlobalIdx table.length = .error Fault.outOfRange) :=
  ⟨rfl, rfl, localIdxToGlobalIdx_of_gt, localIdxToGlobalIdx_of_eq⟩

/-- C12: in a multi-process run, for every `localIdx` below the length of the own index
table (the last entry of `indexMaps_`, which is then non-empty) `localIdxToGlobalIdx`
raises no error and returns exactly `table[ localIdx ]`. -/
theorem localIdxToGlobalIdx_in_range (w : CollectDataToIORank) (table : IndexMapType)
    (localIdx : Nat) (hpar : w.isParallel = true)
    (hlast : w.indexMaps_.getLast? = some table) (hlt : localIdx < table.length) :
    w.localIdxToGlobalIdx localIdx = .ok (table.getD localIdx 0) ∧
      table[localIdx]? = some (table.getD localIdx 0) := by
  have hget : table[localIdx]? = some table[localIdx] := List.getElem?_eq_getElem hlt
  have hD : table.getD localIdx 0 = table[localIdx] := by
    rw [List.getD_eq_getElem?_getD, hget]; rfl
  rw [hD]
  exact ⟨localIdxToGlobalIdx_of_lt w table localIdx hpar hlast hlt, hget⟩

theorem localIdxToGlobalIdx_in_range_witness :
    tableProcess.isParallel = true ∧ tableProcess.indexMaps_.getLast? = some [4, 5] ∧
      tableProcess.localIdxToGlobalIdx 1 = .ok 5 :=
  ⟨rfl, rfl,
    (localIdxToGlobalIdx_in_range tableProcess [4, 5] 1 rfl rfl (by decide)).1⟩

/-- C13: in a single-process run `localIdxToGlobalIdx( localIdx )` returns `localIdx` for
every local index, whatever the index tables hold, and raises no error. -/
theorem localIdxToGlobalIdx_single (w : CollectDataToIORank) (localIdx : Nat)
    (hsingle : w.isParallel = false) : w.localIdxToGlobalIdx localIdx = .ok localIdx := by
  simp [CollectDataToIORank.localIdxToGlobalIdx, hsingle]

theorem localIdxToGlobalIdx_single_witness :
    singleProcess.isParallel = false ∧ singleProcess.localIdxToGlobalIdx 4 = .ok 4 ∧
      CollectDataToIORank.localIdxToGlobalIdx { singleProcess with indexMaps_ := [] } 7 =
        .ok 7 :=
  ⟨rfl, localIdxToGlobalIdx_single singleProcess 4 rfl,
    localIdxToGlobalIdx_single { singleProcess with indexMaps_ := [] } 7 rfl⟩

theorem globalOf_dataD_self : ∀ (ld : Solution), (ld.map Prod.fst).Nodup →
    globalOf ld (Solution.dataD ld) = ld
  | [], _ => rfl
  | (k, cd) :: rest, hnd => by
    simp only [List.map_cons, List.nodup_cons] at hnd
    have hrest : globalOf rest (Solution.dataD ((k, cd) :: rest)) =
        globalOf rest (Solution.dataD rest) := by
      apply globalOf_congr
      intro k' hk'
      have hne : k' ≠ k := fun e => hnd.1 (e ▸ hk')
      simp [Solution.dataD, lookup_cons_ne k' k cd rest hne]
    have hself := globalOf_dataD_self rest hnd.2
    simp only [globalOf, List.map_cons] at hrest hself ⊢
    rw [hrest, hself]
    simp [Solution.dataD, lookup_cons_self]

theorem gatherValues_range (vector : List Scalar) :
    gatherValues (List.range vector.length) vector = vector := by
  apply List.ext_getElem?
  intro i
  by_cases hi : i < vector.length
  · have hr : (List.range vector.length)[i]? = some i := by
      rw [List.getElem?_range hi]
    simp [gatherValues, List.getElem?_map, hr, List.getD_eq_getElem?_getD,
      List.getElem?_eq_getElem hi]
  · have hle := Nat.le_of_not_lt hi
    rw [List.getElem?_eq_none (by simpa [gatherValues] using hle),
      List.getElem?_eq_none hle]

theorem mem_of_lookup {β : Type} (k : String) (v : β) : ∀ (l : List (String × β)),
    List.lookup k l = some v → (k, v) ∈ l
  | [], h => by simp at h
  | (k', v') :: rest, h => by
    by_cases hk : k = k'
    · subst hk
      rw [lookup_cons_self] at h
      cases h
      simp
    · rw [lookup_cons_ne k k' v' rest hk] at h
      exact List.mem_cons_of_mem _ (mem_of_lookup k v rest h)

theorem scatter_range (values vector : List Scalar) (h : vector.length = values.length) :
    scatter (List.range values.length) values vector = values := by
  apply List.ext_getElem?
  intro i
  by_cases hi : i < values.length
  · have hmain := getElem?_scatter_of_nodup (List.range values.length) values vector i
      (List.nodup_range _) (by simp) (fun pos hpos => by
        rw [h]; exact List.mem_range.1 hpos) (by simpa using hi)
    simpa using hmain
  · rw [List.getElem?_eq_none (by rw [length_scatter, h]; exact Nat.le_of_not_lt hi),
      List.getElem?_eq_none (Nat.le_of_not_lt hi)]

/-- C14 (amended): a single-process `collect()`.  Without `needsReordering` it returns at
once and leaves the global buffer empty, whatever the local buffer holds.  With
`needsReordering` it folds the local data into the global buffer through the own table:
the global buffer has the fields of the local one, each with `numCells()` entries holding
`local[k][ localIndexMap[i] ]` at position `ownTable[i]`; this is a copy of the local
buffer when the local index list and the own table are both `0 .. numCells()-1` and every
local field has `numCells()` values. -/
theorem collect_single_process (s : CollectDataToIORank) (ld : Solution)
    (arrivals : List (Nat × MessageBufferType)) (hsingle : s.isParallel = false) :
    (s.needsReordering = false →
      s.collect ld arrivals = .ok ({ s with globalCellData_ := [] }, [])) ∧
    (∀ ownT : IndexMapType, s.needsReordering = true → s.isIORank = true →
      (ld.map Prod.fst).Pairwise (· < ·) →
      (∀ pair ∈ ld, s.localIndexMap_.length ≤ pair.2.data.length ∧
        ∀ li ∈ s.localIndexMap_, li < pair.2.data.length) →
      s.indexMaps_.getLast? = some ownT → s.localIndexMap_.length = ownT.length →
      (∀ pos ∈ ownT, pos < s.numCells) →
      s.collect ld arrivals =
        .ok ({ s with
                globalCellData_ := globalOf ld
                  (fun k => scatter ownT (gatherValues s.localIndexMap_ (Solution.dataD ld k))
                    (List.replicate s.numCells 0)) }, [])) ∧
    (s.needsReordering = true → s.isIORank = true →
      (ld.map Prod.fst).Pairwise (· < ·) →
      (∀ pair ∈ ld, pair.2.data.length = s.numCells) →
      s.localIndexMap_ = List.range s.numCells →
      s.indexMaps_.getLast? = some (List.range s.numCells) →
      s.collect ld arrivals = .ok ({ s with globalCellData_ := ld }, [])) := by
  refine ⟨?_, ?_, ?_⟩
  · intro hre
    simp [CollectDataToIORank.collect, hsingle, hre]
  · intro ownT hre hio hs hpack hlast hlen hpos
    exact collect_single s ld ownT arrivals hio hsingle hre hs hpack hlast hlen hpos
  · intro hre hio hs hlenN hlim hlast
    have hrun := collect_single s ld (List.range s.numCells) arrivals hio hsingle hre hs
      (fun pair hp => by
        rw [hlim, hlenN pair hp]
        exact ⟨by simp, fun li hli => List.mem_range.1 hli⟩)
      hlast (by rw [hlim]) (fun pos hpos => List.mem_range.1 hpos)
    rw [hrun]
    have hnd := nodup_of_sorted_keys ld hs
    have hD : ∀ k ∈ ld.map Prod.fst,
        scatter (List.range s.numCells)
          (gatherValues s.localIndexMap_ (Solution.dataD ld k))
          (List.replicate s.numCells 0) = Solution.dataD ld k := by
      intro k hk
      have hlenk : (Solution.dataD ld k).length = s.numCells := by
        obtain ⟨cd, hcd⟩ := lookup_of_mem_keys k ld hk
        have hmem : (k, cd) ∈ ld := mem_of_lookup k cd ld hcd
        simpa [Solution.dataD, hcd] using hlenN (k, cd) hmem
      rw [hlim, ← hlenk, gatherValues_range]
      exact scatter_range _ _ (by simp)
    rw [globalOf_congr ld _ _ hD, globalOf_dataD_self ld hnd]

theorem collect_single_process_witness :
    identityProcess.isParallel = false ∧
      identityProcess.collect (pressureField [5, 7]) [] =
        .ok ({ identityProcess with globalCellData_ := pressureField [5, 7] }, []) :=
  ⟨rfl, (collect_single_process identityProcess (pressureField [5, 7]) [] rfl).2.2 rfl rfl
    (by simp [pressureField]) (by decide) rfl rfl⟩

/-- C14 as stated fails.  In a single-process run built without `needsReordering` the
constructor builds nothing and `collect()` leaves the global buffer empty although the
local buffer holds `"P" -> [5, 7]`.  In a single-process run built with `needsReordering`
whose local numbering differs from the canonical one, the global buffer holds the values
in canonical order, `[100, .., 105]`, not in the local order `[103, 104, 105, 100, 101,
102]`. -/
theorem collect_single_process_counterexample :
    ∃ s1 r r2,
      CollectDataToIORank.construct false (pairGrid 0 1 [0, 1]) [] = .ok (s1, []) ∧
      s1.isParallel = false ∧
      s1.collect (pressureField [5, 7]) [] = .ok (r, []) ∧
      r.globalCellData_ = [] ∧ r.globalCellData_ ≠ pressureField [5, 7] ∧
      singleProcess.isParallel = false ∧
      singleProcess.collect (pressureField [103, 104, 105, 100, 101, 102]) [] =
        .ok (r2, []) ∧
      r2.globalCellData_ = pressureField [100, 101, 102, 103, 104, 105] ∧
      r2.globalCellData_ ≠ pressureField [103, 104, 105, 100, 101, 102] :=
  ⟨_, _, _, rfl, rfl, rfl, rfl, by decide, rfl, rfl, rfl, by decide⟩

theorem construct_keys (ld : Solution) (lim : IndexMapType) (maps : IndexMapStorageType)
    (N : Nat) (pu : PackUnPack) (hs : (ld.map Prod.fst).Pairwise (· < ·))
    (hc : PackUnPack.construct ld [] lim maps N true = .ok pu) :
    pu.globalCellData_.map Prod.fst = ld.map Prod.fst := by
  unfold PackUnPack.construct at hc
  simp only [if_true, insertFields_of_sorted N ld [] hs (by simp), List.nil_append] at hc
  cases hp : PackUnPack.pack
      { localCellData_ := ld, globalCellData_ := globalOf ld (fun _ => List.replicate N 0),
        localIndexMap_ := lim, indexMaps_ := maps } 0 [] with
  | error e => rw [hp] at hc; cases hc
  | ok buffer =>
    rw [hp] at hc
    simp only at hc
    cases hl : maps.getLast? with
    | none => rw [hl] at hc; cases hc
    | some indexMap =>
      rw [hl] at hc
      simp only [PackUnPack.doUnpack] at hc
      cases hu : unpackFields indexMap ld (globalOf ld (fun _ => List.replicate N 0))
          buffer with
      | error e => rw [hu] at hc; cases hc
      | ok res =>
        rw [hu] at hc
        cases hc
        show res.1.map Prod.fst = ld.map Prod.fst
        rw [unpackFields_keys indexMap ld _ buffer res.1 res.2 hu, map_fst_globalOf]

theorem unpack_keys (h h' : PackUnPack) (link : Nat) (buffer : MessageBufferType)
    (hun : h.unpack link buffer = .ok h') :
    h'.globalCellData_.map Prod.fst = h.globalCellData_.map Prod.fst := by
  obtain ⟨table, g', rest, _, hrun, rfl⟩ := (unpack_eq_ok_iff h h' link buffer).1 hun
  exact unpackFields_keys table _ _ _ g' rest hrun

theorem receiveAll_keys (numLinks : Nat) :
    ∀ (arrivals : List (Nat × MessageBufferType)) (h h' : PackUnPack),
      receiveAll PackUnPack.unpack numLinks arrivals h = .ok h' →
      h'.globalCellData_.map Prod.fst = h.globalCellData_.map Prod.fst
  | [], h, h', e => by
    simp only [receiveAll, Except.ok.injEq] at e
    rw [e]
  | a :: rest, h, h', e => by
    obtain ⟨_, h1, hun, hrest⟩ := (receiveAll_cons_ok numLinks a rest h h').1 e
    rw [receiveAll_keys numLinks rest h1 h' hrest, unpack_keys h h1 a.1 a.2 hun]

/-- What `collect()` leaves in `globalCellData_` when it returns: the result of the
handle's constructor followed by the receive phase of the exchange, or the empty buffer
of the early return. -/
theorem collect_eq_ok_cases (s : CollectDataToIORank) (ld : Solution)
    (arrivals : List (Nat × MessageBufferType)) (r : CollectDataToIORank)
    (sent : List (Nat × MessageBufferType)) (h : s.collect ld arrivals = .ok (r, sent)) :
    (s.needsReordering = false ∧ s.isParallel = false ∧ r.globalCellData_ = []) ∨
    ∃ pu pu', PackUnPack.construct ld [] s.localIndexMap_ s.indexMaps_ s.numCells
        s.isIORank = .ok pu ∧
      r.globalCellData_ = pu'.globalCellData_ ∧
      ((s.isParallel = false ∧ pu' = pu) ∨
        (s.isParallel = true ∧
          receiveAll PackUnPack.unpack s.toIORankComm_.recvLinks.length arrivals pu =
            .ok pu')) := by
  unfold CollectDataToIORank.collect at h
  split at h
  · rename_i hc
    simp only [Bool.and_eq_true, Bool.not_eq_true'] at hc
    cases h
    exact Or.inl ⟨hc.1, hc.2, rfl⟩
  · right
    cases hcon : PackUnPack.construct ld [] s.localIndexMap_ s.indexMaps_ s.numCells
        s.isIORank with
    | error e => rw [hcon] at h; cases h
    | ok pu =>
      rw [hcon] at h
      simp only at h
      split at h
      · rename_i hpar
        simp only [Bool.not_eq_true'] at hpar
        cases h
        exact ⟨pu, pu, rfl, rfl, Or.inl ⟨hpar, rfl⟩⟩
      · rename_i hpar
        simp only [Bool.not_eq_true', Bool.not_eq_false] at hpar
        simp only [P2PCommunicatorType.exchange] at h
        cases hsend : sendAll (PackUnPack.pack pu) s.toIORankComm_.sendLinks 0 with
        | error e => rw [hsend] at h; cases h
        | ok sent' =>
          rw [hsend] at h
          simp only at h
          cases hrec : receiveAll PackUnPack.unpack s.toIORankComm_.recvLinks.length
              arrivals pu with
          | error e => rw [hrec] at h; cases h
          | ok pu' =>
            rw [hrec] at h
            cases h
            exact ⟨pu, pu', rfl, rfl, Or.inr ⟨hpar, hrec⟩⟩

theorem collect_keys (s : CollectDataToIORank) (ld : Solution)
    (arrivals : List (Nat × MessageBufferType)) (r : CollectDataToIORank)
    (sent : List (Nat × MessageBufferType))
    (hio : s.isIORank = true) (hbuilt : s.isParallel = true ∨ s.needsReordering = true)
    (hs : (ld.map Prod.fst).Pairwise (· < ·))
    (h : s.collect ld arrivals = .ok (r, sent)) :
    r.globalCellData_.map Prod.fst = ld.map Prod.fst := by
  rcases collect_eq_ok_cases s ld arrivals r sent h with ⟨hre, hpar, _⟩ | ⟨pu, pu', hcon, hr, hcase⟩
  · rcases hbuilt with hb | hb
    · rw [hpar] at hb; cases hb
    · rw [hre] at hb; cases hb
  · rw [hio] at hcon
    have hk := construct_keys ld _ _ _ pu hs hcon
    rcases hcase with ⟨_, rfl⟩ | ⟨_, hrec⟩
    · rw [hr, hk]
    · rw [hr, receiveAll_keys _ arrivals pu pu' hrec, hk]

/-- C15: no stale keys.  On the coordinator of a run that builds index tables (it has more
than one process or `needsReordering` holds), for every previous content `previous` of
the global buffer and every local buffer (a `std::map`, keys ascending): when
`collect( localCellData )` returns, the keys of the global buffer are exactly the keys of
`localCellData`, in the same order; a key held before and absent from `localCellData` is
gone. -/
theorem collect_no_stale_keys (s : CollectDataToIORank) (ld previous : Solution)
    (arrivals : List (Nat × MessageBufferType)) (r : CollectDataToIORank)
    (sent : List (Nat × MessageBufferType))
    (hio : s.isIORank = true) (hbuilt : s.isParallel = true ∨ s.needsReordering = true)
    (hs : (ld.map Prod.fst).Pairwise (· < ·))
    (h : CollectDataToIORank.collect { s with globalCellData_ := previous } ld arrivals =
      .ok (r, sent)) :
    r.globalCellData_.map Prod.fst = ld.map Prod.fst ∧
      ∀ k ∈ previous.map Prod.fst, k ∉ ld.map Prod.fst → k ∉ r.globalCellData_.map Prod.fst := by
  rw [collect_ignores_global] at h
  have hk := collect_keys s ld arrivals r sent hio hbuilt hs h
  exact ⟨hk, fun k _ hnot => by rw [hk]; exact hnot⟩

theorem collect_no_stale_keys_witness :
    exampleCoordinator.isIORank = true ∧
      CollectDataToIORank.collect
          { exampleCoordinator with globalCellData_ := oneField "OLD" [1, 2, 3] }
          (pressureField [104, 105]) exampleArrivals =
        .ok ({ exampleCoordinator with
                globalCellData_ := pressureField [100, 101, 102, 103, 104, 105] }, []) ∧
      (pressureField [100, 101, 102, 103, 104, 105]).map Prod.fst = ["P"] ∧
      "OLD" ∉ (pressureField [100, 101, 102, 103, 104, 105]).map Prod.fst :=
  ⟨rfl, rfl,
    (collect_no_stale_keys exampleCoordinator (pressureField [104, 105])
      (oneField "OLD" [1, 2, 3]) exampleArrivals
      { exampleCoordinator with
          globalCellData_ := pressureField [100, 101, 102, 103, 104, 105] } []
      rfl (Or.inl rfl) (by simp [pressureField]) rfl).1,
    (collect_no_stale_keys exampleCoordinator (pressureField [104, 105])
      (oneField "OLD" [1, 2, 3]) exampleArrivals
      { exampleCoordinator with
          globalCellData_ := pressureField [100, 101, 102, 103, 104, 105] } []
      rfl (Or.inl rfl) (by simp [pressureField]) rfl).2 "OLD" (by decide) (by decide)⟩

theorem eq_nil_of_keys_nil (g : Solution) (h : g.map Prod.fst = []) : g = [] := by
  cases g with
  | nil => rfl
  | cons _ _ => simp at h

/-- C16: on a non-coordinator rank the global buffer is empty after `collect()`, for every
local buffer, every previous content of the global buffer and whatever arrives: the
handle's constructor touches the global buffer on the I/O rank only, and unpacking cannot
add a field.  Moreover a worker of the star topology (one send link, to the I/O rank)
whose pack accepts its local data does return: it sends the one buffer it packed and its
global buffer is empty. -/
theorem collect_on_worker (s : CollectDataToIORank) (ld : Solution)
    (hworker : s.isIORank = false) :
    (∀ (previous : Solution) (arrivals : List (Nat × MessageBufferType))
      (r : CollectDataToIORank) (sent : List (Nat × MessageBufferType)),
      CollectDataToIORank.collect { s with globalCellData_ := previous } ld arrivals =
        .ok (r, sent) → r.globalCellData_ = []) ∧
    (∀ previous : Solution, s.isParallel = true → s.toIORankComm_.sendLinks = [ioRank] →
      (∀ pair ∈ ld, s.localIndexMap_.length ≤ pair.2.data.length ∧
        ∀ li ∈ s.localIndexMap_, li < pair.2.data.length) →
      CollectDataToIORank.collect { s with globalCellData_ := previous } ld [] =
        .ok ({ s with globalCellData_ := [] }, [(ioRank, wireFormat s.localIndexMap_ ld)])) := by
  constructor
  · intro previous arrivals r sent h
    rw [collect_ignores_global] at h
    rcases collect_eq_ok_cases s ld arrivals r sent h with
      ⟨_, _, hr⟩ | ⟨pu, pu', hcon, hr, hcase⟩
    · exact hr
    · rw [hworker] at hcon
      simp only [PackUnPack.construct, Bool.false_eq_true, if_false, Except.ok.injEq] at hcon
      subst hcon
      rcases hcase with ⟨_, rfl⟩ | ⟨_, hrec⟩
      · exact hr
      · rw [hr]
        apply eq_nil_of_keys_nil
        rw [receiveAll_keys _ arrivals _ pu' hrec]
        rfl
  · intro previous hpar hsend hpack
    rw [collect_ignores_global]
    have hpk : PackUnPack.pack
        { localCellData_ := ld, globalCellData_ := [], localIndexMap_ := s.localIndexMap_,
          indexMaps_ := s.indexMaps_ } ((0 : Nat) : Int) [] =
        .ok (wireFormat s.localIndexMap_ ld) := (pack_eq_ok _ _).2 ⟨hpack, rfl⟩
    simp only [CollectDataToIORank.collect, hpar, hworker, Bool.not_true, Bool.and_false,
      Bool.false_eq_true, if_false, PackUnPack.construct, P2PCommunicatorType.exchange,
      hsend, ioRank, sendAll, hpk, receiveAll]

theorem collect_on_worker_witness :
    tableProcess.isIORank = false ∧
      CollectDataToIORank.collect
          { tableProcess with globalCellData_ := oneField "OLD" [1, 2, 3] }
          (pressureField [104, 105]) [] =
        .ok ({ tableProcess with globalCellData_ := [] },
          [(0, [Item.uint 2, Item.dbl 104, Item.dbl 105])]) :=
  ⟨rfl, (collect_on_worker tableProcess (pressureField [104, 105]) rfl).2
    (oneField "OLD" [1, 2, 3]) rfl rfl (by decide)⟩

theorem mem_insert (key : String) (cd : CellData) (p : String × CellData) :
    ∀ (g : Solution), p ∈ (Solution.insert g key cd).1 → p ∈ g ∨ p = (key, cd)
  | [], h => by
    simp only [Solution.insert, List.mem_singleton] at h
    exact Or.inr h
  | (k, v) :: rest, h => by
    simp only [Solution.insert] at h
    split at h
    · rcases List.mem_cons.1 h with h | h
      · exact Or.inr h
      · exact Or.inl h
    · split at h
      · exact Or.inl h
      · rcases List.mem_cons.1 h with h | h
        · exact Or.inl (by simp [h])
        · rcases mem_insert key cd p rest h with h | h
          · exact Or.inl (List.mem_cons_of_mem _ h)
          · exact Or.inr h

theorem insertFields_sized (N : Nat) : ∀ (ld g g' : Solution), AllFieldsSized N g →
    insertFields N ld g = .ok g' → AllFieldsSized N g'
  | [], g, g', hg, h => by
    simp only [insertFields, Except.ok.injEq] at h
    exact h ▸ hg
  | pair :: rest, g, g', hg, h => by
    simp only [insertFields] at h
    split at h
    · refine insertFields_sized N rest _ g' ?_ h
      intro p hp
      rcases mem_insert _ _ p g hp with hp | hp
      · exact hg p hp
      · rw [hp]; simp
    · cases h

theorem setData_sized (N : Nat) (key : String) (d : List Scalar) (hd : d.length = N) :
    ∀ (g : Solution), AllFieldsSized N g → AllFieldsSized N (Solution.setData g key d)
  | [], _ => by intro p hp; simp [Solution.setData] at hp
  | (k, v) :: rest, hg => by
    intro p hp
    simp only [Solution.setData] at hp
    split at hp
    · rcases List.mem_cons.1 hp with hp | hp
      · rw [hp]; exact hd
      · exact hg p (List.mem_cons_of_mem _ hp)
    · rcases List.mem_cons.1 hp with hp | hp
      · exact hg p (by simp [hp])
      · exact setData_sized N key d hd rest
          (fun q hq => hg q (List.mem_cons_of_mem _ hq)) p hp

theorem unpackFields_sized (N : Nat) (table : IndexMapType) :
    ∀ (ld g : Solution) (buf : MessageBufferType) (g' : Solution) (rest : MessageBufferType),
      AllFieldsSized N g → unpackFields table ld g buf = .ok (g', rest) → AllFieldsSized N g'
  | [], g, buf, g', rest, hg, h => by
    simp only [unpackFields, Except.ok.injEq, Prod.mk.injEq] at h
    exact h.1 ▸ hg
  | p :: ld, g, buf, g', rest, hg, h => by
    simp only [unpackFields, Solution.data] at h
    cases hlk : List.lookup p.1 g with
    | none => rw [hlk] at h; cases h
    | some cd =>
      rw [hlk] at h
      simp only at h
      cases hrd : PackUnPack.read buf table cd.data 0 1 with
      | error e => rw [hrd] at h; cases h
      | ok res =>
        obtain ⟨data', buf1⟩ := res
        rw [hrd] at h
        simp only at h
        obtain ⟨values, _, _, _, hv⟩ := read_inv table buf cd.data data' buf1 hrd
        have hlen : data'.length = N := by
          rw [hv, length_scatter]
          exact hg (p.1, cd) (mem_of_lookup p.1 cd g hlk)
        exact unpackFields_sized N table ld _ buf1 g' rest
          (setData_sized N p.1 data' hlen g hg) h

theorem construct_sized (ld : Solution) (lim : IndexMapType) (maps : IndexMapStorageType)
    (N : Nat) (io : Bool) (pu : PackUnPack)
    (hc : PackUnPack.construct ld [] lim maps N io = .ok pu) :
    AllFieldsSized N pu.globalCellData_ := by
  unfold PackUnPack.construct at hc
  cases io with
  | false =>
    simp only [Bool.false_eq_true, if_false, Except.ok.injEq] at hc
    subst hc
    intro p hp
    simp at hp
  | true =>
    simp only [if_true] at hc
    cases hins : insertFields N ld [] with
    | error e => rw [hins] at hc; cases hc
    | ok g0 =>
      rw [hins] at hc
      simp only at hc
      have hg0 : AllFieldsSized N g0 :=
        insertFields_sized N ld [] g0 (by intro p hp; simp at hp) hins
      cases hp : PackUnPack.pack
          { localCellData_ := ld, globalCellData_ := g0, localIndexMap_ := lim,
            indexMaps_ := maps } 0 [] with
      | error e => rw [hp] at hc; cases hc
      | ok buffer =>
        rw [hp] at hc
        simp only at hc
        cases hl : maps.getLast? with
        | none => rw [hl] at hc; cases hc
        | some indexMap =>
          rw [hl] at hc
          simp only [PackUnPack.doUnpack] at hc
          cases hu : unpackFields indexMap ld g0 buffer with
          | error e => rw [hu] at hc; cases hc
          | ok res =>
            rw [hu] at hc
            cases hc
            exact unpackFields_sized N indexMap ld g0 buffer res.1 res.2 hg0 hu

theorem receiveAll_sized (N numLinks : Nat) :
    ∀ (arrivals : List (Nat × MessageBufferType)) (h h' : PackUnPack),
      AllFieldsSized N h.globalCellData_ →
      receiveAll PackUnPack.unpack numLinks arrivals h = .ok h' →
      AllFieldsSized N h'.globalCellData_
  | [], h, h', hg, e => by
    simp only [receiveAll, Except.ok.injEq] at e
    exact e ▸ hg
  | a :: rest, h, h', hg, e => by
    obtain ⟨_, h1, hun, hrest⟩ := (receiveAll_cons_ok numLinks a rest h h').1 e
    obtain ⟨table, g', r, _, hrun, rfl⟩ := (unpack_eq_ok_iff h h1 a.1 a.2).1 hun
    exact receiveAll_sized N numLinks rest _ h'
      (unpackFields_sized N table _ _ _ g' r hg hrun) hrest

theorem collect_sized (s : CollectDataToIORank) (ld : Solution)
    (arrivals : List (Nat × MessageBufferType)) (r : CollectDataToIORank)
    (sent : List (Nat × MessageBufferType)) (h : s.collect ld arrivals = .ok (r, sent)) :
    AllFieldsSized s.numCells r.globalCellData_ := by
  rcases collect_eq_ok_cases s ld arrivals r sent h with
    ⟨_, _, hr⟩ | ⟨pu, pu', hcon, hr, hcase⟩
  · rw [hr]
    intro p hp
    simp at hp
  · have hpu := construct_sized ld _ _ _ _ pu hcon
    rcases hcase with ⟨_, rfl⟩ | ⟨_, hrec⟩
    · rw [hr]; exact hpu
    · rw [hr]
      exact receiveAll_sized _ _ arrivals pu pu' hpu hrec

/-- C17: after `collect()` on the coordinator of a run that builds index tables, the global
buffer has one field per key of the local buffer, and every field has exactly
`numCells()` entries, `numCells()` being the length of the canonical index array,
whatever the lengths of the local fields and of the index tables.  (On every rank and in
every configuration, each field the global buffer holds after `collect()` has
`numCells()` entries.) -/
theorem collect_field_sizes (s : CollectDataToIORank) (ld : Solution)
    (arrivals : List (Nat × MessageBufferType)) (r : CollectDataToIORank)
    (sent : List (Nat × MessageBufferType)) (h : s.collect ld arrivals = .ok (r, sent)) :
    (∀ p ∈ r.globalCellData_, p.2.data.length = s.globalCartesianIndex_.length) ∧
      (s.isIORank = true → (s.isParallel = true ∨ s.needsReordering = true) →
        (ld.map Prod.fst).Pairwise (· < ·) →
        ∀ k ∈ ld.map Prod.fst, ∃ cd, List.lookup k r.globalCellData_ = some cd ∧
          cd.data.length = s.globalCartesianIndex_.length) := by
  have hsz := collect_sized s ld arrivals r sent h
  refine ⟨hsz, ?_⟩
  intro hio hbuilt hs k hk
  have hkeys := collect_keys s ld arrivals r sent hio hbuilt hs h
  obtain ⟨cd, hcd⟩ := lookup_of_mem_keys k r.globalCellData_ (hkeys ▸ hk)
  exact ⟨cd, hcd, hsz (k, cd) (mem_of_lookup k cd _ hcd)⟩

theorem collect_field_sizes_witness :
    pairCoordinator.collect (oneField "A" [5, 6, 7])
        [(0, [Item.uint 1, Item.dbl 9])] =
      .ok ({ pairCoordinator with globalCellData_ := oneField "A" [5, 9] }, []) ∧
      ∀ p ∈ oneField "A" [5, 9], p.2.data.length = 2 :=
  ⟨rfl, (collect_field_sizes pairCoordinator (oneField "A" [5, 6, 7])
    [(0, [Item.uint 1, Item.dbl 9])]
    { pairCoordinator with globalCellData_ := oneField "A" [5, 9] } [] rfl).1⟩

theorem getElem?_canonicalPosition (g : List Int) (id : Int) (h : id ∈ g) :
    g[canonicalPosition g id]? = some id := by
  have hlt : List.indexOf id g < g.length := List.indexOf_lt_length.2 h
  unfold canonicalPosition
  rw [List.getElem?_eq_getElem hlt]
  exact congrArg some (List.getElem_indexOf hlt)

theorem filter_range_ne_zero (n : Nat) :
    (List.range n).filter (fun i => i != ioRank) = List.range' 1 (n - 1) := by
  cases n with
  | zero => rfl
  | succ m =>
    have hr : List.range (m + 1) = 0 :: List.range' 1 m := by
      rw [List.range_eq_range', List.range'_succ]
    rw [hr]
    have hz : ((0 : Nat) != ioRank) = false := rfl
    simp only [List.filter_cons, hz, Bool.false_eq_true, if_false, Nat.add_sub_cancel]
    apply List.filter_eq_self.2
    intro a ha
    have : 1 ≤ a := (List.mem_range'_1.1 ha).1
    simp only [ioRank, bne_iff_ne, ne_eq]
    omega

theorem storeCartesianIndex_ok (cartesianIndex : Nat → Int) :
    ∀ (elements : List Nat) (vector : List Int), (∀ e ∈ elements, e < vector.length) →
      ∃ v', storeCartesianIndex cartesianIndex elements vector = .ok v' ∧
        v'.length = vector.length
  | [], vector, _ => ⟨vector, rfl, rfl⟩
  | e :: rest, vector, h => by
    have he : e < vector.length := h e (by simp)
    obtain ⟨v', hv, hl⟩ := storeCartesianIndex_ok cartesianIndex rest
      (vector.set e (cartesianIndex e)) (fun x hx => by simpa using h x (by simp [hx]))
    exact ⟨v', by simp only [storeCartesianIndex, he, if_true, hv], by simpa using hl⟩

theorem translateLocal_ok (d : List Int) : ∀ (lim : List Nat) (m : PositionMap),
    (∀ li ∈ lim, li < d.length) → ∃ t m', translateLocal d lim m = .ok (t, m')
  | [], m, _ => ⟨[], m, rfl⟩
  | li :: lim, m, h => by
    have hli : li < d.length := h li (by simp)
    obtain ⟨t, m', ht⟩ := translateLocal_ok d lim (PositionMap.index m d[li]).2
      (fun x hx => h x (by simp [hx]))
    exact ⟨(PositionMap.index m d[li]).1 :: t, m',
      by simp only [translateLocal, List.getElem?_eq_getElem hli, ht]⟩

theorem construct_links (needsReordering : Bool) (gridManager : GridManager)
    (arrivals : List (Nat × MessageBufferType)) (s : CollectDataToIORank)
    (sent : List (Nat × MessageBufferType))
    (h : CollectDataToIORank.construct needsReordering gridManager arrivals = .ok (s, sent)) :
    s.toIORankComm_.rank = gridManager.commRank ∧
      s.toIORankComm_.size = gridManager.commSize ∧
      ((needsReordering = false ∧ gridManager.commSize ≤ 1 ∧
          s.toIORankComm_.sendLinks = [] ∧ s.toIORankComm_.recvLinks = []) ∨
        (s.toIORankComm_.sendLinks =
            (if (gridManager.commRank == ioRank) = true then [] else [ioRank]) ∧
          s.toIORankComm_.recvLinks =
            (if (gridManager.commRank == ioRank) = true then
              (List.range gridManager.commSize).filter (fun i => i != ioRank)
            else []))) := by
  unfold CollectDataToIORank.construct at h
  simp only at h
  split at h
  · rename_i hc
    simp only [Bool.and_eq_true, Bool.not_eq_true', decide_eq_false_iff_not, not_lt] at hc
    cases h
    exact ⟨rfl, rfl, Or.inl ⟨hc.1, hc.2, rfl, rfl⟩⟩
  · split at h
    · cases h
    · split at h
      · cases h
      · split at h
        · cases h
        · split at h
          · cases h
          · cases h
            exact ⟨rfl, rfl, Or.inr ⟨rfl, rfl⟩⟩

/-- C19: star topology.  For every communicator size `n` and every rank `r < n`, when the
constructor returns, the links it registered are: on the coordinator (`r = 0`) an empty
send set and the receive set `{1, .., n-1}`; on every other rank the send set `{0}` and
an empty receive set.  On a worker whose grids number their elements within range, the
constructor does return, having sent one buffer to rank 0. -/
theorem star_topology (needsReordering : Bool) (gridManager : GridManager)
    (hrank : gridManager.commRank < gridManager.commSize) :
    (∀ (arrivals : List (Nat × MessageBufferType)) (s : CollectDataToIORank)
      (sent : List (Nat × MessageBufferType)),
      CollectDataToIORank.construct needsReordering gridManager arrivals = .ok (s, sent) →
      (gridManager.commRank = 0 → s.toIORankComm_.sendLinks = [] ∧
        s.toIORankComm_.recvLinks = List.range' 1 (gridManager.commSize - 1)) ∧
      (gridManager.commRank ≠ 0 → s.toIORankComm_.sendLinks = [0] ∧
        s.toIORankComm_.recvLinks = [])) ∧
    (gridManager.commRank ≠ 0 →
      (∀ e ∈ gridManager.equilElements, e < gridManager.equilSize) →
      (∀ e ∈ gridManager.gridElements, e < gridManager.gridSize) →
      ∃ s b, CollectDataToIORank.construct needsReordering gridManager [] =
        .ok (s, [(0, b)])) := by
  constructor
  · intro arrivals s sent h
    obtain ⟨_, _, hcase⟩ := construct_links needsReordering gridManager arrivals s sent h
    rcases hcase with ⟨_, hsize, hsend, hrecv⟩ | ⟨hsend, hrecv⟩
    · have hr0 : gridManager.commRank = 0 := by omega
      have hn : gridManager.commSize = 1 := by omega
      constructor
      · intro _
        rw [hn]
        exact ⟨hsend, hrecv⟩
      · intro hne
        exact absurd hr0 hne
    · constructor
      · intro hr0
        have hb : (gridManager.commRank == ioRank) = true := by simp [hr0, ioRank]
        rw [hb] at hsend hrecv
        simp only [if_true] at hsend hrecv
        exact ⟨hsend, by rw [hrecv, filter_range_ne_zero]⟩
      · intro hne
        have hb : (gridManager.commRank == ioRank) = false := by simpa [ioRank] using hne
        rw [hb] at hsend hrecv
        simp only [Bool.false_eq_true, if_false] at hsend hrecv
        exact ⟨hsend, hrecv⟩
  · intro hne hequil hgrid
    have hb : (gridManager.commRank == 0) = false := by simpa using hne
    have hpar : decide (1 < gridManager.commSize) = true := by
      simp only [decide_eq_true_eq]
      omega
    obtain ⟨gci, hgci, _⟩ := storeCartesianIndex_ok gridManager.equilCartesianIndex
      gridManager.equilElements (List.replicate gridManager.equilSize (-1))
      (by simpa using hequil)
    obtain ⟨dci, hdci, hdlen⟩ := storeCartesianIndex_ok gridManager.cartesianIndex
      gridManager.gridElements (List.replicate gridManager.gridSize (-1))
      (by simpa using hgrid)
    have hin : ∀ li ∈ gridManager.gridElements, li < dci.length := by
      intro li hli
      rw [hdlen]
      simpa using hgrid li hli
    obtain ⟨t, m', ht⟩ := translateLocal_ok dci gridManager.gridElements
      (insertPositions gci 0 []) hin
    have hmaps : (List.replicate gridManager.commSize ([] : IndexMapType)).isEmpty = false := by
      cases hn : gridManager.commSize with
      | zero => omega
      | succ k => rfl
    have hw := (writeIds_eq_ok dci gridManager.gridElements
      (MessageBufferType.write [] (Item.int gridManager.gridElements.length)) _).2 ⟨hin, rfl⟩
    simp only [CollectDataToIORank.construct, ioRank, hpar, Bool.not_true, Bool.and_false,
      Bool.false_eq_true, if_false, hgci, hdci, hb, DistributeIndexMapping.construct, hmaps, ht,
      P2PCommunicatorType.exchange, sendAll, DistributeIndexMapping.pack, ne_eq,
      Nat.cast_ofNat, Int.Nat.cast_ofNat_Int, not_true_eq_false, CharP.cast_eq_zero, hw,
      receiveAll, ioRank]
    exact ⟨_, _, rfl⟩

theorem star_topology_witness :
    (exampleGrid 1 0).commRank < (exampleGrid 1 0).commSize ∧
      (∃ s b, CollectDataToIORank.construct false (exampleGrid 1 0) [] = .ok (s, [(0, b)]) ∧
        s.toIORankComm_.sendLinks = [0] ∧ s.toIORankComm_.recvLinks = []) ∧
      (exampleGrid 0 4).commRank < (exampleGrid 0 4).commSize ∧
      ∃ s, CollectDataToIORank.construct false (exampleGrid 0 4)
          [(1, [Item.int 2, Item.int 2, Item.int 3]),
           (0, [Item.int 2, Item.int 0, Item.int 1])] = .ok (s, []) ∧
        s.toIORankComm_.sendLinks = [] ∧ s.toIORankComm_.recvLinks = [1, 2] := by
  have hthm := star_topology false (exampleGrid 1 0) (by decide)
  obtain ⟨s, b, hs⟩ := hthm.2 (by decide) (by decide) (by decide)
  have hc : ∃ sc, CollectDataToIORank.construct false (exampleGrid 0 4)
      [(1, [Item.int 2, Item.int 2, Item.int 3]),
       (0, [Item.int 2, Item.int 0, Item.int 1])] = .ok (sc, []) := ⟨_, rfl⟩
  obtain ⟨sc, hsc⟩ := hc
  have hl := ((star_topology false (exampleGrid 0 4) (by decide)).1 _ sc [] hsc).1 rfl
  exact ⟨by decide, ⟨s, b, hs, (hthm.1 [] s _ hs).2 (by decide)⟩, by decide, sc, hsc, hl.1,
    hl.2.trans (by decide)⟩

theorem insertPositions_eq_zip : ∀ (l : List Int) (start : Nat) (m : PositionMap),
    l.Nodup → (∀ id ∈ l, PositionMap.find m id = none) →
    insertPositions l start m = m ++ l.zip (List.range' start l.length)
  | [], _, m, _, _ => by simp [insertPositions]
  | x :: l, start, m, hnd, hm => by
    simp only [List.nodup_cons] at hnd
    have hx : PositionMap.find m x = none := hm x (by simp)
    have hins : PositionMap.insert m x start = m ++ [(x, start)] := by
      simp [PositionMap.insert, hx]
    simp only [insertPositions, hins]
    rw [insertPositions_eq_zip l (start + 1) (m ++ [(x, start)]) hnd.2]
    · simp [List.range'_succ]
    · intro id hid
      have hne : id ≠ x := fun e => hnd.1 (e ▸ hid)
      rw [find_append, hm id (by simp [hid])]
      simp [hne]

theorem translateLocal_inRange (d : List Int) : ∀ (lim : List Nat) (m : PositionMap)
    (t : IndexMapType) (m' : PositionMap), translateLocal d lim m = .ok (t, m') →
    ∀ li ∈ lim, li < d.length
  | [], _, _, _, _ => by simp
  | li :: lim, m, t, m', h => by
    simp only [translateLocal] at h
    cases hget : d[li]? with
    | none => rw [hget] at h; cases h
    | some id =>
      rw [hget] at h
      simp only at h
      cases hrest : translateLocal d lim (PositionMap.index m id).2 with
      | error e => rw [hrest] at h; cases h
      | ok res =>
        have hli : li < d.length := (List.getElem?_eq_some_iff.1 hget).1
        have := translateLocal_inRange d lim _ res.1 res.2 hrest
        intro x hx
        rcases List.mem_cons.1 hx with rfl | hx
        · exact hli
        · exact this x hx

theorem distConstruct_lookup (g d : List Int) (lim : List Nat) (maps : IndexMapStorageType)
    (h : DistributeIndexMapping)
    (hc : DistributeIndexMapping.construct g d lim maps = .ok h)
    (hmem : ∀ id ∈ physicalIds d lim, id ∈ g) :
    h.globalPosition_ = insertPositions g 0 [] := by
  unfold DistributeIndexMapping.construct at hc
  simp only at hc
  split at hc
  · cases hc; rfl
  · cases ht : translateLocal d lim (insertPositions g 0 []) with
    | error e => rw [ht] at hc; cases hc
    | ok res =>
      have hin := translateLocal_inRange d lim _ res.1 res.2 ht
      rw [translateLocal_of_mem g d lim hin hmem] at ht
      rw [translateLocal_of_mem g d lim hin hmem] at hc
      cases hc
      rfl

/-- C20: lookup inversion.  For every canonical array `g` with pairwise distinct entries,
the lookup built by the first loop of the constructor is the list of the pairs
`( g[i], i )`: it maps `g[i]` to `i` for every index `i` of `g`, its keys are exactly the
entries of `g`, and an id that is not in `g` is not found.  The constructor leaves this
lookup in `globalPosition_` whenever it returns and every own cell id occurs in `g`. -/
theorem lookup_inversion (g : List Int) (hg : g.Nodup) :
    insertPositions g 0 [] = g.zip (List.range g.length) ∧
      (∀ (i : Nat) (id : Int), g[i]? = some id →
        PositionMap.find (insertPositions g 0 []) id = some i) ∧
      (insertPositions g 0 []).map Prod.fst = g ∧
      (∀ id, id ∉ g → PositionMap.find (insertPositions g 0 []) id = none) ∧
      (∀ (d : List Int) (lim : List Nat) (maps : IndexMapStorageType)
        (h : DistributeIndexMapping),
        DistributeIndexMapping.construct g d lim maps = .ok h →
        (∀ id ∈ physicalIds d lim, id ∈ g) → h.globalPosition_ = insertPositions g 0 []) := by
  have hzip : insertPositions g 0 [] = g.zip (List.range g.length) := by
    rw [insertPositions_eq_zip g 0 [] hg (by simp [PositionMap.find]), List.nil_append,
      List.range_eq_range']
  refine ⟨hzip, ?_, ?_, ?_, ?_⟩
  · intro i id hi
    obtain ⟨hlt, hval⟩ := List.getElem?_eq_some_iff.1 hi
    rw [find_globalPosition]
    have hmem : id ∈ g := hval ▸ List.getElem_mem hlt
    simp only [hmem, if_true, canonicalPosition, Option.some.injEq]
    rw [← hval]
    exact List.indexOf_getElem hg i hlt
  · rw [hzip]
    exact List.map_fst_zip _ _ (by simp)
  · intro id hid
    rw [find_globalPosition]
    simp [hid]
  · intro d lim maps h hc hmem
    exact distConstruct_lookup g d lim maps h hc hmem

theorem lookup_inversion_witness :
    ([7, 3, 9] : List Int).Nodup ∧
      insertPositions [7, 3, 9] 0 [] = [(7, 0), (3, 1), (9, 2)] ∧
      PositionMap.find (insertPositions [7, 3, 9] 0 []) 9 = some 2 :=
  ⟨by decide, (lookup_inversion [7, 3, 9] (by decide)).1,
    (lookup_inversion [7, 3, 9] (by decide)).2.1 2 9 rfl⟩

theorem lookupOf_find (g : List Int) (m : PositionMap) (hm : LookupOf g m) (id : Int)
    (pos : Nat) (h : PositionMap.find m id = some pos) : pos = translatedPosition g id := by
  unfold translatedPosition
  by_cases hid : id ∈ g
  · rw [hm.1 id hid] at h
    simp only [hid, if_true]
    exact (Option.some.inj h).symm
  · simp only [hid, if_false]
    exact hm.2 id pos hid h

theorem lookupOf_insertPositions (g : List Int) : LookupOf g (insertPositions g 0 []) := by
  constructor
  · intro id hid
    rw [find_globalPosition]
    simp [hid]
  · intro id pos hid h
    rw [find_globalPosition] at h
    simp [hid] at h

theorem find_index (m : PositionMap) (id x : Int) :
    PositionMap.find (PositionMap.index m id).2 x =
      (PositionMap.find m x).or (if x = id then some 0 else none) := by
  unfold PositionMap.index
  cases hf : PositionMap.find m id with
  | some pos =>
    simp only
    by_cases hx : x = id
    · subst hx
      simp [hf]
    · simp only [hx, if_false]
      cases PositionMap.find m x <;> rfl
  | none =>
    simp only
    exact find_append m id 0 x

theorem find_index_self (m : PositionMap) (id : Int) :
    PositionMap.find (PositionMap.index m id).2 id = some (PositionMap.index m id).1 := by
  rw [find_index]
  unfold PositionMap.index
  cases hf : PositionMap.find m id with
  | some pos => simp
  | none => simp

theorem lookupOf_index (g : List Int) (m : PositionMap) (hm : LookupOf g m) (id : Int) :
    LookupOf g (PositionMap.index m id).2 := by
  constructor
  · intro x hx
    rw [find_index, hm.1 x hx]
    rfl
  · intro x pos hx h
    rw [find_index] at h
    cases hf : PositionMap.find m x with
    | some p =>
      rw [hf] at h
      simp only [Option.or_some, Option.some.injEq] at h
      exact h ▸ hm.2 x p hx hf
    | none =>
      rw [hf] at h
      by_cases hxi : x = id
      · simp only [hxi, if_true, Option.none_or, Option.some.injEq] at h
        exact h.symm
      · simp [hxi] at h

theorem translateLocal_spec (g d : List Int) : ∀ (lim : List Nat) (m : PositionMap)
    (t : IndexMapType) (m' : PositionMap), LookupOf g m →
    translateLocal d lim m = .ok (t, m') →
    LookupOf g m' ∧ t = (physicalIds d lim).map (translatedPosition g) ∧
      (∀ x p, PositionMap.find m x = some p → PositionMap.find m' x = some p) ∧
      (∀ id ∈ physicalIds d lim, PositionMap.find m' id = some (translatedPosition g id)) ∧
      (m = [] → lim = [] → m' = [])
  | [], m, t, m', hm, h => by
    simp only [translateLocal, Except.ok.injEq, Prod.mk.injEq] at h
    obtain ⟨rfl, rfl⟩ := h
    exact ⟨hm, rfl, fun _ _ hx => hx, by simp [physicalIds], fun h _ => h⟩
  | li :: lim, m, t, m', hm, h => by
    simp only [translateLocal] at h
    cases hget : d[li]? with
    | none => rw [hget] at h; cases h
    | some id =>
      rw [hget] at h
      simp only at h
      cases hrest : translateLocal d lim (PositionMap.index m id).2 with
      | error e => rw [hrest] at h; cases h
      | ok res =>
        obtain ⟨t1, m1⟩ := res
        rw [hrest] at h
        simp only [Except.ok.injEq, Prod.mk.injEq] at h
        obtain ⟨rfl, rfl⟩ := h
        obtain ⟨h1, h2, h3, h4, _⟩ :=
          translateLocal_spec g d lim _ t1 m1 (lookupOf_index g m hm id) hrest
        have hD : d.getD li (-1) = id := by
          rw [List.getD_eq_getElem?_getD, hget]; rfl
        have hself : PositionMap.find m1 id = some (PositionMap.index m id).1 :=
          h3 id _ (find_index_self m id)
        have hval : (PositionMap.index m id).1 = translatedPosition g id :=
          lookupOf_find g m1 h1 id _ hself
        refine ⟨h1, ?_, ?_, ?_, ?_⟩
        · simp only [physicalIds, List.map_cons, hD, hval]
          rw [h2]
          rfl
        · intro x p hx
          apply h3
          rw [find_index, hx]
          rfl
        · intro x hx
          simp only [physicalIds, List.map_cons, List.mem_cons, hD] at hx
          rcases hx with rfl | hx
          · rw [hself, hval]
          · exact h4 x hx
        · intro _ hl
          cases hl

theorem readIds_spec (g : List Int) (m : PositionMap) (hm : LookupOf g m) :
    ∀ (ids : List Int) (rest : MessageBufferType),
    (∀ id ∈ ids, ∃ pos, PositionMap.find m id = some pos) →
    readIds m ids.length (ids.map Item.int ++ rest) =
      .ok (ids.map (translatedPosition g), rest)
  | [], rest, _ => rfl
  | id :: ids, rest, hfound => by
    obtain ⟨pos, hpos⟩ := hfound id (by simp)
    have hval := lookupOf_find g m hm id pos hpos
    simp only [List.length_cons, readIds, List.map_cons, List.cons_append,
      MessageBufferType.readInt, hpos,
      readIds_spec g m hm ids rest (fun x hx => hfound x (by simp [hx])), hval]

theorem readIds_inv (g : List Int) (m : PositionMap) (hm : LookupOf g m) :
    ∀ (n : Nat) (buf : MessageBufferType) (t : IndexMapType) (rest : MessageBufferType),
    readIds m n buf = .ok (t, rest) →
    ∃ ids : List Int, buf = ids.map Item.int ++ rest ∧ ids.length = n ∧
      (∀ id ∈ ids, PositionMap.find m id = some (translatedPosition g id)) ∧
      t = ids.map (translatedPosition g)
  | 0, buf, t, rest, h => by
    simp only [readIds, Except.ok.injEq, Prod.mk.injEq] at h
    exact ⟨[], by simp [h.2], rfl, by simp, by simp [h.1]⟩
  | n + 1, buf, t, rest, h => by
    cases buf with
    | nil => simp [readIds, MessageBufferType.readInt] at h
    | cons it buf' =>
      cases it with
      | uint k => simp [readIds, MessageBufferType.readInt] at h
      | dbl x => simp [readIds, MessageBufferType.readInt] at h
      | int id =>
        simp only [readIds, MessageBufferType.readInt] at h
        cases hf : PositionMap.find m id with
        | none => rw [hf] at h; cases h
        | some pos =>
          rw [hf] at h
          simp only at h
          cases hr : readIds m n buf' with
          | error e => rw [hr] at h; cases h
          | ok res =>
            obtain ⟨t1, r1⟩ := res
            rw [hr] at h
            simp only [Except.ok.injEq, Prod.mk.injEq] at h
            obtain ⟨rfl, rfl⟩ := h
            obtain ⟨ids, hb, hl, hfound, ht⟩ := readIds_inv g m hm n buf' t1 r1 hr
            have hval := lookupOf_find g m hm id pos hf
            refine ⟨id :: ids, by simp [hb], by simp [hl], ?_, by simp [ht, hval]⟩
            intro x hx
            rcases List.mem_cons.1 hx with rfl | hx
            · rw [hf, hval]
            · exact hfound x hx

theorem translatedPosition_lt (g : List Int) (hne : g ≠ []) (id : Int) :
    translatedPosition g id < g.length := by
  unfold translatedPosition
  by_cases hid : id ∈ g
  · simp only [hid, if_true]
    exact canonicalPosition_lt g id hid
  · simp only [hid, if_false]
    exact List.length_pos.2 hne

theorem translatedPosition_of_mem (g : List Int) (id : Int) (hid : id ∈ g) :
    translatedPosition g id = canonicalPosition g id := by
  simp [translatedPosition, hid]

theorem getLast?_set_last {α : Type} (maps : List α) (t : α) (hne : maps ≠ []) :
    (maps.set (maps.length - 1) t).getLast? = some t := by
  have hlen : 0 < maps.length := List.length_pos.2 hne
  rw [List.getLast?_eq_getElem?, List.length_set]
  exact List.getElem?_set_self (by omega)

theorem distConstruct_spec (g d : List Int) (lim : List Nat) (maps : IndexMapStorageType)
    (hmaps : maps ≠ []) (hin : ∀ li ∈ lim, li < d.length) :
    ∃ m', DistributeIndexMapping.construct g d lim maps =
        .ok { distributedGlobalIndex_ := d, localIndexMap_ := lim,
              indexMaps_ := maps.set (maps.length - 1)
                ((physicalIds d lim).map (translatedPosition g)),
              globalPosition_ := m' } ∧
      LookupOf g m' ∧
      (∀ id ∈ physicalIds d lim, PositionMap.find m' id = some (translatedPosition g id)) ∧
      (g ≠ [] ∨ lim ≠ [] → m' ≠ []) ∧ (g = [] → lim = [] → m' = []) := by
  have hemp : maps.isEmpty = false := by
    cases maps with
    | nil => exact absurd rfl hmaps
    | cons _ _ => rfl
  obtain ⟨t, m', ht⟩ := translateLocal_ok d lim (insertPositions g 0 []) hin
  obtain ⟨h1, h2, h3, h4, h5⟩ :=
    translateLocal_spec g d lim _ t m' (lookupOf_insertPositions g) ht
  refine ⟨m', ?_, h1, h4, ?_, ?_⟩
  · simp only [DistributeIndexMapping.construct, hemp, Bool.false_eq_true, if_false, ht, h2]
  · intro hne hm'
    rcases hne with hg | hl
    · cases g with
      | nil => exact hg rfl
      | cons x g' =>
        have hx := h3 x _ ((lookupOf_insertPositions (x :: g')).1 x (by simp))
        rw [hm'] at hx
        simp [PositionMap.find] at hx
    · cases lim with
      | nil => exact hl rfl
      | cons li lim' =>
        have hx := h4 (d.getD li (-1)) (by simp [physicalIds])
        rw [hm'] at hx
        simp [PositionMap.find] at hx
  · intro hg hl
    subst hg
    exact h5 rfl hl

theorem distUnpack_spec (g : List Int) (h : DistributeIndexMapping)
    (hm : LookupOf g h.globalPosition_) (hne : h.globalPosition_ ≠ []) (link : Nat)
    (hlink : link < h.indexMaps_.length) (ids : List Int)
    (hfound : ∀ id ∈ ids, ∃ pos, PositionMap.find h.globalPosition_ id = some pos) :
    h.unpack link (Item.int ids.length :: ids.map Item.int) =
      .ok { h with indexMaps_ := h.indexMaps_.set link (ids.map (translatedPosition g)) } := by
  have hneg : ¬ ((link : Int) < 0 ∨ h.indexMaps_.length ≤ link) := by omega
  have hemp : h.globalPosition_.isEmpty = false := by
    cases hx : h.globalPosition_ with
    | nil => exact absurd hx hne
    | cons _ _ => rfl
  have hread := readIds_spec g h.globalPosition_ hm ids [] hfound
  rw [List.append_nil] at hread
  have hnn : ¬ ((ids.length : Int) < 0) := by omega
  simp only [DistributeIndexMapping.unpack, Int.toNat_ofNat, hneg, if_false, hemp,
    MessageBufferType.readInt, hnn, hread, Bool.false_eq_true]

/-- C21 (amended): the same translation for the own table.  For every canonical array `g`,
local-to-physical mapping `d` and local index list `lim` (its indices inside `d`), with `g`
and `lim` not both empty, and every non-empty `indexMaps`: the constructor returns and
writes into the last slot of `indexMaps_` the table whose entry `i` is the position stored
for `d[ lim[i] ]`; the handle's own `pack( 0, .. )` returns a buffer, and `unpack` of that
buffer on any link stores exactly the same table in the slot of the link.  When every own
cell id occurs in `g`, the entries are the canonical positions and `unpack` with the
untouched lookup of `g` builds this table as well. -/
theorem own_table_same_translation (g d : List Int) (lim : List Nat)
    (maps : IndexMapStorageType) (link : Nat)
    (hne : g ≠ [] ∨ lim ≠ []) (hin : ∀ li ∈ lim, li < d.length)
    (hlink : link < maps.length) :
    ∃ h b h' own, DistributeIndexMapping.construct g d lim maps = .ok h ∧
      h.indexMaps_ = maps.set (maps.length - 1) own ∧ h.indexMaps_.getLast? = some own ∧
      own = (physicalIds d lim).map (translatedPosition g) ∧
      h.pack 0 [] = .ok b ∧ h.unpack link b = .ok h' ∧ h'.indexMaps_[link]? = some own ∧
      ((∀ id ∈ physicalIds d lim, id ∈ g) →
        own = (physicalIds d lim).map (canonicalPosition g) ∧
        ∀ c : DistributeIndexMapping, c.globalPosition_ = insertPositions g 0 [] →
          link < c.indexMaps_.length →
          ∃ c', c.unpack link b = .ok c' ∧ c'.indexMaps_[link]? = some own) := by
  have hmaps : maps ≠ [] := by
    intro e
    rw [e] at hlink
    exact Nat.not_lt_zero _ hlink
  obtain ⟨m', hc, hm, hfound, hnonempty, _⟩ := distConstruct_spec g d lim maps hmaps hin
  have hpack : DistributeIndexMapping.pack
      { distributedGlobalIndex_ := d, localIndexMap_ := lim,
        indexMaps_ := maps.set (maps.length - 1)
          ((physicalIds d lim).map (translatedPosition g)),
        globalPosition_ := m' } 0 [] =
      .ok (Item.int (physicalIds d lim).length :: (physicalIds d lim).map Item.int) := by
    rw [distPack_eq_ok]
    exact ⟨hin, by rw [length_physicalIds]⟩
  have hun := distUnpack_spec g
    { distributedGlobalIndex_ := d, localIndexMap_ := lim,
      indexMaps_ := maps.set (maps.length - 1)
        ((physicalIds d lim).map (translatedPosition g)),
      globalPosition_ := m' } hm (hnonempty hne) link (by simpa using hlink)
    (physicalIds d lim) (fun id hid => ⟨_, hfound id hid⟩)
  refine ⟨_, _, _, _, hc, rfl, getLast?_set_last maps _ hmaps, rfl, hpack, hun, ?_, ?_⟩
  · exact List.getElem?_set_self (by simpa using hlink)
  · intro hmem
    have heq : (physicalIds d lim).map (translatedPosition g) =
        (physicalIds d lim).map (canonicalPosition g) :=
      List.map_congr_left (fun id hid => translatedPosition_of_mem g id (hmem id hid))
    refine ⟨heq, ?_⟩
    intro c hgp hcl
    have hgne : insertPositions g 0 [] ≠ [] := by
      rcases hne with hg | hl
      · exact insertPositions_ne_nil g 0 [] (Or.inr hg)
      · cases lim with
        | nil => exact absurd rfl hl
        | cons li lim' =>
          have hx : d.getD li (-1) ∈ g := hmem _ (by simp [physicalIds])
          exact insertPositions_ne_nil g 0 [] (Or.inr (List.ne_nil_of_mem hx))
    have hcu := distUnpack_spec g c (hgp ▸ lookupOf_insertPositions g) (hgp ▸ hgne) link hcl
      (physicalIds d lim) (fun id hid => ⟨_, by
        rw [hgp]
        exact (lookupOf_insertPositions g).1 id (hmem id hid)⟩)
    exact ⟨_, hcu, List.getElem?_set_self hcl⟩

theorem own_table_same_translation_witness :
    (([0, 1, 2, 3, 4, 5] : List Int) ≠ [] ∨ ([0, 1] : List Nat) ≠ []) ∧
      ∃ h b h', DistributeIndexMapping.construct [0, 1, 2, 3, 4, 5] [4, 5] [0, 1]
          [[], [], []] = .ok h ∧
        h.indexMaps_.getLast? = some [4, 5] ∧ h.pack 0 [] = .ok b ∧
        h.unpack 1 b = .ok h' ∧ h'.indexMaps_[1]? = some [4, 5] := by
  obtain ⟨h, b, h', own, h1, _, h3, h4, h5, h6, h7, _⟩ :=
    own_table_same_translation [0, 1, 2, 3, 4, 5] [4, 5] [0, 1] [[], [], []] 1
      (Or.inl (by decide)) (by decide) (by decide)
  have hown : own = [4, 5] := h4.trans (by decide)
  subst hown
  exact ⟨Or.inl (by decide), h, b, h', h1, h3, h5, h6, h7⟩

/-- C21 as stated fails for the empty canonical array with an empty local index list:
the constructor writes the (empty) own table and `pack( 0, .. )` produces the buffer holding
the count `0`, but `unpack` of that buffer stops at `assert( ! globalPosition_.empty() )`
and builds no table. -/
theorem own_table_same_translation_counterexample :
    ∃ h, DistributeIndexMapping.construct [] [] [] [[]] = .ok h ∧
      h.indexMaps_.getLast? = some [] ∧
      h.pack 0 [] = .ok [Item.int 0] ∧
      h.unpack 0 [Item.int 0] = .error Fault.assertion :=
  ⟨_, rfl, rfl, rfl, rfl⟩

theorem wireFormat_eq_flatten (lim : IndexMapType) : ∀ (ld : Solution),
    wireFormat lim ld = (ld.map (fun pair => fieldItems lim pair.2.data)).flatten
  | [] => rfl
  | p :: rest => by
    simp only [wireFormat, List.map_cons, List.flatten_cons, wireFormat_eq_flatten lim rest,
      fieldItems, gatherValues, List.map_map, List.cons_append]
    rfl

theorem length_fieldItems (lim : IndexMapType) (data : List Scalar) :
    (fieldItems lim data).length = lim.length + 1 := by
  simp [fieldItems]

theorem flatten_chunk {α : Type} (m : Nat) : ∀ (l : List (List α)) (j : Nat) (c : List α),
    (∀ x ∈ l, x.length = m) → l[j]? = some c → (l.flatten.drop (j * m)).take m = c
  | [], j, c, _, h => by simp at h
  | x :: l, 0, c, hl, h => by
    simp only [List.getElem?_cons_zero, Option.some.injEq] at h
    subst h
    have hx : x.length = m := hl x (by simp)
    simp only [Nat.zero_mul, List.drop_zero, List.flatten_cons]
    rw [← hx]
    exact List.take_left' rfl
  | x :: l, j + 1, c, hl, h => by
    simp only [List.getElem?_cons_succ] at h
    have hx : x.length = m := hl x (by simp)
    have hd : (j + 1) * m = x.length + j * m := by
      rw [hx, Nat.succ_mul, Nat.add_comm]
    simp only [List.flatten_cons]
    rw [hd, List.drop_append]
    exact flatten_chunk m l j c (fun y hy => hl y (by simp [hy])) h

theorem length_flatten_of_length {α : Type} (m : Nat) : ∀ (l : List (List α)),
    (∀ x ∈ l, x.length = m) → l.flatten.length = l.length * m
  | [], _ => by simp
  | x :: l, hl => by
    have hx : x.length = m := hl x (by simp)
    simp only [List.flatten_cons, List.length_append, List.length_cons, hx,
      length_flatten_of_length m l (fun y hy => hl y (by simp [hy])), Nat.succ_mul]
    omega

/-- C22: the wire format of `PackUnPack::pack( 0, buffer )`.  Let the local data be a
`Solution` with `K` fields (keys ascending, as a `std::map` iterates them) and let the local
index list have `n` entries, each inside every field.  Then `pack( 0, buffer )` returns and
appends to the buffer exactly `K * (n + 1)` items and nothing else: for the `j`-th field in
key order, at offset `j * (n + 1)`, the count `n` followed by the `n` values
`data[ localIndexMap[0] ], ..., data[ localIndexMap[n-1] ]` in that order; what the buffer
held before is kept in front. -/
theorem pack_wire_format (h : PackUnPack) (buffer : MessageBufferType)
    (hs : (h.localCellData_.map Prod.fst).Pairwise (· < ·))
    (hfit : ∀ pair ∈ h.localCellData_,
      h.localIndexMap_.length ≤ pair.2.data.length ∧
        ∀ li ∈ h.localIndexMap_, li < pair.2.data.length) :
    ∃ b, h.pack 0 buffer = .ok (buffer ++ b) ∧
      b = (h.localCellData_.map (fun pair => fieldItems h.localIndexMap_ pair.2.data)).flatten ∧
      b.length = h.localCellData_.length * (h.localIndexMap_.length + 1) ∧
      (∀ (j : Nat) (pair : String × CellData), h.localCellData_[j]? = some pair →
        (b.drop (j * (h.localIndexMap_.length + 1))).take (h.localIndexMap_.length + 1) =
            Item.uint h.localIndexMap_.length ::
              h.localIndexMap_.map (fun li => Item.dbl (pair.2.data.getD li 0)) ∧
          (∀ li ∈ h.localIndexMap_, pair.2.data[li]? = some (pair.2.data.getD li 0)) ∧
          ∀ (j' : Nat) (pair' : String × CellData), h.localCellData_[j']? = some pair' →
            j < j' → pair.1 < pair'.1) := by
  have hlen : ∀ x ∈ h.localCellData_.map (fun pair => fieldItems h.localIndexMap_ pair.2.data),
      x.length = h.localIndexMap_.length + 1 := by
    intro x hx
    obtain ⟨p, _, rfl⟩ := List.mem_map.1 hx
    exact length_fieldItems _ _
  refine ⟨_, ?_, rfl, ?_, ?_⟩
  · have hp : PackUnPack.pack h 0 buffer =
        packFields h.localIndexMap_ h.localCellData_ buffer := by
      simp [PackUnPack.pack]
    rw [hp, packFields_eq_ok]
    exact ⟨hfit, by rw [wireFormat_eq_flatten]⟩
  · rw [length_flatten_of_length _ _ hlen, List.length_map]
  · intro j pair hj
    refine ⟨?_, ?_, ?_⟩
    · apply flatten_chunk _ _ j _ hlen
      rw [List.getElem?_map, hj]
      rfl
    · intro li hli
      have hlt : li < pair.2.data.length :=
        (hfit pair (List.getElem?_mem hj)).2 li hli
      rw [List.getD_eq_getElem?_getD, List.getElem?_eq_getElem hlt]
      rfl
    · intro j' pair' hj' hlt
      obtain ⟨h1, e1⟩ := List.getElem?_eq_some_iff.1 hj
      obtain ⟨h2, e2⟩ := List.getElem?_eq_some_iff.1 hj'
      have hrel := List.pairwise_iff_getElem.1 hs j j' (by simpa using h1) (by simpa using h2)
        hlt
      simpa [e1, e2] using hrel

theorem pack_wire_format_witness :
    ∃ b, PackUnPack.pack
          { localCellData_ := twoFields [10, 11, 12] [20, 21, 22], globalCellData_ := [],
            localIndexMap_ := [2, 0], indexMaps_ := [] } 0 [] = .ok ([] ++ b) ∧
      b = [Item.uint 2, Item.dbl 12, Item.dbl 10, Item.uint 2, Item.dbl 22, Item.dbl 20] ∧
      b.length = 2 * (2 + 1) := by
  obtain ⟨b, h1, h2, h3, _⟩ := pack_wire_format
    { localCellData_ := twoFields [10, 11, 12] [20, 21, 22], globalCellData_ := [],
      localIndexMap_ := [2, 0], indexMaps_ := [] } []
    (by simp only [twoFields, List.map_cons, List.map_nil, List.pairwise_cons,
          List.mem_singleton, forall_eq, List.not_mem_nil, false_implies, implies_true,
          List.Pairwise.nil, and_true]
        rw [String.lt_iff_toList_lt]; decide)
    (by simp [twoFields])
  exact ⟨b, h1, h2.trans rfl, h3⟩

/-- C23: the self-link fold-in.  Constructing `PackUnPack` on the I/O rank, as `collect()`
does it (empty global buffer, `globalSize = numCells()`), with the own table `ownT` in the
last slot of `indexMaps`, one entry below `numCells()` per packed cell and no entry twice,
returns without any use of the transport and leaves a global buffer with the keys of the
local data; for every key `k` the global field is the all-zero vector of length
`numCells()` updated at the positions of the own table:
`global[k][ ownT[i] ] = local[k][ localIndexMap[i] ]` for every `i`, and `global[k][c] = 0`
for every position `c` that is not in the own table. -/
theorem fold_in_own_contribution (ld : Solution) (lim : IndexMapType)
    (maps : IndexMapStorageType) (N : Nat) (ownT : IndexMapType)
    (hs : (ld.map Prod.fst).Pairwise (· < ·))
    (hpack : ∀ pair ∈ ld, lim.length ≤ pair.2.data.length ∧ ∀ li ∈ lim, li < pair.2.data.length)
    (hlast : maps.getLast? = some ownT) (hlen : lim.length = ownT.length)
    (hpos : ∀ pos ∈ ownT, pos < N) (hnd : ownT.Nodup) :
    ∃ h, PackUnPack.construct ld [] lim maps N true = .ok h ∧
      h.globalCellData_.map Prod.fst = ld.map Prod.fst ∧
      ∀ k ∈ ld.map Prod.fst,
        Solution.dataD h.globalCellData_ k =
            scatter ownT (gatherValues lim (Solution.dataD ld k)) (List.replicate N 0) ∧
          (Solution.dataD h.globalCellData_ k).length = N ∧
          (∀ (i li pos : Nat), lim[i]? = some li → ownT[i]? = some pos →
            ∃ x, (Solution.dataD ld k)[li]? = some x ∧
              (Solution.dataD h.globalCellData_ k)[pos]? = some x) ∧
          ∀ c, c < N → c ∉ ownT → (Solution.dataD h.globalCellData_ k)[c]? = some 0 := by
  refine ⟨_, construct_ioRank ld lim maps N ownT hs hpack hlast hlen hpos, ?_, ?_⟩
  · exact map_fst_globalOf ld
      (fun k => scatter ownT (gatherValues lim (Solution.dataD ld k)) (List.replicate N 0))
  · intro k hk
    have hD := dataD_globalOf ld
      (fun k => scatter ownT (gatherValues lim (Solution.dataD ld k)) (List.replicate N 0)) k hk
    simp only at hD
    simp only [hD]
    refine ⟨trivial, by simp [length_scatter], ?_, ?_⟩
    · intro i li pos hli hposi
      obtain ⟨hi1, e1⟩ := List.getElem?_eq_some_iff.1 hli
      obtain ⟨hi2, e2⟩ := List.getElem?_eq_some_iff.1 hposi
      have hlt : li < (Solution.dataD ld k).length :=
        dataD_getElem?_of_mem ld k hk li
          (fun pair hp => (hpack pair hp).2 li (List.getElem?_mem hli))
      refine ⟨(Solution.dataD ld k)[li], List.getElem?_eq_getElem hlt, ?_⟩
      have hsc := getElem?_scatter_of_nodup ownT (gatherValues lim (Solution.dataD ld k))
        (List.replicate N 0) i hnd (by simp [length_gatherValues, hlen])
        (fun p hp => by simpa using hpos p hp) hi2
      rw [e2] at hsc
      rw [hsc]
      simp [gatherValues, List.getElem?_map, hli, List.getD_eq_getElem?_getD,
        List.getElem?_eq_getElem hlt]
    · intro c hc hnot
      rw [getElem?_scatter_of_not_mem ownT _ _ c hnot]
      simp [List.getElem?_replicate, hc]

theorem fold_in_own_contribution_witness :
    ∃ h, PackUnPack.construct (pressureField [104, 105]) [] [0, 1] [[0, 1], [2, 3], [4, 5]]
          6 true = .ok h ∧
      h.globalCellData_ = pressureField [0, 0, 0, 0, 104, 105] := by
  obtain ⟨h, h1, _, _⟩ := fold_in_own_contribution (pressureField [104, 105]) [0, 1]
    [[0, 1], [2, 3], [4, 5]] 6 [4, 5] (by simp [pressureField]) (by simp [pressureField])
    rfl rfl (by decide) (by decide)
  have hc : PackUnPack.construct (pressureField [104, 105]) [] [0, 1]
      [[0, 1], [2, 3], [4, 5]] 6 true =
      .ok { localCellData_ := pressureField [104, 105],
            globalCellData_ := pressureField [0, 0, 0, 0, 104, 105],
            localIndexMap_ := [0, 1], indexMaps_ := [[0, 1], [2, 3], [4, 5]] } := rfl
  rw [hc] at h1
  cases h1
  exact ⟨_, rfl, rfl⟩

theorem setData_self (key : String) (cd : CellData) : ∀ (g : Solution),
    List.lookup key g = some cd → Solution.setData g key cd.data = g
  | [], h => by simp at h
  | (k, v) :: rest, h => by
    by_cases hk : key = k
    · subst hk
      rw [lookup_cons_self] at h
      cases h
      simp [Solution.setData]
    · rw [lookup_cons_ne key k v rest hk] at h
      simp only [Solution.setData, hk, if_false]
      rw [setData_self key cd rest h]

theorem wireFormat_nil : ∀ (ld : Solution),
    wireFormat [] ld = List.replicate ld.length (Item.uint 0)
  | [] => rfl
  | p :: rest => by
    simp only [wireFormat, gatherValues, List.map_nil, List.nil_append, List.length_nil,
      wireFormat_nil rest, List.length_cons, List.replicate_succ]
    rfl

theorem unpackFields_nil : ∀ (ld g : Solution) (rest : MessageBufferType),
    (∀ p ∈ ld, p.1 ∈ g.map Prod.fst) →
    unpackFields [] ld g (List.replicate ld.length (Item.uint 0) ++ rest) = .ok (g, rest)
  | [], g, rest, _ => rfl
  | p :: ld, g, rest, hg => by
    obtain ⟨cd, hcd⟩ := lookup_of_mem_keys p.1 g (hg p (by simp))
    simp only [unpackFields, Solution.data, hcd, List.length_cons, List.replicate_succ,
      List.cons_append, PackUnPack.read, MessageBufferType.readUInt, List.length_nil,
      if_true, readValues, setData_self p.1 cd g hcd]
    exact unpackFields_nil ld g rest (fun q hq => hg q (by simp [hq]))

/-- C24: the zero-cell worker.  A worker whose local index list is empty packs, whatever
its local fields hold, exactly one item per field key: the length `0`.  On the coordinator,
with the empty table stored for the worker's link, the same field keys as the worker and a
global buffer that has a field for each of them (as the constructor of `PackUnPack` leaves
it), `unpack` of that buffer raises no error and returns the handle as it was: every field
of the global buffer is unchanged. -/
theorem zero_cell_worker (w h : PackUnPack) (link : Nat)
    (hw : w.localIndexMap_ = []) (htab : h.indexMaps_[link]? = some [])
    (hkeys : w.localCellData_.map Prod.fst = h.localCellData_.map Prod.fst)
    (hglob : ∀ p ∈ h.localCellData_, p.1 ∈ h.globalCellData_.map Prod.fst) :
    w.pack 0 [] = .ok (List.replicate w.localCellData_.length (Item.uint 0)) ∧
      h.unpack link (List.replicate w.localCellData_.length (Item.uint 0)) = .ok h ∧
      ∀ h', h.unpack link (List.replicate w.localCellData_.length (Item.uint 0)) = .ok h' →
        h'.globalCellData_ = h.globalCellData_ := by
  have hlen : w.localCellData_.length = h.localCellData_.length := by
    have := congrArg List.length hkeys
    simpa using this
  have hun : h.unpack link (List.replicate w.localCellData_.length (Item.uint 0)) = .ok h := by
    have hneg : ¬ ((link : Int) < 0) := by omega
    have hf := unpackFields_nil h.localCellData_ h.globalCellData_ [] hglob
    rw [List.append_nil] at hf
    simp only [PackUnPack.unpack, hneg, if_false, Int.toNat_ofNat, htab, PackUnPack.doUnpack,
      hlen, hf]
  refine ⟨?_, hun, ?_⟩
  · rw [pack_eq_ok, hw]
    exact ⟨by simp, (wireFormat_nil _).symm⟩
  · intro h' hh
    rw [hun] at hh
    cases hh
    rfl

theorem zero_cell_worker_witness :
    PackUnPack.pack
          { localCellData_ := twoFields [] [], globalCellData_ := [], localIndexMap_ := [],
            indexMaps_ := [] } 0 [] = .ok [Item.uint 0, Item.uint 0] ∧
      PackUnPack.unpack
          { localCellData_ := twoFields [5] [6], globalCellData_ := twoFields [5] [6],
            localIndexMap_ := [0], indexMaps_ := [[], [0]] } 0 [Item.uint 0, Item.uint 0] =
        .ok { localCellData_ := twoFields [5] [6], globalCellData_ := twoFields [5] [6],
              localIndexMap_ := [0], indexMaps_ := [[], [0]] } :=
  have hz := zero_cell_worker
    { localCellData_ := twoFields [] [], globalCellData_ := [], localIndexMap_ := [],
      indexMaps_ := [] }
    { localCellData_ := twoFields [5] [6], globalCellData_ := twoFields [5] [6],
      localIndexMap_ := [0], indexMaps_ := [[], [0]] } 0 rfl rfl rfl (by simp [twoFields])
  ⟨hz.1, hz.2.1⟩

/-- C25: the missing own table.  In a multi-process run, when the own index table (the last
entry of `indexMaps_`) is empty, `localIdxToGlobalIdx` throws `std::logic_error` ("index
map is not created on this rank") for every local index, `0` included, and returns no
value. -/
theorem localIdxToGlobalIdx_missing_table (w : CollectDataToIORank) (localIdx : Nat)
    (hpar : w.isParallel = true) (hlast : w.indexMaps_.getLast? = some []) :
    w.localIdxToGlobalIdx localIdx = .error Fault.logicError ∧
      ∀ pos, w.localIdxToGlobalIdx localIdx ≠ .ok pos := by
  have h : w.localIdxToGlobalIdx localIdx = .error Fault.logicError := by
    simp [CollectDataToIORank.localIdxToGlobalIdx, hpar, hlast]
  refine ⟨h, ?_⟩
  intro pos hp
  rw [h] at hp
  cases hp

theorem localIdxToGlobalIdx_missing_table_witness :
    emptyTableProcess.isParallel = true ∧
      emptyTableProcess.localIdxToGlobalIdx 0 = .error Fault.logicError ∧
      emptyTableProcess.localIdxToGlobalIdx 7 = .error Fault.logicError :=
  ⟨rfl, (localIdxToGlobalIdx_missing_table emptyTableProcess 0 rfl rfl).1,
    (localIdxToGlobalIdx_missing_table emptyTableProcess 7 rfl rfl).1⟩

theorem distUnpack_inv (g : List Int) (h h' : DistributeIndexMapping) (link : Int)
    (buf : MessageBufferType) (hm : LookupOf g h.globalPosition_)
    (hu : h.unpack link buf = .ok h') :
    ∃ ids : List Int, 0 ≤ link ∧ link.toNat < h.indexMaps_.length ∧
      h' = { h with indexMaps_ := h.indexMaps_.set link.toNat (ids.map (translatedPosition g)) } ∧
      (∀ id ∈ ids, PositionMap.find h.globalPosition_ id = some (translatedPosition g id)) ∧
      ∃ rest, buf = Item.int ids.length :: (ids.map Item.int ++ rest) := by
  unfold DistributeIndexMapping.unpack at hu
  split at hu
  · cases hu
  · rename_i hlink
    split at hu
    · cases hu
    · cases buf with
      | nil => simp [MessageBufferType.readInt] at hu
      | cons it buf' =>
        cases it with
        | uint k => simp [MessageBufferType.readInt] at hu
        | dbl x => simp [MessageBufferType.readInt] at hu
        | int numCells =>
          simp only [MessageBufferType.readInt] at hu
          split at hu
          · cases hu
          · rename_i hnn
            cases hr : readIds h.globalPosition_ numCells.toNat buf' with
            | error e => rw [hr] at hu; cases hu
            | ok res =>
              obtain ⟨t, rest⟩ := res
              rw [hr] at hu
              simp only [Except.ok.injEq] at hu
              obtain ⟨ids, hb, hl, hfound, ht⟩ :=
                readIds_inv g h.globalPosition_ hm numCells.toNat buf' t rest hr
              have hnum : (ids.length : Int) = numCells := by
                rw [hl]
                exact Int.toNat_of_nonneg (by omega)
              refine ⟨ids, by omega, by omega, ?_, hfound, rest, ?_⟩
              · rw [← hu, ht]
              · rw [hnum, hb]

theorem tablesBelow_set (N : Nat) (maps : IndexMapStorageType) (i : Nat) (t : IndexMapType)
    (hmaps : TablesBelow N maps) (ht : ∀ pos ∈ t, pos < N) : TablesBelow N (maps.set i t) := by
  intro t' ht' pos hpos
  rcases List.mem_or_eq_of_mem_set ht' with h | h
  · exact hmaps t' h pos hpos
  · exact ht pos (h ▸ hpos)

theorem map_translatedPosition_lt (g : List Int) (hne : g ≠ []) (ids : List Int) :
    ∀ pos ∈ ids.map (translatedPosition g), pos < g.length := by
  intro pos hpos
  obtain ⟨id, _, rfl⟩ := List.mem_map.1 hpos
  exact translatedPosition_lt g hne id

theorem distConstruct_inv (g d : List Int) (lim : List Nat) (maps : IndexMapStorageType)
    (h : DistributeIndexMapping)
    (hc : DistributeIndexMapping.construct g d lim maps = .ok h) :
    LookupOf g h.globalPosition_ ∧ h.distributedGlobalIndex_ = d ∧ h.localIndexMap_ = lim ∧
      ((maps = [] ∧ h.indexMaps_ = []) ∨
        (maps ≠ [] ∧ h.indexMaps_ = maps.set (maps.length - 1)
          ((physicalIds d lim).map (translatedPosition g)))) := by
  cases maps with
  | nil =>
    simp only [DistributeIndexMapping.construct, List.isEmpty_nil, if_true,
      Except.ok.injEq] at hc
    subst hc
    exact ⟨lookupOf_insertPositions g, rfl, rfl, Or.inl ⟨rfl, rfl⟩⟩
  | cons m0 ms =>
    have hne : (m0 :: ms) ≠ [] := by simp
    have hin : ∀ li ∈ lim, li < d.length := by
      simp only [DistributeIndexMapping.construct, List.isEmpty_cons, Bool.false_eq_true,
        if_false] at hc
      cases ht : translateLocal d lim (insertPositions g 0 []) with
      | error e => rw [ht] at hc; cases hc
      | ok res => exact translateLocal_inRange d lim _ res.1 res.2 ht
    obtain ⟨m', hc', hm, _, _, _⟩ := distConstruct_spec g d lim (m0 :: ms) hne hin
    rw [hc'] at hc
    cases hc
    exact ⟨hm, rfl, rfl, Or.inr ⟨hne, rfl⟩⟩

theorem receiveAll_tablesBelow (g : List Int) (hne : g ≠ []) (numLinks : Nat) :
    ∀ (arrivals : List (Nat × MessageBufferType)) (h h' : DistributeIndexMapping),
      LookupOf g h.globalPosition_ → TablesBelow g.length h.indexMaps_ →
      receiveAll DistributeIndexMapping.unpack numLinks arrivals h = .ok h' →
      LookupOf g h'.globalPosition_ ∧ TablesBelow g.length h'.indexMaps_
  | [], h, h', hm, ht, hr => by
    simp only [receiveAll, Except.ok.injEq] at hr
    subst hr
    exact ⟨hm, ht⟩
  | a :: rest, h, h', hm, ht, hr => by
    simp only [receiveAll] at hr
    split at hr
    · cases hr
    · cases hu : h.unpack a.1 a.2 with
      | error e => rw [hu] at hr; cases hr
      | ok h1 =>
        rw [hu] at hr
        obtain ⟨ids, _, _, e, _, _⟩ := distUnpack_inv g h h1 a.1 a.2 hm hu
        apply receiveAll_tablesBelow g hne numLinks rest h1 h' _ _ hr
        · rw [e]; exact hm
        · rw [e]
          exact tablesBelow_set _ _ _ _ ht (map_translatedPosition_lt g hne ids)

theorem receiveAll_lookupOf (g : List Int) (numLinks : Nat) :
    ∀ (arrivals : List (Nat × MessageBufferType)) (h h' : DistributeIndexMapping),
      LookupOf g h.globalPosition_ →
      receiveAll DistributeIndexMapping.unpack numLinks arrivals h = .ok h' →
      LookupOf g h'.globalPosition_
  | [], h, h', hm, hr => by
    simp only [receiveAll, Except.ok.injEq] at hr
    exact hr ▸ hm
  | a :: rest, h, h', hm, hr => by
    simp only [receiveAll] at hr
    split at hr
    · cases hr
    · cases hu : h.unpack a.1 a.2 with
      | error e => rw [hu] at hr; cases hr
      | ok h1 =>
        rw [hu] at hr
        obtain ⟨ids, _, _, e, _, _⟩ := distUnpack_inv g h h1 a.1 a.2 hm hu
        exact receiveAll_lookupOf g numLinks rest h1 h' (by rw [e]; exact hm) hr

theorem storeCartesianIndex_length (cartesianIndex : Nat → Int) :
    ∀ (elements : List Nat) (vector v' : List Int),
      storeCartesianIndex cartesianIndex elements vector = .ok v' → v'.length = vector.length
  | [], vector, v', h => by
    simp only [storeCartesianIndex, Except.ok.injEq] at h
    rw [h]
  | e :: rest, vector, v', h => by
    simp only [storeCartesianIndex] at h
    split at h
    · have := storeCartesianIndex_length cartesianIndex rest _ v' h
      simpa using this
    · cases h

theorem readValues_no_range_failure : ∀ (table : List Nat) (buf : MessageBufferType)
    (vector : List Scalar), (∀ pos ∈ table, pos < vector.length) →
    readValues 0 1 table buf vector ≠ .error Fault.assertion
  | [], _, _, _ => by simp [readValues]
  | pos :: table, buf, vector, hlt => by
    have hpos : pos < vector.length := hlt pos (by simp)
    simp only [readValues, Nat.mul_one, Nat.add_zero, hpos, if_true]
    cases buf with
    | nil => simp [MessageBufferType.readDbl]
    | cons it buf' =>
      cases it with
      | int v => simp [MessageBufferType.readDbl]
      | uint n => simp [MessageBufferType.readDbl]
      | dbl x =>
        simp only [MessageBufferType.readDbl]
        exact readValues_no_range_failure table buf' (vector.set pos x)
          (fun p hp => by simpa using hlt p (by simp [hp]))

theorem exchange_receive {H : Type} (comm : P2PCommunicatorType)
    (pack : H → Int → MessageBufferType → Except Fault MessageBufferType)
    (unpack : H → Int → MessageBufferType → Except Fault H)
    (handle handle' : H) (arrivals sent : List (Nat × MessageBufferType))
    (h : comm.exchange pack unpack handle arrivals = .ok (handle', sent)) :
    receiveAll unpack comm.recvLinks.length arrivals handle = .ok handle' ∧
      sendAll (pack handle) comm.sendLinks 0 = .ok sent := by
  unfold P2PCommunicatorType.exchange at h
  cases hs : sendAll (pack handle) comm.sendLinks 0 with
  | error e => rw [hs] at h; cases h
  | ok sent1 =>
    rw [hs] at h
    simp only at h
    cases hr : receiveAll unpack comm.recvLinks.length arrivals handle with
    | error e => rw [hr] at h; cases h
    | ok h1 =>
      rw [hr] at h
      simp only [Except.ok.injEq, Prod.mk.injEq] at h
      exact ⟨by rw [h.1], by rw [h.2]⟩

theorem construct_inv (needsReordering : Bool) (gridManager : GridManager)
    (arrivals : List (Nat × MessageBufferType)) (s : CollectDataToIORank)
    (sent : List (Nat × MessageBufferType))
    (h : CollectDataToIORank.construct needsReordering gridManager arrivals = .ok (s, sent)) :
    (s.indexMaps_ = [] ∧ s.globalCartesianIndex_ = [] ∧ s.localIndexMap_ = []) ∨
      ∃ (d : List Int) (h0 h1 : DistributeIndexMapping) (numLinks : Nat),
        s.globalCartesianIndex_.length = gridManager.equilSize ∧
        s.localIndexMap_ = gridManager.gridElements ∧
        DistributeIndexMapping.construct s.globalCartesianIndex_ d gridManager.gridElements
          (List.replicate gridManager.commSize []) = .ok h0 ∧
        receiveAll DistributeIndexMapping.unpack numLinks arrivals h0 = .ok h1 ∧
        s.indexMaps_ = h1.indexMaps_ := by
  unfold CollectDataToIORank.construct at h
  simp only at h
  split at h
  · cases h
    exact Or.inl ⟨rfl, rfl, rfl⟩
  · cases hg : storeCartesianIndex gridManager.equilCartesianIndex gridManager.equilElements
        (List.replicate gridManager.equilSize (-1)) with
    | error e => rw [hg] at h; cases h
    | ok g =>
      rw [hg] at h
      simp only at h
      have hlen : g.length = gridManager.equilSize := by
        have := storeCartesianIndex_length _ _ _ g hg
        simpa using this
      cases hd : storeCartesianIndex gridManager.cartesianIndex gridManager.gridElements
          (List.replicate gridManager.gridSize (-1)) with
      | error e => rw [hd] at h; cases h
      | ok d =>
        rw [hd] at h
        simp only at h
        cases hc : DistributeIndexMapping.construct g d gridManager.gridElements
            (List.replicate gridManager.commSize []) with
        | error e => rw [hc] at h; cases h
        | ok h0 =>
          rw [hc] at h
          simp only at h
          generalize hx : P2PCommunicatorType.exchange _ DistributeIndexMapping.pack
            DistributeIndexMapping.unpack h0 arrivals = x at h
          cases x with
          | error e => cases h
          | ok res =>
            obtain ⟨h1, sent1⟩ := res
            simp only [Except.ok.injEq, Prod.mk.injEq] at h
            obtain ⟨hs, _⟩ := h
            subst hs
            exact Or.inr ⟨d, h0, h1, _, hlen, rfl, hc, (exchange_receive _ _ _ _ _ _ _ hx).1,
              rfl⟩

theorem construct_tablesBelow (needsReordering : Bool) (gridManager : GridManager)
    (arrivals : List (Nat × MessageBufferType)) (s : CollectDataToIORank)
    (sent : List (Nat × MessageBufferType)) (hN : 1 ≤ gridManager.equilSize)
    (h : CollectDataToIORank.construct needsReordering gridManager arrivals = .ok (s, sent)) :
    TablesBelow s.numCells s.indexMaps_ := by
  rcases construct_inv needsReordering gridManager arrivals s sent h with
    ⟨e, _, _⟩ | ⟨d, h0, h1, numLinks, hlen, _, hc, hrec, hmaps⟩
  · rw [e]
    intro t ht
    simp at ht
  · have hne : s.globalCartesianIndex_ ≠ [] := by
      intro e
      rw [e] at hlen
      simp at hlen
      omega
    obtain ⟨hm, _, _, hm0⟩ := distConstruct_inv _ d _ _ h0 hc
    have h0below : TablesBelow s.globalCartesianIndex_.length h0.indexMaps_ := by
      rcases hm0 with ⟨_, e⟩ | ⟨_, e⟩
      · rw [e]
        intro t ht
        simp at ht
      · rw [e]
        apply tablesBelow_set
        · intro t ht pos hpos
          rw [List.eq_of_mem_replicate ht] at hpos
          simp at hpos
        · exact map_translatedPosition_lt _ hne _
    rw [hmaps]
    exact (receiveAll_tablesBelow _ hne _ arrivals h0 h1 hm h0below hrec).2

/-- C26: table entries are valid positions.  Let the canonical array `g` have `N >= 1`
entries.  (1) Whatever the local cell ids are, when the `DistributeIndexMapping`
constructor returns, every entry of the own table it wrote is below `N`.  (2) On a handle
the constructor returned, and after any further unpacks, every table `unpack` stores is
made of entries below `N`, whatever the buffer holds.  (3) Hence every table of
`indexMaps_` after the constructor of `CollectDataToIORank` has its entries below
`numCells()`.  (4) With such a table and a global field of `N` values, the range check
`assert( index < vector.size() )` of `PackUnPack::read` never fails, and `read` of a buffer
holding the count and that many values returns. -/
theorem table_entries_in_range (g : List Int) (hN : 1 ≤ g.length) :
    (∀ (d : List Int) (lim : List Nat) (maps : IndexMapStorageType)
        (h : DistributeIndexMapping),
        DistributeIndexMapping.construct g d lim maps = .ok h → maps ≠ [] →
        ∃ own, h.indexMaps_.getLast? = some own ∧ own.length = lim.length ∧
          ∀ pos ∈ own, pos < g.length) ∧
      (∀ (d : List Int) (lim : List Nat) (maps : IndexMapStorageType)
        (h0 h1 h2 : DistributeIndexMapping) (numLinks : Nat)
        (arrivals : List (Nat × MessageBufferType)) (link : Int) (buf : MessageBufferType),
        DistributeIndexMapping.construct g d lim maps = .ok h0 →
        receiveAll DistributeIndexMapping.unpack numLinks arrivals h0 = .ok h1 →
        h1.unpack link buf = .ok h2 →
        ∃ table, h2.indexMaps_[link.toNat]? = some table ∧ ∀ pos ∈ table, pos < g.length) ∧
      (∀ (needsReordering : Bool) (gridManager : GridManager)
        (arrivals : List (Nat × MessageBufferType)) (s : CollectDataToIORank)
        (sent : List (Nat × MessageBufferType)),
        1 ≤ gridManager.equilSize →
        CollectDataToIORank.construct needsReordering gridManager arrivals = .ok (s, sent) →
        ∀ table ∈ s.indexMaps_, ∀ pos ∈ table, pos < s.numCells) ∧
      (∀ (table : IndexMapType) (vector : List Scalar), vector.length = g.length →
        (∀ pos ∈ table, pos < g.length) →
        (∀ buf, readValues 0 1 table buf vector ≠ .error Fault.assertion) ∧
        ∀ (values : List Scalar) (rest : MessageBufferType), values.length = table.length →
          PackUnPack.read (Item.uint table.length :: (values.map Item.dbl ++ rest)) table
            vector 0 1 = .ok (scatter table values vector, rest)) := by
  have hne : g ≠ [] := by
    intro e
    rw [e] at hN
    simp at hN
  refine ⟨?_, ?_, ?_, ?_⟩
  · intro d lim maps h hc hmaps
    obtain ⟨_, _, _, hm⟩ := distConstruct_inv g d lim maps h hc
    rcases hm with ⟨e, _⟩ | ⟨_, e⟩
    · exact absurd e hmaps
    · refine ⟨(physicalIds d lim).map (translatedPosition g), ?_, ?_,
        map_translatedPosition_lt g hne _⟩
      · rw [e]
        exact getLast?_set_last maps _ hmaps
      · simp [length_physicalIds]
  · intro d lim maps h0 h1 h2 numLinks arrivals link buf hc hr hu
    obtain ⟨hm0, _, _, _⟩ := distConstruct_inv g d lim maps h0 hc
    have hm1 : LookupOf g h1.globalPosition_ :=
      receiveAll_lookupOf g numLinks arrivals h0 h1 hm0 hr
    obtain ⟨ids, _, hl, e, _, _⟩ := distUnpack_inv g h1 h2 link buf hm1 hu
    refine ⟨ids.map (translatedPosition g), ?_, map_translatedPosition_lt g hne ids⟩
    rw [e]
    exact List.getElem?_set_self hl
  · intro needsReordering gridManager arrivals s sent hE hc
    exact construct_tablesBelow needsReordering gridManager arrivals s sent hE hc
  · intro table vector hv hlt
    refine ⟨fun buf => readValues_no_range_failure table buf vector
      (fun p hp => hv ▸ hlt p hp), ?_⟩
    intro values rest hl
    exact read_eq_ok table values rest vector hl (fun p hp => hv ▸ hlt p hp)

theorem table_entries_in_range_witness :
    1 ≤ ([5] : List Int).length ∧
      ∃ h own, DistributeIndexMapping.construct [5] [7] [0] [[], []] = .ok h ∧
        h.indexMaps_.getLast? = some own ∧ ∀ pos ∈ own, pos < ([5] : List Int).length := by
  have hc : ∃ h, DistributeIndexMapping.construct [5] [7] [0] [[], []] = .ok h := ⟨_, rfl⟩
  obtain ⟨h, hh⟩ := hc
  obtain ⟨own, h1, _, h3⟩ :=
    (table_entries_in_range [5] (by decide)).1 [7] [0] [[], []] h hh (by decide)
  exact ⟨by decide, h, own, hh, h1, h3⟩

theorem writeIds_trace (d : List Int) : ∀ (lim : List Nat) (buffer : MessageBufferType),
    writeIds d lim buffer = (writeIdsTrace d lim buffer).result ∧
      (writeIdsTrace d lim buffer).2 ≠ some Fault.logicError
  | [], buffer => ⟨rfl, by simp [writeIdsTrace]⟩
  | li :: lim, buffer => by
    simp only [writeIds, writeIdsTrace]
    cases d[li]? with
    | none => exact ⟨rfl, by simp⟩
    | some id => exact writeIds_trace d lim _

theorem writeValues_trace (vector : List Scalar) :
    ∀ (lim : List Nat) (buffer : MessageBufferType),
    writeValues vector 0 1 lim buffer = (writeValuesTrace vector 0 1 lim buffer).result ∧
      (writeValuesTrace vector 0 1 lim buffer).2 ≠ some Fault.logicError
  | [], buffer => ⟨rfl, by simp [writeValuesTrace]⟩
  | li :: lim, buffer => by
    simp only [writeValues, writeValuesTrace]
    cases vector[li * 1 + 0]? with
    | none => exact ⟨rfl, by simp⟩
    | some x => exact writeValues_trace vector lim _

theorem write_trace (buffer : MessageBufferType) (lim : List Nat) (vector : List Scalar) :
    PackUnPack.write buffer lim vector 0 1 = (PackUnPack.writeTrace buffer lim vector 0 1).result ∧
      (PackUnPack.writeTrace buffer lim vector 0 1).2 ≠ some Fault.logicError := by
  unfold PackUnPack.write PackUnPack.writeTrace
  split
  · exact writeValues_trace vector lim _
  · exact ⟨rfl, by simp⟩

theorem packFields_trace (lim : List Nat) : ∀ (ld : Solution) (buffer : MessageBufferType),
    packFields lim ld buffer = (packFieldsTrace lim ld buffer).result ∧
      (packFieldsTrace lim ld buffer).2 ≠ some Fault.logicError
  | [], buffer => ⟨rfl, by simp [packFieldsTrace]⟩
  | pair :: rest, buffer => by
    obtain ⟨h1, h2⟩ := write_trace buffer lim pair.2.data
    simp only [packFields, packFieldsTrace, h1]
    cases hw : PackUnPack.writeTrace buffer lim pair.2.data 0 1 with
    | mk b' f =>
      rw [hw] at h2
      cases f with
      | none => exact packFields_trace lim rest b'
      | some e => exact ⟨rfl, h2⟩

theorem result_ne_logicError (t : BufferTrace) (h : t.2 ≠ some Fault.logicError) :
    t.result ≠ .error Fault.logicError := by
  obtain ⟨b, f⟩ := t
  cases f with
  | none => simp [BufferTrace.result]
  | some e =>
    simp only [BufferTrace.result, ne_eq, Except.error.injEq]
    intro he
    exact h (by rw [he])

/-- C27: the single send link.  For both data handles, `DistributeIndexMapping` and
`PackUnPack`, and every state of the handle and of the buffer: `pack( link, buffer )` with
a link other than `0` throws `std::logic_error` before anything is written, the buffer is
left as it was; with link `0` no `std::logic_error` is thrown, and `pack` returns whenever
every local index is inside the vector it is used on (the only other way `pack` stops is an
out-of-range local index).  The traced versions agree with `pack` on every input. -/
theorem pack_single_link :
    (∀ (h : DistributeIndexMapping) (link : Int) (buffer : MessageBufferType),
        h.pack link buffer = (h.packTrace link buffer).result ∧
        (link ≠ 0 → h.pack link buffer = .error Fault.logicError ∧
          h.packTrace link buffer = (buffer, some Fault.logicError)) ∧
        h.pack 0 buffer ≠ .error Fault.logicError ∧
        ((∀ li ∈ h.localIndexMap_, li < h.distributedGlobalIndex_.length) →
          ∃ b, h.pack 0 buffer = .ok (buffer ++ b))) ∧
      (∀ (h : PackUnPack) (link : Int) (buffer : MessageBufferType),
        h.pack link buffer = (h.packTrace link buffer).result ∧
        (link ≠ 0 → h.pack link buffer = .error Fault.logicError ∧
          h.packTrace link buffer = (buffer, some Fault.logicError)) ∧
        h.pack 0 buffer ≠ .error Fault.logicError ∧
        ((∀ pair ∈ h.localCellData_, h.localIndexMap_.length ≤ pair.2.data.length ∧
            ∀ li ∈ h.localIndexMap_, li < pair.2.data.length) →
          ∃ b, h.pack 0 buffer = .ok (buffer ++ b))) := by
  constructor
  · intro h link buffer
    have htrace : ∀ l : Int, h.pack l buffer = (h.packTrace l buffer).result := by
      intro l
      unfold DistributeIndexMapping.pack DistributeIndexMapping.packTrace
      split
      · rfl
      · exact (writeIds_trace _ _ _).1
    refine ⟨htrace link, ?_, ?_, ?_⟩
    · intro hl
      simp [DistributeIndexMapping.pack, DistributeIndexMapping.packTrace, hl]
    · rw [htrace 0]
      apply result_ne_logicError
      simp only [DistributeIndexMapping.packTrace, ne_eq, not_true_eq_false, if_false]
      exact (writeIds_trace _ _ _).2
    · intro hin
      refine ⟨Item.int h.localIndexMap_.length ::
        (physicalIds h.distributedGlobalIndex_ h.localIndexMap_).map Item.int, ?_⟩
      simp only [DistributeIndexMapping.pack, ne_eq, not_true_eq_false, if_false,
        writeIds_eq_ok, MessageBufferType.write]
      exact ⟨hin, by simp⟩
  · intro h link buffer
    have htrace : ∀ l : Int, h.pack l buffer = (h.packTrace l buffer).result := by
      intro l
      unfold PackUnPack.pack PackUnPack.packTrace
      split
      · rfl
      · exact (packFields_trace _ _ _).1
    refine ⟨htrace link, ?_, ?_, ?_⟩
    · intro hl
      simp [PackUnPack.pack, PackUnPack.packTrace, hl]
    · rw [htrace 0]
      apply result_ne_logicError
      simp only [PackUnPack.packTrace, ne_eq, not_true_eq_false, if_false]
      exact (packFields_trace _ _ _).2
    · intro hfit
      refine ⟨wireFormat h.localIndexMap_ h.localCellData_, ?_⟩
      simp only [PackUnPack.pack, ne_eq, not_true_eq_false, if_false, packFields_eq_ok]
      exact ⟨hfit, trivial⟩

theorem pack_single_link_witness :
    (exampleWorkers 0).pack 1 [Item.int 9] = .error Fault.logicError ∧
      (exampleWorkers 0).packTrace 1 [Item.int 9] = ([Item.int 9], some Fault.logicError) ∧
      (exampleSenders 0).pack (-1) [] = .error Fault.logicError ∧
      (exampleSenders 0).packTrace (-1) [] = ([], some Fault.logicError) ∧
      (exampleWorkers 0).pack 0 [] = .ok [Item.int 2, Item.int 0, Item.int 1] ∧
      (exampleSenders 0).pack 0 [] = .ok [Item.uint 2, Item.dbl 100, Item.dbl 101] :=
  ⟨((pack_single_link.1 (exampleWorkers 0) 1 [Item.int 9]).2.1 (by decide)).1,
    ((pack_single_link.1 (exampleWorkers 0) 1 [Item.int 9]).2.1 (by decide)).2,
    ((pack_single_link.2 (exampleSenders 0) (-1) []).2.1 (by decide)).1,
    ((pack_single_link.2 (exampleSenders 0) (-1) []).2.1 (by decide)).2, rfl, rfl⟩

theorem canonicalPosition_le : ∀ (g : List Int) (id : Int) (i : Nat),
    g[i]? = some id → canonicalPosition g id ≤ i
  | [], _, _, h => by simp at h
  | x :: g, id, i, h => by
    unfold canonicalPosition
    by_cases hx : x = id
    · subst hx
      simp
    · cases i with
      | zero =>
        simp only [List.getElem?_cons_zero, Option.some.injEq] at h
        exact absurd h hx
      | succ k =>
        simp only [List.getElem?_cons_succ] at h
        rw [List.indexOf_cons_ne g hx]
        have := canonicalPosition_le g id k h
        unfold canonicalPosition at this
        omega

theorem translatedPosition_ne_later (g : List Int) (id x : Int) (j : Nat)
    (hj : g[j]? = some id) (hlater : canonicalPosition g id < j) :
    translatedPosition g x ≠ j := by
  unfold translatedPosition
  by_cases hx : x ∈ g
  · simp only [hx, if_true]
    intro e
    have hget := getElem?_canonicalPosition g x hx
    rw [e, hj] at hget
    have hid : id = x := Option.some.inj hget
    subst hid
    omega
  · simp only [hx, if_false]
    omega

theorem tablesOf_set (g : List Int) (maps : IndexMapStorageType) (i : Nat) (ids : List Int)
    (hmaps : TablesOf g maps) : TablesOf g (maps.set i (ids.map (translatedPosition g))) := by
  intro t ht pos hpos
  rcases List.mem_or_eq_of_mem_set ht with h | h
  · exact hmaps t h pos hpos
  · rw [h] at hpos
    obtain ⟨id, _, rfl⟩ := List.mem_map.1 hpos
    exact ⟨id, rfl⟩

theorem receiveAll_tablesOf (g : List Int) (numLinks : Nat) :
    ∀ (arrivals : List (Nat × MessageBufferType)) (h h' : DistributeIndexMapping),
      LookupOf g h.globalPosition_ → TablesOf g h.indexMaps_ →
      receiveAll DistributeIndexMapping.unpack numLinks arrivals h = .ok h' →
      TablesOf g h'.indexMaps_
  | [], h, h', _, ht, hr => by
    simp only [receiveAll, Except.ok.injEq] at hr
    exact hr ▸ ht
  | a :: rest, h, h', hm, ht, hr => by
    simp only [receiveAll] at hr
    split at hr
    · cases hr
    · cases hu : h.unpack a.1 a.2 with
      | error e => rw [hu] at hr; cases hr
      | ok h1 =>
        rw [hu] at hr
        obtain ⟨ids, _, _, e, _, _⟩ := distUnpack_inv g h h1 a.1 a.2 hm hu
        apply receiveAll_tablesOf g numLinks rest h1 h' _ _ hr
        · rw [e]; exact hm
        · rw [e]
          exact tablesOf_set g _ _ ids ht

theorem construct_tablesOf (needsReordering : Bool) (gridManager : GridManager)
    (arrivals : List (Nat × MessageBufferType)) (s : CollectDataToIORank)
    (sent : List (Nat × MessageBufferType))
    (h : CollectDataToIORank.construct needsReordering gridManager arrivals = .ok (s, sent)) :
    TablesOf s.globalCartesianIndex_ s.indexMaps_ := by
  rcases construct_inv needsReordering gridManager arrivals s sent h with
    ⟨e, _, _⟩ | ⟨d, h0, h1, numLinks, _, _, hc, hrec, hmaps⟩
  · rw [e]
    intro t ht
    simp at ht
  · obtain ⟨hm, _, _, hm0⟩ := distConstruct_inv _ d _ _ h0 hc
    have h0of : TablesOf s.globalCartesianIndex_ h0.indexMaps_ := by
      rcases hm0 with ⟨_, e⟩ | ⟨_, e⟩
      · rw [e]
        intro t ht
        simp at ht
      · rw [e]
        apply tablesOf_set
        intro t ht pos hpos
        rw [List.eq_of_mem_replicate ht] at hpos
        simp at hpos
    rw [hmaps]
    exact receiveAll_tablesOf _ _ arrivals h0 h1 hm h0of hrec

/-- C28: duplicate canonical entries.  Let the physical cell id `id` occur in the canonical
array `g`, possibly at several positions, and let `first` be the smallest of them.
(1) The lookup built by the constructor maps `id` to `first`, also after the constructor's
second loop.  (2) In the own table the constructor writes, every entry translated from
`id` is `first`, and no later position of `id` occurs.  (3) On a handle the constructor
returned, after any unpacks, `unpack` stores `first` for every received `id`, and no later
position of `id` occurs in the table it stores.  (4) After the constructor of
`CollectDataToIORank`, no table of `indexMaps_` contains a later position of a repeated
entry of the canonical array. -/
theorem duplicate_canonical_entries (g : List Int) (id : Int) (hid : id ∈ g) :
    (PositionMap.find (insertPositions g 0 []) id = some (canonicalPosition g id) ∧
        g[canonicalPosition g id]? = some id ∧
        ∀ i : Nat, g[i]? = some id → canonicalPosition g id ≤ i) ∧
      (∀ (d : List Int) (lim : List Nat) (maps : IndexMapStorageType)
        (h : DistributeIndexMapping),
        DistributeIndexMapping.construct g d lim maps = .ok h →
        PositionMap.find h.globalPosition_ id = some (canonicalPosition g id) ∧
        (maps ≠ [] → ∃ own, h.indexMaps_.getLast? = some own ∧
          (∀ (i li : Nat), lim[i]? = some li → d[li]? = some id →
            own[i]? = some (canonicalPosition g id)) ∧
          ∀ j : Nat, g[j]? = some id → canonicalPosition g id < j → j ∉ own)) ∧
      (∀ (d : List Int) (lim : List Nat) (maps : IndexMapStorageType)
        (h0 h1 h2 : DistributeIndexMapping) (numLinks : Nat)
        (arrivals : List (Nat × MessageBufferType)) (link : Int) (buf : MessageBufferType),
        DistributeIndexMapping.construct g d lim maps = .ok h0 →
        receiveAll DistributeIndexMapping.unpack numLinks arrivals h0 = .ok h1 →
        h1.unpack link buf = .ok h2 →
        ∃ (ids : List Int) (rest : MessageBufferType) (table : IndexMapType),
          buf = Item.int ids.length :: (ids.map Item.int ++ rest) ∧
          h2.indexMaps_[link.toNat]? = some table ∧ table.length = ids.length ∧
          (∀ i : Nat, ids[i]? = some id → table[i]? = some (canonicalPosition g id)) ∧
          ∀ j : Nat, g[j]? = some id → canonicalPosition g id < j → j ∉ table) ∧
      (∀ (needsReordering : Bool) (gridManager : GridManager)
        (arrivals : List (Nat × MessageBufferType)) (s : CollectDataToIORank)
        (sent : List (Nat × MessageBufferType)),
        CollectDataToIORank.construct needsReordering gridManager arrivals = .ok (s, sent) →
        s.globalCartesianIndex_ = g →
        ∀ table ∈ s.indexMaps_, ∀ j : Nat, g[j]? = some id → canonicalPosition g id < j →
          j ∉ table) := by
  have hnot : ∀ (ids : List Int) (j : Nat), g[j]? = some id → canonicalPosition g id < j →
      j ∉ ids.map (translatedPosition g) := by
    intro ids j hj hlater hmem
    obtain ⟨x, _, hx⟩ := List.mem_map.1 hmem
    exact translatedPosition_ne_later g id x j hj hlater hx
  refine ⟨⟨?_, getElem?_canonicalPosition g id hid, canonicalPosition_le g id⟩, ?_, ?_, ?_⟩
  · rw [find_globalPosition]
    simp [hid]
  · intro d lim maps h hc
    obtain ⟨hm, _, _, hmaps⟩ := distConstruct_inv g d lim maps h hc
    refine ⟨hm.1 id hid, ?_⟩
    intro hne
    rcases hmaps with ⟨e, _⟩ | ⟨_, e⟩
    · exact absurd e hne
    · refine ⟨(physicalIds d lim).map (translatedPosition g), ?_, ?_, hnot _⟩
      · rw [e]
        exact getLast?_set_last maps _ hne
      · intro i li hli hdi
        simp [physicalIds, List.getElem?_map, hli, List.getD_eq_getElem?_getD, hdi,
          translatedPosition_of_mem g id hid]
  · intro d lim maps h0 h1 h2 numLinks arrivals link buf hc hr hu
    obtain ⟨hm0, _, _, _⟩ := distConstruct_inv g d lim maps h0 hc
    have hm1 : LookupOf g h1.globalPosition_ :=
      receiveAll_lookupOf g numLinks arrivals h0 h1 hm0 hr
    obtain ⟨ids, _, hl, e, _, rest, hb⟩ := distUnpack_inv g h1 h2 link buf hm1 hu
    refine ⟨ids, rest, ids.map (translatedPosition g), hb, ?_, by simp, ?_, hnot ids⟩
    · rw [e]
      exact List.getElem?_set_self hl
    · intro i hi
      simp [List.getElem?_map, hi, translatedPosition_of_mem g id hid]
  · intro needsReordering gridManager arrivals s sent hc hg table ht j hj hlater hmem
    have hof := construct_tablesOf needsReordering gridManager arrivals s sent hc
    rw [hg] at hof
    obtain ⟨x, hx⟩ := hof table ht j hmem
    exact translatedPosition_ne_later g id x j hj hlater hx.symm

theorem duplicate_canonical_entries_witness :
    (7 : Int) ∈ ([7, 3, 7] : List Int) ∧
      PositionMap.find (insertPositions [7, 3, 7] 0 []) 7 = some 0 ∧
      ∃ h, DistributeIndexMapping.construct [7, 3, 7] [7, 3, 7] [0, 1, 2] [[], []] = .ok h ∧
        h.indexMaps_ = [[], [0, 1, 0]] ∧
        PositionMap.find h.globalPosition_ 7 = some 0 := by
  have hc : DistributeIndexMapping.construct [7, 3, 7] [7, 3, 7] [0, 1, 2] [[], []] =
      .ok { distributedGlobalIndex_ := [7, 3, 7], localIndexMap_ := [0, 1, 2],
            indexMaps_ := [[], [0, 1, 0]], globalPosition_ := [(7, 0), (3, 1)] } := rfl
  have hd := duplicate_canonical_entries [7, 3, 7] 7 (by decide)
  exact ⟨by decide, hd.1.1.trans (by decide), _, hc, rfl,
    ((hd.2.1 [7, 3, 7] [0, 1, 2] [[], []] _ hc).1).trans (by decide)⟩

theorem loop_ends (self : IMPES) (tests : ConvergenceTests) (hn : self.nIter < INT_MAX) :
    ∀ (fuel : Nat) (iter : Int), iter < INT_MAX →
    max (iter + 1) (self.nIter + 1) ≤ iter + fuel →
    ∃ code passes, IMPES.loop self tests fuel iter = .returned code passes ∧
      iter < passes ∧ passes ≤ max (iter + 1) (self.nIter + 1) ∧
      ((code = 0 ∧ self.converg tests passes = true) ∨
        (code = 1 ∧ self.converg tests passes = false ∧ self.nIter < passes)) ∧
      ∀ k : Int, iter < k → k < passes → self.converg tests k = false ∧ k ≤ self.nIter
  | 0, iter, _, h => by
    exfalso
    have := le_max_left (iter + 1) (self.nIter + 1)
    simp only [Nat.cast_zero, add_zero] at h
    omega
  | fuel + 1, iter, hlt, h => by
    have h1 := le_max_left (iter + 1) (self.nIter + 1)
    have h2 := le_max_right (iter + 1) (self.nIter + 1)
    simp only [IMPES.loop]
    rw [if_neg (not_le.2 hlt)]
    by_cases hc : self.converg tests (iter + 1) = true
    · refine ⟨0, iter + 1, ?_, by omega, h1, Or.inl ⟨rfl, hc⟩, ?_⟩
      · rw [if_neg (fun hx => by rw [hc] at hx; cases hx.1), if_pos hc]
      · intro k hk1 hk2
        omega
    · have hcf : self.converg tests (iter + 1) = false := by simpa using hc
      by_cases hlast : self.nIter < iter + 1
      · refine ⟨1, iter + 1, ?_, by omega, h1, Or.inr ⟨rfl, hcf, hlast⟩, ?_⟩
        · rw [if_pos ⟨hcf, hlast⟩]
        · intro k hk1 hk2
          omega
      · have hle : iter + 1 ≤ self.nIter := by omega
        have hmax : max (iter + 1 + 1) (self.nIter + 1) = self.nIter + 1 :=
          max_eq_right (by omega)
        obtain ⟨code, passes, hl, hp1, hp2, hexit, hbefore⟩ :=
          loop_ends self tests hn fuel (iter + 1) (by omega)
            (by rw [hmax]; push_cast at h; omega)
        refine ⟨code, passes, ?_, by omega, ?_, hexit, ?_⟩
        · rw [if_neg (fun hx => hlast hx.2), if_neg hc]
          exact hl
        · rw [hmax] at hp2
          omega
        · intro k hk1 hk2
          by_cases hk : k = iter + 1
          · subst hk
            exact ⟨hcf, hle⟩
          · exact hbefore k (by omega) hk2

theorem loop_more_fuel (self : IMPES) (tests : ConvergenceTests) :
    ∀ (fuel : Nat) (iter code passes : Int),
      IMPES.loop self tests fuel iter = .returned code passes →
      ∀ fuel', fuel ≤ fuel' → IMPES.loop self tests fuel' iter = .returned code passes
  | 0, _, _, _, h => by simp [IMPES.loop] at h
  | fuel + 1, iter, code, passes, h => by
    intro fuel' hle
    cases fuel' with
    | zero => omega
    | succ f =>
      simp only [IMPES.loop] at h ⊢
      by_cases ho : INT_MAX ≤ iter
      · rw [if_pos ho] at h
        cases h
      · rw [if_neg ho] at h ⊢
        by_cases hx : self.converg tests (iter + 1) = false ∧ self.nIter < iter + 1
        · rw [if_pos hx] at h ⊢
          exact h
        · rw [if_neg hx] at h ⊢
          by_cases hy : self.converg tests (iter + 1) = true
          · rw [if_pos hy] at h ⊢
            exact h
          · rw [if_neg hy] at h ⊢
            exact loop_more_fuel self tests fuel (iter + 1) code passes h f (by omega)

theorem converg_flag_one (n : Int) (tests : ConvergenceTests) (iter : Int) :
    IMPES.converg { iterFlag := 1, nIter := n } tests iter = decide (n < iter) := by
  by_cases h : n < iter <;> simp [IMPES.converg, h]

theorem loop_flag_one (n : Int) (hn : n < INT_MAX) (tests : ConvergenceTests) :
    ∀ (fuel : Nat) (iter : Int), iter ≤ n →
      IMPES.loop { iterFlag := 1, nIter := n } tests fuel iter =
        if n + 1 ≤ iter + fuel then .returned 0 (n + 1) else .running
  | 0, iter, h => by
    have : ¬ n + 1 ≤ iter + ((0 : Nat) : Int) := by simp only [Nat.cast_zero]; omega
    rw [if_neg this]
    rfl
  | fuel + 1, iter, h => by
    have hov : ¬ INT_MAX ≤ iter := by omega
    simp only [IMPES.loop, converg_flag_one]
    rw [if_neg hov]
    by_cases hlast : iter = n
    · subst hlast
      have h1 : iter < iter + 1 := by omega
      have h3 : iter + 1 ≤ iter + ((fuel + 1 : Nat) : Int) := by push_cast; omega
      rw [if_neg (by simp [h1]), if_pos (by simp [h1]), if_pos h3]
    · have h1 : ¬ n < iter + 1 := by omega
      rw [if_neg (fun hx => h1 hx.2), if_neg (by simp [h1]),
        loop_flag_one n hn tests fuel (iter + 1) (by omega)]
      have : (n + 1 ≤ iter + 1 + (fuel : Int)) ↔ (n + 1 ≤ iter + ((fuel + 1 : Nat) : Int)) := by
        push_cast
        omega
      simp only [this]

theorem loop_flag_one_max (tests : ConvergenceTests) :
    ∀ (fuel : Nat) (iter : Int), iter ≤ INT_MAX →
      IMPES.loop { iterFlag := 1, nIter := INT_MAX } tests fuel iter =
        if INT_MAX - iter < fuel then .overflow INT_MAX else .running
  | 0, iter, h => by
    have : ¬ INT_MAX - iter < ((0 : Nat) : Int) := by simp only [Nat.cast_zero]; omega
    rw [if_neg this]
    rfl
  | fuel + 1, iter, h => by
    simp only [IMPES.loop, converg_flag_one]
    by_cases hov : INT_MAX ≤ iter
    · have he : iter = INT_MAX := by omega
      subst he
      have : INT_MAX - INT_MAX < ((fuel + 1 : Nat) : Int) := by push_cast; omega
      rw [if_pos hov, if_pos this]
    · have h1 : ¬ INT_MAX < iter + 1 := by omega
      rw [if_neg hov, if_neg (fun hx => h1 hx.2), if_neg (by simp [h1]),
        loop_flag_one_max tests fuel (iter + 1) (by omega)]
      have : (INT_MAX - (iter + 1) < (fuel : Int)) ↔
          (INT_MAX - iter < ((fuel + 1 : Nat) : Int)) := by
        push_cast
        omega
      simp only [this]

/-- C29 (amended): the iteration limit.  With iteration flag `1` and `0 <= nIter < INT_MAX`
(in particular `nIter >= 1`), one call of `update` makes exactly `nIter + 1` passes through
its nonlinear loop, whatever the convergence tests give, and returns `0`: followed for
`nIter` passes or fewer the loop is still running, followed for `nIter + 1` passes or more
it has returned `0` with the pass `nIter + 1`. -/
theorem update_flag_one_passes (n : Int) (tests : ConvergenceTests) (fuel : Nat)
    (hn0 : 0 ≤ n) (hn : n < INT_MAX) :
    (n + 1 ≤ (fuel : Int) →
        IMPES.update { iterFlag := 1, nIter := n } tests fuel = .returned 0 (n + 1)) ∧
      ((fuel : Int) ≤ n →
        IMPES.update { iterFlag := 1, nIter := n } tests fuel = .running) := by
  have h := loop_flag_one n hn tests fuel 0 hn0
  simp only [zero_add] at h
  constructor
  · intro hf
    rw [IMPES.update, h, if_pos hf]
  · intro hf
    rw [IMPES.update, h, if_neg (by omega)]

theorem update_flag_one_passes_witness :
    (0 : Int) ≤ 1 ∧ (1 : Int) < INT_MAX ∧
      IMPES.update { iterFlag := 1, nIter := 1 } neverConverged 2 = .returned 0 2 ∧
      IMPES.update { iterFlag := 1, nIter := 1 } neverConverged 1 = .running :=
  ⟨by decide, by decide,
    (update_flag_one_passes 1 neverConverged 2 (by decide) (by decide)).1 (by decide),
    (update_flag_one_passes 1 neverConverged 1 (by decide) (by decide)).2 (by decide)⟩

/-- C29 as stated fails: with iteration flag `1` and `nIter = 1` the loop is still running
after one pass and returns `0` only with the second pass, so it makes more than `nIter`
passes.  With flag `1` and `nIter = INT_MAX` the test `iter > nIter` can never hold and the
call ends in the overflow of `iter`. -/
theorem update_flag_one_passes_counterexample :
    IMPES.update { iterFlag := 1, nIter := 1 } neverConverged 1 = .running ∧
      IMPES.update { iterFlag := 1, nIter := 1 } neverConverged 2 = .returned 0 2 ∧
      IMPES.update { iterFlag := 1, nIter := 1 }
          { defect := fun _ => true, overshoot := fun _ => false } 2 = .returned 0 2 ∧
      IMPES.update { iterFlag := 1, nIter := INT_MAX } neverConverged 2147483648 =
        .overflow INT_MAX := by
  refine ⟨by decide, by decide, by decide, ?_⟩
  have h := loop_flag_one_max neverConverged 2147483648 0 (by decide)
  rw [IMPES.update, h, if_pos (by decide)]

theorem update_flag_zero (n : Int) (tests : ConvergenceTests) (fuel : Nat) :
    IMPES.update { iterFlag := 0, nIter := n } tests (fuel + 1) = .returned 0 1 := by
  have hov : ¬ INT_MAX ≤ (0 : Int) := by decide
  have hc : IMPES.converg { iterFlag := 0, nIter := n } tests (0 + 1) = true := by
    simp [IMPES.converg]
  simp only [IMPES.update, IMPES.loop]
  rw [if_neg hov, if_neg (fun hx => by rw [hc] at hx; cases hx.1), if_pos hc]
  rfl

/-- C30 (amended): termination of the nonlinear loop.  For every iteration flag, every
`nIter` below `INT_MAX` (or any `nIter` with flag `0`) and every outcome of the convergence
tests, `update` followed for at least `max(1, nIter + 1)` passes returns: the loop ends
after `passes` passes with `1 <= passes <= max(1, nIter + 1)`, either by convergence
(`converg` is true at the end of the last pass, return value `0`) or by the
exceeded-`nIter` exit (not converged and `iter > nIter`, return value `1`); in every
earlier pass it was not converged and `iter <= nIter`; following the loop for more passes
gives the same result.  With flag `0` it ends after exactly one pass with return value
`0`. -/
theorem update_terminates (self : IMPES) (tests : ConvergenceTests) (fuel : Nat)
    (hn : self.nIter < INT_MAX ∨ self.iterFlag = 0)
    (hfuel : max 1 (self.nIter + 1) ≤ (fuel : Int)) :
    ∃ code passes, self.update tests fuel = .returned code passes ∧
      1 ≤ passes ∧ passes ≤ max 1 (self.nIter + 1) ∧
      ((code = 0 ∧ self.converg tests passes = true) ∨
        (code = 1 ∧ self.converg tests passes = false ∧ self.nIter < passes)) ∧
      (∀ k : Int, 1 ≤ k → k < passes → self.converg tests k = false ∧ k ≤ self.nIter) ∧
      (∀ fuel', fuel ≤ fuel' → self.update tests fuel' = .returned code passes) ∧
      (self.iterFlag = 0 → code = 0 ∧ passes = 1) := by
  have hflag0 : self.iterFlag = 0 → ∀ k, self.converg tests k = true := by
    intro hflag k
    simp [IMPES.converg, hflag]
  rcases hn with hn | hflag
  · obtain ⟨code, passes, hl, hp1, hp2, hexit, hbefore⟩ :=
      loop_ends self tests hn fuel 0 (by decide) (by simpa using hfuel)
    refine ⟨code, passes, hl, by omega, by simpa using hp2, hexit,
      fun k hk1 hk2 => hbefore k (by omega) hk2,
      fun fuel' hle => loop_more_fuel self tests fuel 0 _ _ hl fuel' hle, ?_⟩
    intro hflag
    have hone : passes = 1 := by
      by_contra hne
      have := (hbefore 1 (by omega) (by omega)).1
      rw [hflag0 hflag 1] at this
      cases this
    refine ⟨?_, hone⟩
    rcases hexit with ⟨h0, _⟩ | ⟨_, hf, _⟩
    · exact h0
    · rw [hflag0 hflag passes] at hf
      cases hf
  · have hpos : 1 ≤ fuel := by
      have := le_max_left (1 : Int) (self.nIter + 1)
      omega
    obtain ⟨f, rfl⟩ : ∃ f, fuel = f + 1 := ⟨fuel - 1, by omega⟩
    have hself : self = { iterFlag := 0, nIter := self.nIter } := by
      cases self
      simp only [IMPES.mk.injEq, and_true]
      exact hflag
    have hu : ∀ g : Nat, self.update tests (g + 1) = .returned 0 1 := by
      intro g
      rw [hself]
      exact update_flag_zero _ tests g
    refine ⟨0, 1, hu f, le_refl _, le_max_left _ _, Or.inl ⟨rfl, hflag0 hflag 1⟩, ?_, ?_,
      fun _ => ⟨rfl, rfl⟩⟩
    · intro k hk1 hk2
      omega
    · intro fuel' hle
      obtain ⟨g, rfl⟩ : ∃ g, fuel' = g + 1 := ⟨fuel' - 1, by omega⟩
      exact hu g

theorem update_terminates_witness :
    ((({ iterFlag := 0, nIter := -5 } : IMPES).nIter < INT_MAX) ∨
        ({ iterFlag := 0, nIter := -5 } : IMPES).iterFlag = 0) ∧
      IMPES.update { iterFlag := 2, nIter := 2 }
          { defect := fun iter => decide (2 ≤ iter), overshoot := fun _ => false } 3 =
        .returned 0 2 ∧
      IMPES.update { iterFlag := 2, nIter := 2 } neverConverged 3 = .returned 1 3 ∧
      ∃ code passes, IMPES.update { iterFlag := 0, nIter := -5 }
          { defect := fun _ => false, overshoot := fun _ => true } 1 =
            .returned code passes ∧
        code = 0 ∧ passes = 1 := by
  obtain ⟨code, passes, h1, _, _, _, _, _, h7⟩ :=
    update_terminates { iterFlag := 0, nIter := -5 }
      { defect := fun _ => false, overshoot := fun _ => true } 1 (Or.inl (by decide))
      (by decide)
  exact ⟨Or.inl (by decide), by decide, by decide, code, passes, h1, (h7 rfl).1, (h7 rfl).2⟩

/-- C30 as stated fails for `nIter = INT_MAX`: with flag `1` the test `iter > nIter` can
never hold, no number of passes makes `update` return, and after `INT_MAX` passes the
increment `iter++` overflows, where the claim has the loop end by a return within
`nIter + 1` passes. -/
theorem update_terminates_counterexample :
    IMPES.update { iterFlag := 1, nIter := INT_MAX } neverConverged 2147483648 =
        .overflow INT_MAX ∧
      ∀ (tests : ConvergenceTests) (fuel : Nat) (code passes : Int),
        IMPES.update { iterFlag := 1, nIter := INT_MAX } tests fuel ≠
          .returned code passes := by
  constructor
  · have h := loop_flag_one_max neverConverged 2147483648 0 (by decide)
    rw [IMPES.update, h, if_pos (by decide)]
  · intro tests fuel code passes hr
    have h := loop_flag_one_max tests fuel 0 (by decide)
    rw [IMPES.update, h] at hr
    split at hr <;> cases hr

end Ewoms
